import Mathlib

/-!
# The CANN device-memory pools and quantized layouts of `ggml-cann.cpp`

A shallow embedding of `ggml_cann_pool_vmm` (the virtual-memory pool), of
`ggml_cann_pool_leg` (the legacy pool), of the Q4_0 / Q8_0 layout transforms
and the set-tensor paths that use them, of the buffer-type lookup, of the
device-information table and of the operation dispatch, with theorems about
them.

Conventions of the embedding:

* `size_t` values are natural numbers below `2 ^ 64`; every `size_t`
  operation of the source is written with an explicit reduction modulo
  `2 ^ 64` (`add64`, `sub64`, `mul64`).
* Device pointers are natural numbers below `2 ^ 64` (`0` is the null
  pointer).  Pointer arithmetic `(char*)pool_addr + off` is the sum reduced
  modulo `2 ^ 64` (`add64 pool_addr off`), as the 64-bit machine computes it.
* The native runtime (`aclrt*` calls) is not part of the source.  The outcome
  of the native calls made by one `alloc` is an explicit argument
  (`AclResults`), so every theorem quantified over it holds for every
  behaviour of the runtime; `free` makes no native call.
* A call that aborts leaves no pool behind: the result is the `Fatal` value
  alone.
* `GGML_ASSERT` failures, `ACL_CHECK` failures and the (undefined) division by
  a zero granularity end the call with a `Fatal` value.
* In the legacy pool the product `1.05 * size` is computed as the source
  computes it, in IEEE 754 binary64 with rounding to nearest, ties to even
  (`fp_round53`): `size` is converted to `double`, multiplied by the `double`
  nearest to 1.05 with one rounding, and the cast to `size_t` truncates.
  Where the product is `2 ^ 64` or more the cast is undefined; the model
  takes the value 0 there, and no call aborts on it.
* Bytes are natural numbers below 256; a store into a `uint8_t` reduces modulo
  256.  The block loops of the layout transforms count in an `int`: where the
  counter would be incremented at `INT_MAX` (undefined) the transform ends with
  `QuantFatal.int_overflow`.
* Types, enumerations and constants declared outside this file (`ggml.h`,
  `ggml-common.h`, `ggml-cann/common.h`) are modelled as far as the file uses
  them; an enumeration gets a constructor `other` for the enumerators the
  file does not name.  The set-tensor paths are those of a debug build.
-/

namespace GgmlCann

/-- Addition of two `size_t` values. -/
def add64 (a b : Nat) : Nat := (a + b) % 2 ^ 64

/-- Subtraction of two `size_t` values (wraps around below zero). -/
def sub64 (a b : Nat) : Nat := (a + (2 ^ 64 - b % 2 ^ 64)) % 2 ^ 64

/-- Multiplication of two `size_t` values. -/
def mul64 (a b : Nat) : Nat := (a * b) % 2 ^ 64

/-- The constant `ggml_cann_pool_vmm::CANN_POOL_VMM_MAX_SIZE = 1ull << 35` (32 GB). -/
def CANN_POOL_VMM_MAX_SIZE : Nat := 2 ^ 35

/-- The ways a pool operation can end the process. -/
inductive Fatal where
  /-- Failure of `GGML_ASSERT(pool_size + reserve_size <= CANN_POOL_VMM_MAX_SIZE)`. -/
  | max_size_assert
  /-- An `ACL_CHECK(...)` around a native call failed. -/
  | acl_check
  /-- Failure of `GGML_ASSERT(pool_addr != 0)`. -/
  | pool_addr_assert
  /-- Failure of `GGML_ASSERT(ptr == (void*)((char*)pool_addr + pool_used))`. -/
  | lifo_assert
  /-- Division by a zero `granularity` (undefined behaviour in the source). -/
  | div_by_zero
  deriving DecidableEq

/-- Outcomes of the native calls one `alloc` may make, in source order:
`aclrtMallocPhysical` (a handle, or `none` for an error code),
`aclrtReserveMemAddress` (the reserved address, or `none`), and whether
`aclrtMapMem` reported success. -/
structure AclResults where
  mallocPhysical : Option Nat
  reserveMemAddress : Option Nat
  mapMem : Bool
  deriving DecidableEq

/-- The data members of `struct ggml_cann_pool_vmm`. -/
structure ggml_cann_pool_vmm where
  /-- Member `void* pool_addr = 0`. -/
  pool_addr : Nat
  /-- Member `size_t pool_used = 0`. -/
  pool_used : Nat
  /-- Member `size_t pool_size = 0`. -/
  pool_size : Nat
  /-- Member `size_t granularity`. -/
  granularity : Nat
  /-- Member `std::vector<aclrtDrvMemHandle> handles`. -/
  handles : List Nat
  /-- Member `std::vector<void*> map_offsets`. -/
  map_offsets : List Nat
  deriving DecidableEq

/-- The constructor `ggml_cann_pool_vmm(int device)`: every member at its
default, `granularity` read from the device table. -/
def vmm_new (granularity : Nat) : ggml_cann_pool_vmm :=
  { pool_addr := 0, pool_used := 0, pool_size := 0, granularity := granularity,
    handles := [], map_offsets := [] }

/-- First statement of `alloc`:
`size = alignment * ((size + alignment - 1) / alignment)` with `alignment = 128`. -/
def vmm_align (size : Nat) : Nat :=
  mul64 128 (sub64 (add64 size 128) 1 / 128)

/-- The rounding inside the growth branch:
`granularity * ((reserve_size + granularity - 1) / granularity)`. -/
def vmm_reserve_size (granularity reserve_size : Nat) : Nat :=
  mul64 granularity (sub64 (add64 reserve_size granularity) 1 / granularity)

/-- The body of `if (size > avail) { ... }` in `alloc`, for the already
rounded `size`; the result is the pool after the block. -/
def vmm_grow (p : ggml_cann_pool_vmm) (acl : AclResults) (size avail : Nat) :
    Except Fatal ggml_cann_pool_vmm :=
  if p.granularity = 0 then .error .div_by_zero
  else
    let reserve_size := vmm_reserve_size p.granularity (sub64 size avail)
    if ¬ (add64 p.pool_size reserve_size ≤ CANN_POOL_VMM_MAX_SIZE) then
      .error .max_size_assert
    else
      match acl.mallocPhysical with
      | none => .error .acl_check
      | some handle =>
        let reserved : Except Fatal Nat :=
          if p.pool_addr = 0 then
            match acl.reserveMemAddress with
            | none => .error .acl_check
            | some addr => .ok addr
          else .ok p.pool_addr
        match reserved with
        | .error e => .error e
        | .ok pool_addr =>
          if acl.mapMem = false then .error .acl_check
          else
            .ok { p with
                  pool_addr := pool_addr
                  handles := p.handles ++ [handle]
                  map_offsets := p.map_offsets ++ [add64 pool_addr p.pool_size]
                  pool_size := add64 p.pool_size reserve_size }

/-- The tail of `alloc` from `GGML_ASSERT(pool_addr != 0)` on: the returned
pointer, `*actual_size`, and the pool with `pool_used` advanced. -/
def vmm_bump (p : ggml_cann_pool_vmm) (size : Nat) :
    Except Fatal (Nat × Nat × ggml_cann_pool_vmm) :=
  if p.pool_addr = 0 then .error .pool_addr_assert
  else .ok (add64 p.pool_addr p.pool_used, size,
    { p with pool_used := add64 p.pool_used size })

/-- The method `ggml_cann_pool_vmm::alloc(size, actual_size)`: returns
`(ptr, *actual_size, pool afterwards)` or the fatal error that ended it. -/
def ggml_cann_pool_vmm.alloc (p : ggml_cann_pool_vmm) (acl : AclResults) (size : Nat) :
    Except Fatal (Nat × Nat × ggml_cann_pool_vmm) :=
  let size := vmm_align size
  let avail := sub64 p.pool_size p.pool_used
  if size > avail then
    match vmm_grow p acl size avail with
    | .error e => .error e
    | .ok q => vmm_bump q size
  else vmm_bump p size

/-- The method `ggml_cann_pool_vmm::free(ptr, size)`: `pool_used -= size`, then the
assertion that `ptr` is the new top of the pool. -/
def ggml_cann_pool_vmm.free (p : ggml_cann_pool_vmm) (ptr size : Nat) :
    Except Fatal ggml_cann_pool_vmm :=
  let pool_used := sub64 p.pool_used size
  if ptr = add64 p.pool_addr pool_used then .ok { p with pool_used := pool_used }
  else .error .lifo_assert

/-- States of a pool together with its live blocks `(ptr, actual_size)`, most
recent first, that a caller reaches from a fresh pool of granularity `g` by
`alloc` calls with requests of at most `bound` bytes and by `free` calls that
return the most recent live block with the size `alloc` reported for it. -/
inductive VmmReach (bound g : Nat) : ggml_cann_pool_vmm → List (Nat × Nat) → Prop where
  | fresh : VmmReach bound g (vmm_new g) []
  | alloc {p q : ggml_cann_pool_vmm} {live : List (Nat × Nat)} {acl : AclResults}
      {size ptr actual : Nat} :
      VmmReach bound g p live → size ≤ bound →
      ggml_cann_pool_vmm.alloc p acl size = .ok (ptr, actual, q) →
      VmmReach bound g q ((ptr, actual) :: live)
  | free {p q : ggml_cann_pool_vmm} {live : List (Nat × Nat)} {ptr actual : Nat} :
      VmmReach bound g p ((ptr, actual) :: live) →
      ggml_cann_pool_vmm.free p ptr actual = .ok q →
      VmmReach bound g q live

/-- The reachable states when requests range over all 64-bit sizes. -/
def VmmReachable (g : Nat) (p : ggml_cann_pool_vmm) (live : List (Nat × Nat)) : Prop :=
  VmmReach (2 ^ 64 - 1) g p live

/-- The live blocks, most recent first, tile `[base, base + used)` downwards:
the most recent block ends at `base + used`, each block ends where the next
more recent one starts, and the oldest starts at `base`. -/
def vmm_live_ok (base : Nat) : Nat → List (Nat × Nat) → Prop
  | used, [] => used = 0
  | used, b :: rest =>
    b.2 ≤ used ∧ b.1 = base + (used - b.2) ∧ vmm_live_ok base (used - b.2) rest

/-- The bookkeeping invariant of a pool of granularity `g` with live blocks
`live`. -/
structure VmmInv (g : Nat) (p : ggml_cann_pool_vmm) (live : List (Nat × Nat)) : Prop where
  gran : p.granularity = g
  used_le : p.pool_used ≤ p.pool_size
  size_le : p.pool_size ≤ CANN_POOL_VMM_MAX_SIZE
  live_ok : vmm_live_ok p.pool_addr p.pool_used live
  unreserved : p.pool_addr = 0 → live = [] ∧ p.map_offsets = []
  lengths : p.handles.length = p.map_offsets.length
  first : (p.map_offsets = [] → p.pool_size = 0) ∧
    ∀ o, p.map_offsets.head? = some o → o = p.pool_addr
  offsets_lt : p.map_offsets.Pairwise (fun a b => a < b)
  offsets_in : ∀ o ∈ p.map_offsets, o < p.pool_addr + p.pool_size

/-- A native runtime in which every call of one `alloc` succeeds, handing out
`handle` and reserving the address range at `addr`. -/
def acl_ok (handle addr : Nat) : AclResults :=
  { mallocPhysical := some handle, reserveMemAddress := some addr, mapMem := true }

/-- A native runtime in which every call fails; an `alloc` that returns under
it has made no native call. -/
def acl_fail : AclResults :=
  { mallocPhysical := none, reserveMemAddress := none, mapMem := false }

/-- The address `x` lies in the range `[r.1, r.1 + r.2)` of the block
`r = (ptr, actual_size)`. -/
def in_block (x : Nat) (r : Nat × Nat) : Prop := r.1 ≤ x ∧ x < r.1 + r.2

instance (x : Nat) (r : Nat × Nat) : Decidable (in_block x r) := by
  unfold in_block; infer_instance

/-- The size `reserve_size` of the chunk that a growing `alloc(size)` maps,
computed by the growth branch from the rounded request and
`avail = pool_size - pool_used`. -/
def vmm_chunk (p : ggml_cann_pool_vmm) (size : Nat) : Nat :=
  vmm_reserve_size p.granularity (sub64 (vmm_align size) (sub64 p.pool_size p.pool_used))

/-- The lifetime of a pool: `VmmLife p q` says that `q` is reached from `p` by
returning `alloc` and `free` calls.  A growing `alloc` maps its chunk of
`reserve_size` bytes at `pool_addr + pool_size`; the native runtime maps a
chunk only inside the 64-bit address space, so the mapped range ends at or
below `2 ^ 64`. -/
inductive VmmLife : ggml_cann_pool_vmm → ggml_cann_pool_vmm → Prop where
  | start (p : ggml_cann_pool_vmm) : VmmLife p p
  | alloc {p q r : ggml_cann_pool_vmm} {acl : AclResults} {size ptr actual : Nat} :
      VmmLife p q → q.alloc acl size = .ok (ptr, actual, r) →
      (sub64 q.pool_size q.pool_used < vmm_align size →
        r.pool_addr + q.pool_size + vmm_chunk q size ≤ 2 ^ 64) →
      VmmLife p r
  | free {p q r : ggml_cann_pool_vmm} {ptr size : Nat} :
      VmmLife p q → q.free ptr size = .ok r → VmmLife p r

/-- The sizes of the mapped chunks, in mapping order: chunk `i` reaches from
`map_offsets[i]` to the next offset, the last one to the end
`pool_addr + pool_size` of the committed range. -/
def vmm_chunk_sizes (committed_end : Nat) : List Nat → List Nat
  | [] => []
  | [o] => [committed_end - o]
  | o :: o' :: rest => (o' - o) :: vmm_chunk_sizes committed_end (o' :: rest)

/-! ## The legacy pool `ggml_cann_pool_leg` -/

/-- The constant `ggml_cann_pool_leg::MAX_BUFFERS = 256`. -/
def MAX_BUFFERS : Nat := 256

/-- The slot type `ggml_cann_pool_leg::ggml_cann_buffer`: `ptr` (0 is
`nullptr`) and `size`. -/
structure ggml_cann_buffer where
  ptr : Nat
  size : Nat
  deriving DecidableEq

/-- The data members of `struct ggml_cann_pool_leg`: the array `buffer_pool`
as the list of its `MAX_BUFFERS` slots in index order, and `pool_size`. -/
structure ggml_cann_pool_leg where
  buffer_pool : List ggml_cann_buffer
  pool_size : Nat
  deriving DecidableEq

/-- The constructor `ggml_cann_pool_leg(int device)`: every slot
`{nullptr, 0}`, `pool_size = 0`. -/
def leg_new : ggml_cann_pool_leg :=
  { buffer_pool := List.replicate MAX_BUFFERS ⟨0, 0⟩, pool_size := 0 }

/-- The ways an operation of the legacy pool can end the process. -/
inductive LegFatal where
  /-- An `ACL_CHECK(...)` around a native call failed. -/
  | acl_check
  /-- The call `GGML_ABORT("Cann buffer pool full, ...")` at the end of `free`. -/
  | pool_full
  /-- Failure of `GGML_ASSERT(pool_size == 0)` in the destructor. -/
  | pool_size_assert
  deriving DecidableEq

/-- Outcomes of the native calls of the growth path of `alloc`, in source
order: `aclrtSetDevice` (inside `ggml_cann_set_device`) and `aclrtMalloc`
(the pointer, or `none` for an error code). -/
structure AclMalloc where
  setDevice : Bool
  malloc : Option Nat
  deriving DecidableEq

/-- Outcomes of the native calls of the destructor: `aclrtSetDevice`, and
`aclrtFree` for each pointer handed to it. -/
structure AclFree where
  setDevice : Bool
  free : Nat → Bool

/-- How the scan loop of `alloc` ends: by the `return` inside the loop at slot
`i` (an exact fit), or by running off the array with the recorded `ibest`
(`none` for `-1`). -/
inductive LegScan where
  | exact (i : Nat)
  | done (ibest : Option Nat)
  deriving DecidableEq

/-- The loop `for (int i = 0; i < MAX_BUFFERS; ++i)` of `alloc` over the slots
that are still to be visited; `i` is the index of the first of them,
`best_diff` and `ibest` the loop variables. -/
def leg_scan (size : Nat) : List ggml_cann_buffer → Nat → Nat → Option Nat → LegScan
  | [], _, _, ibest => .done ibest
  | b :: rest, i, best_diff, ibest =>
    if b.ptr ≠ 0 then
      if b.size ≥ size then
        let diff := b.size - size
        if diff < best_diff then
          if diff = 0 then .exact i
          else leg_scan size rest (i + 1) diff (some i)
        else leg_scan size rest (i + 1) best_diff ibest
      else leg_scan size rest (i + 1) best_diff ibest
    else leg_scan size rest (i + 1) best_diff ibest

/-- The slot index a finished scan designates: the slot of the `return` inside
the loop, or `ibest`. -/
def LegScan.index : LegScan → Option Nat
  | .exact i => some i
  | .done ibest => ibest

/-- The slot `alloc` reuses, if any: the scan started with
`best_diff = 1ull << 36` and `ibest = -1`. -/
def leg_pick (size : Nat) (buffer_pool : List ggml_cann_buffer) : Option Nat :=
  (leg_scan size buffer_pool 0 (2 ^ 36) none).index

/-- The statements `ptr = b.ptr; *actual_size = b.size; b.ptr = nullptr;
b.size = 0; return ptr;` for the slot `b = buffer_pool[i]`. -/
def leg_take (p : ggml_cann_pool_leg) (i : Nat) : Nat × Nat × ggml_cann_pool_leg :=
  ((p.buffer_pool.getD i ⟨0, 0⟩).ptr, (p.buffer_pool.getD i ⟨0, 0⟩).size,
    { p with buffer_pool := p.buffer_pool.set i ⟨0, 0⟩ })

/-- The binary exponent of a natural number relative to 53 significant
digits: the least `s`, searched up to `fuel`, with `n / 2 ^ s < 2 ^ 53`. -/
def fp_exp : Nat → Nat → Nat
  | 0, _ => 0
  | fuel + 1, n => if n < 2 ^ 53 then 0 else fp_exp fuel (n / 2) + 1

/-- Rounding of a natural number to 53 significant binary digits, to nearest
with ties to even: the rounding of every IEEE 754 binary64 (`double`)
operation in the default rounding mode.  With `s = fp_exp 128 n` the results
are the multiples of `2 ^ s`; the search for `s` is exact for `n < 2 ^ 181`,
far above the values `alloc` meets (below `2 ^ 118`).  The rounding commutes
with scaling by a power of two, so the same function rounds `n / 2 ^ 52`. -/
def fp_round53 (n : Nat) : Nat :=
  let s := fp_exp 128 n
  let q := n / 2 ^ s
  let rem := n % 2 ^ s
  if 2 ^ s < 2 * rem ∨ (2 * rem = 2 ^ s ∧ q % 2 = 1) then (q + 1) * 2 ^ s else q * 2 ^ s

/-- The literal `1.05` of the source as a `double`, times `2 ^ 52`: the
`double` nearest to 21/20 is `4728779608739021 / 2 ^ 52`. -/
def DOUBLE_1_05 : Nat := 4728779608739021

/-- The conversion `(size_t)(1.05 * size)` as the source computes it: `size`
is converted to `double` (`fp_round53 size`), the product with the `double`
`1.05` is rounded once (`x / 2 ^ 52` is its value), and the cast truncates.
Where the product is `2 ^ 64` or more the cast is undefined: the conversion
sequence of x86-64 yields 0, the value taken here, and a saturating
conversion yields `2 ^ 64 - 1`, which `leg_round_256` maps to 0 as well. -/
def leg_look_ahead (size : Nat) : Nat :=
  let x := fp_round53 (fp_round53 size * DOUBLE_1_05)
  if x / 2 ^ 52 < 2 ^ 64 then x / 2 ^ 52 else 0

/-- The statement `look_ahead_size = 256 * ((look_ahead_size + 255) / 256)`. -/
def leg_round_256 (look_ahead_size : Nat) : Nat :=
  mul64 256 (add64 look_ahead_size 255 / 256)

/-- The native path of `alloc`, from `void* ptr;` on. -/
def leg_alloc_native (p : ggml_cann_pool_leg) (acl : AclMalloc) (size : Nat) :
    Except LegFatal (Nat × Nat × ggml_cann_pool_leg) :=
  let look_ahead_size := leg_look_ahead size
  let look_ahead_size := leg_round_256 look_ahead_size
  if acl.setDevice = false then .error .acl_check
  else
    match acl.malloc with
    | none => .error .acl_check
    | some ptr =>
      .ok (ptr, look_ahead_size, { p with pool_size := add64 p.pool_size look_ahead_size })

/-- The method `ggml_cann_pool_leg::alloc(size, actual_size)`: returns
`(ptr, *actual_size, pool afterwards)` or the fatal error that ended it. -/
def ggml_cann_pool_leg.alloc (p : ggml_cann_pool_leg) (acl : AclMalloc) (size : Nat) :
    Except LegFatal (Nat × Nat × ggml_cann_pool_leg) :=
  match leg_scan size p.buffer_pool 0 (2 ^ 36) none with
  | .exact i => .ok (leg_take p i)
  | .done (some ibest) => .ok (leg_take p ibest)
  | .done none => leg_alloc_native p acl size

/-- The loop of `free` over the slots still to be visited: the first slot
with `ptr == nullptr` receives `(ptr, size)`; `none` when the loop runs off
the array. -/
def leg_insert (ptr size : Nat) : List ggml_cann_buffer → Option (List ggml_cann_buffer)
  | [] => none
  | b :: rest =>
    if b.ptr = 0 then some (⟨ptr, size⟩ :: rest)
    else (leg_insert ptr size rest).map (fun l => b :: l)

/-- The method `ggml_cann_pool_leg::free(ptr, size)`. -/
def ggml_cann_pool_leg.free (p : ggml_cann_pool_leg) (ptr size : Nat) :
    Except LegFatal ggml_cann_pool_leg :=
  match leg_insert ptr size p.buffer_pool with
  | some l => .ok { p with buffer_pool := l }
  | none => .error .pool_full

/-- The loop of the destructor over the slots still to be visited, on the
running value of `pool_size`: each slot with a non-null pointer is handed to
`aclrtFree` and its size subtracted. -/
def leg_release (acl : AclFree) : List ggml_cann_buffer → Nat → Except LegFatal Nat
  | [], pool_size => .ok pool_size
  | b :: rest, pool_size =>
    if b.ptr ≠ 0 then
      if acl.free b.ptr = false then .error .acl_check
      else leg_release acl rest (sub64 pool_size b.size)
    else leg_release acl rest pool_size

/-- The destructor `~ggml_cann_pool_leg()`. -/
def ggml_cann_pool_leg.destroy (p : ggml_cann_pool_leg) (acl : AclFree) :
    Except LegFatal Unit :=
  if acl.setDevice = false then .error .acl_check
  else
    match leg_release acl p.buffer_pool p.pool_size with
    | .error e => .error e
    | .ok pool_size => if pool_size = 0 then .ok () else .error .pool_size_assert

/-- The slot holds a block (`b.ptr != nullptr`) that satisfies a request of
`size` bytes (`b.size >= size`). -/
def leg_fits (size : Nat) (b : ggml_cann_buffer) : Prop := b.ptr ≠ 0 ∧ size ≤ b.size

instance (size : Nat) (b : ggml_cann_buffer) : Decidable (leg_fits size b) := by
  unfold leg_fits; infer_instance

/-- The size the specification states for a newly allocated block:
`256 * ceil(1.05 * r / 256)` with 1.05 the exact rational 21/20, the ceiling
of `a / b` written `(a + (b - 1)) / b`. -/
def leg_look_ahead_spec (r : Nat) : Nat :=
  256 * ((21 * r + (20 * 256 - 1)) / (20 * 256))

/-- A native runtime that sets the device and hands out the pointer `ptr`. -/
def acl_malloc_ok (ptr : Nat) : AclMalloc := { setDevice := true, malloc := some ptr }

/-- A native runtime in which every call of `alloc` fails. -/
def acl_malloc_fail : AclMalloc := { setDevice := false, malloc := none }

/-- The slot array whose first slots hold `blocks` and whose remaining
`empty` slots are `{nullptr, 0}`. -/
def leg_slots (blocks : List ggml_cann_buffer) (empty : Nat) : List ggml_cann_buffer :=
  blocks ++ List.replicate empty ⟨0, 0⟩

/-- The calls `free(b.ptr, b.size)` for the blocks of a list, in order. -/
def leg_free_all (p : ggml_cann_pool_leg) :
    List ggml_cann_buffer → Except LegFatal ggml_cann_pool_leg
  | [] => .ok p
  | b :: rest =>
    match p.free b.ptr b.size with
    | .error e => .error e
    | .ok q => leg_free_all q rest

/-- The pools reached from a fresh pool by any sequence of returning `alloc`
and `free` calls. -/
inductive LegRun : ggml_cann_pool_leg → Prop where
  | fresh : LegRun leg_new
  | alloc {p q : ggml_cann_pool_leg} {acl : AclMalloc} {size ptr actual : Nat} :
      LegRun p → p.alloc acl size = .ok (ptr, actual, q) → LegRun q
  | free {p q : ggml_cann_pool_leg} {ptr size : Nat} :
      LegRun p → p.free ptr size = .ok q → LegRun q

/-- The number of occupied slots (slots with a non-null pointer). -/
def leg_occupied (l : List ggml_cann_buffer) : Nat :=
  (l.filter (fun b => decide (b.ptr ≠ 0))).length

/-- The total size of the blocks held in occupied slots. -/
def leg_pooled : List ggml_cann_buffer → Nat
  | [] => 0
  | b :: rest => if b.ptr ≠ 0 then b.size + leg_pooled rest else leg_pooled rest

/-- The total size of a list of blocks `(ptr, actual_size)`. -/
def leg_total : List (Nat × Nat) → Nat
  | [] => 0
  | b :: rest => b.2 + leg_total rest

/-- The pools, with the blocks `(ptr, actual_size)` handed out by `alloc` and
not yet returned, reached from a fresh pool by `alloc` calls and by `free`
calls that return an outstanding block with the size `alloc` reported.  The
blocks handed out have non-null pointers, and the blocks alive at any time
(pooled or outstanding) are disjoint ranges of a 64-bit address space, so
their sizes add up to less than `2 ^ 64`. -/
inductive LegExact : ggml_cann_pool_leg → List (Nat × Nat) → Prop where
  | fresh : LegExact leg_new []
  | alloc {p q : ggml_cann_pool_leg} {out : List (Nat × Nat)} {acl : AclMalloc}
      {size ptr actual : Nat} :
      LegExact p out → p.alloc acl size = .ok (ptr, actual, q) → ptr ≠ 0 →
      leg_pooled q.buffer_pool + leg_total ((ptr, actual) :: out) < 2 ^ 64 →
      LegExact q ((ptr, actual) :: out)
  | free {p q : ggml_cann_pool_leg} {out : List (Nat × Nat)} {ptr actual : Nat} :
      LegExact p out → (ptr, actual) ∈ out → p.free ptr actual = .ok q →
      LegExact q (out.erase (ptr, actual))

/-- A native runtime in which every call of the destructor succeeds. -/
def acl_free_ok : AclFree := { setDevice := true, free := fun _ => true }

/-- The scan loop of the variant of `alloc` without the early return: it
always scans every slot, recording a slot whenever its waste is strictly
below `best_diff`, and yields the recorded best slot `ibest`. -/
def leg_scan_all (size : Nat) : List ggml_cann_buffer → Nat → Nat → Option Nat → Option Nat
  | [], _, _, ibest => ibest
  | b :: rest, i, best_diff, ibest =>
    if b.ptr ≠ 0 then
      if b.size ≥ size then
        let diff := b.size - size
        if diff < best_diff then leg_scan_all size rest (i + 1) diff (some i)
        else leg_scan_all size rest (i + 1) best_diff ibest
      else leg_scan_all size rest (i + 1) best_diff ibest
    else leg_scan_all size rest (i + 1) best_diff ibest

/-- The variant of `ggml_cann_pool_leg::alloc` that scans all slots and then
takes the recorded best slot, falling back to the native allocation as
`alloc` does. -/
def ggml_cann_pool_leg.alloc_scan_all (p : ggml_cann_pool_leg) (acl : AclMalloc)
    (size : Nat) : Except LegFatal (Nat × Nat × ggml_cann_pool_leg) :=
  match leg_scan_all size p.buffer_pool 0 (2 ^ 36) none with
  | some ibest => .ok (leg_take p ibest)
  | none => leg_alloc_native p acl size

/-! ## The quantized layouts Q4_0 and Q8_0 -/

/-- Modelled from the spec: the constant `QK4_0` of `ggml-common.h`, the
number of elements of a Q4_0 block; the block size is 32. -/
def QK4_0 : Nat := 32

/-- Modelled from the spec: the constant `QK8_0` of `ggml-common.h`, the
number of elements of a Q8_0 block; the block size is 32. -/
def QK8_0 : Nat := 32

/-- The largest value of the type `int` (32 bits), the type of the loop
counters of the transforms. -/
def INT_MAX : Nat := 2 ^ 31 - 1

/-- Modelled from the spec: the type `block_q4_0` of `ggml-common.h`: the
16-bit scale `d` and the `QK4_0 / 2` bytes `qs`, each holding two 4-bit
elements (element `e < 16` in the low nibble of `qs[e]`, element `e ≥ 16` in
the high nibble of `qs[e - 16]`). -/
structure block_q4_0 where
  d : Nat
  qs : List Nat
  deriving DecidableEq

/-- Modelled from the spec: the type `block_q8_0` of `ggml-common.h`: the
16-bit scale `d` and the `QK8_0` bytes `qs`, one element each. -/
structure block_q8_0 where
  d : Nat
  qs : List Nat
  deriving DecidableEq

/-- A buffer in the device layout of a quantized tensor: the quant bytes, which
start at offset 0, and the 16-bit scales, which start at byte offset
`quant_bytes` (scale `i` at `quant_bytes + 2 * i`).  Only the bytes the
transforms write or read are kept. -/
structure cann_quant_buffer where
  quant : List Nat
  scale : List Nat
  deriving DecidableEq

/-- The ways a transform leaves defined behaviour. -/
inductive QuantFatal where
  /-- The loop counter `int i` is incremented at `INT_MAX`. -/
  | int_overflow
  deriving DecidableEq

/-- The byte written by an iteration of the loop `// 0-15` of
`ggml_backend_cann_transform_q4_0` from `a = qs[j]` and `b = qs[j + 1]`:
`(a & 0x0F) | (b << 4)`, stored in a `uint8_t`. -/
def q4_0_low (a b : Nat) : Nat := ((a &&& 0x0F) ||| (b <<< 4)) % 256

/-- The byte written by an iteration of the loop `// 16-31` of
`ggml_backend_cann_transform_q4_0`: `(a >> 4) | (b & 0xF0)`. -/
def q4_0_high (a b : Nat) : Nat := ((a >>> 4) ||| (b &&& 0xF0)) % 256

/-- The 16 bytes `ggml_backend_cann_transform_q4_0` writes for one block: the
loop `// 0-15` over `j = 0, 2, .., 14`, then the loop `// 16-31`. -/
def q4_0_pack (qs : List Nat) : List Nat :=
  (List.range (QK4_0 / 2 / 2)).map
    (fun k => q4_0_low (qs.getD (2 * k) 0) (qs.getD (2 * k + 1) 0)) ++
  (List.range (QK4_0 / 2 / 2)).map
    (fun k => q4_0_high (qs.getD (2 * k) 0) (qs.getD (2 * k + 1) 0))

/-- The loop `(*quant_offset) ^= 0x88` over the first `quant_bytes` bytes. -/
def xor_0x88 (quant_bytes : Nat) (quant : List Nat) : List Nat :=
  (quant.take quant_bytes).map (fun b => b ^^^ 0x88) ++ quant.drop quant_bytes

/-- The function `ggml_backend_cann_transform_q4_0` on a tensor of `n_elems`
elements: per block the scale is copied and the 16 quant bytes are regrouped,
then `0x88` is xored onto the quant bytes.  The counter `int i` runs up to
`groups`, an `int64_t`: with more than `INT_MAX` groups it is incremented at
`INT_MAX`, which is undefined. -/
def ggml_backend_cann_transform_q4_0 (n_elems : Nat) (src : List block_q4_0) :
    Except QuantFatal cann_quant_buffer :=
  let groups := n_elems / QK4_0
  let quant_bytes := n_elems * 1 / 2
  if groups > INT_MAX then .error .int_overflow
  else
    .ok { quant := xor_0x88 quant_bytes
            (List.flatten ((src.take groups).map (fun group => q4_0_pack group.qs))),
          scale := (src.take groups).map (fun group => group.d) }

/-- The bytes `qs[j], qs[j + 1]` that `ggml_backend_cann_transform_back_q4_0`
rebuilds from the byte `lo` of the loop `// 0-15` and the byte `hi` of the
loop `// 16-31`: `qs[j] = lo & 0x0F; qs[j] |= hi << 4` and
`qs[j + 1] = lo >> 4; qs[j + 1] |= hi & 0xF0`, stored in `uint8_t`. -/
def q4_0_pair (lo hi : Nat) : List Nat :=
  [((lo &&& 0x0F) ||| (hi <<< 4)) % 256, ((lo >>> 4) ||| (hi &&& 0xF0)) % 256]

/-- The 16 bytes `qs` that `ggml_backend_cann_transform_back_q4_0` rebuilds
from the 16 quant bytes of one block. -/
def q4_0_unpack (bytes : List Nat) : List Nat :=
  List.flatten ((List.range (QK4_0 / 2 / 2)).map
    (fun k => q4_0_pair (bytes.getD k 0) (bytes.getD (QK4_0 / 2 / 2 + k) 0)))

/-- The block loop of `ggml_backend_cann_transform_back_q4_0`: each iteration
reads one scale and the next 16 quant bytes. -/
def transform_back_q4_0_loop : Nat → List Nat → List Nat → List block_q4_0
  | 0, _, _ => []
  | groups + 1, quant, scale =>
    { d := scale.headD 0, qs := q4_0_unpack (quant.take (QK4_0 / 2)) } ::
      transform_back_q4_0_loop groups (quant.drop (QK4_0 / 2)) (scale.drop 1)

/-- The function `ggml_backend_cann_transform_back_q4_0`: it xors `0x88` onto
the quant bytes of `src` in place, then rebuilds the blocks.  The result is
the destination buffer and the source buffer as the call leaves it. -/
def ggml_backend_cann_transform_back_q4_0 (n_elems : Nat) (src : cann_quant_buffer) :
    Except QuantFatal (List block_q4_0 × cann_quant_buffer) :=
  let groups := n_elems / QK4_0
  let quant_bytes := n_elems * 1 / 2
  let quant := xor_0x88 quant_bytes src.quant
  if groups > INT_MAX then .error .int_overflow
  else .ok (transform_back_q4_0_loop groups quant src.scale, { src with quant := quant })

/-- The function `ggml_backend_cann_transform_q8_0`: per block the scale is
copied and the `QK8_0` quant bytes are copied with `memcpy`. -/
def ggml_backend_cann_transform_q8_0 (n_elems : Nat) (src : List block_q8_0) :
    Except QuantFatal cann_quant_buffer :=
  let groups := n_elems / QK8_0
  if groups > INT_MAX then .error .int_overflow
  else
    .ok { quant := List.flatten ((src.take groups).map (fun group => group.qs.take QK8_0)),
          scale := (src.take groups).map (fun group => group.d) }

/-- The block loop of `ggml_backend_cann_transform_back_q8_0`: each iteration
reads one scale and copies the next `QK8_0` quant bytes. -/
def transform_back_q8_0_loop : Nat → List Nat → List Nat → List block_q8_0
  | 0, _, _ => []
  | groups + 1, quant, scale =>
    { d := scale.headD 0, qs := quant.take QK8_0 } ::
      transform_back_q8_0_loop groups (quant.drop QK8_0) (scale.drop 1)

/-- The function `ggml_backend_cann_transform_back_q8_0`; it leaves its source
buffer as it is. -/
def ggml_backend_cann_transform_back_q8_0 (n_elems : Nat) (src : cann_quant_buffer) :
    Except QuantFatal (List block_q8_0) :=
  let groups := n_elems / QK8_0
  if groups > INT_MAX then .error .int_overflow
  else .ok (transform_back_q8_0_loop groups src.quant src.scale)

/-- A well-formed Q4_0 host buffer entry: 16 bytes of quants. -/
def block_q4_0.wf (g : block_q4_0) : Prop :=
  g.qs.length = QK4_0 / 2 ∧ ∀ x ∈ g.qs, x < 256

/-- A well-formed Q8_0 host buffer entry: 32 bytes of quants. -/
def block_q8_0.wf (g : block_q8_0) : Prop :=
  g.qs.length = QK8_0

/-! ## Buffer types and backends per device -/

/-- The function `ggml_backend_cann_buffer_type(device)`, given the value
`device_count` of `ggml_backend_cann_get_device_count()`.  The result `none`
is `nullptr`; `some i` is the address `&ggml_backend_cann_buffer_types[i]` of
the static table (for a negative `i` an address before the table).  The only
check is `device >= device_count`; the table is filled on the first call
whatever `device` is. -/
def ggml_backend_cann_buffer_type (device_count device : Int) : Option Int :=
  if device ≥ device_count then none else some device

/-- The function `ggml_backend_cann_init(device)`, given the device count:
`none` is `nullptr`, returned when `device < 0 || device >= device_count`;
`some i` is a backend whose context is that of device `i`.  The native
initialisation and the allocations are left out. -/
def ggml_backend_cann_init (device_count device : Int) : Option Int :=
  if device < 0 ∨ device ≥ device_count then none else some device

/-! ## Device information -/

/-- Modelled from the spec: the type `ggml_cann_device_info` of
`ggml-cann/common.h`: the device count (an `int32_t`) and the table `devices`
of `GGML_CANN_MAX_DEVICES` entries, of which only the member
`vmm_granularity` is kept (this file writes no other member). -/
structure ggml_cann_device_info where
  device_count : Int
  devices : List Nat
  deriving DecidableEq

/-- Outcomes of the native calls of `ggml_cann_init`: `aclrtGetDeviceCount`
(the `uint32_t` count it writes, or `none` for an error code, the output then
being left as it was) and `aclrtMemGetAllocationGranularity` for the device
`id` (the granularity it writes, or `none` for an error code). -/
structure AclInit where
  getDeviceCount : Option Nat
  getAllocationGranularity : Nat → Option Nat

/-- The ways `ggml_cann_init` can end the process. -/
inductive InitFatal where
  /-- Failure of `GGML_ASSERT(info.device_count <= GGML_CANN_MAX_DEVICES)`. -/
  | device_count_assert
  /-- An `ACL_CHECK(...)` around a native call failed. -/
  | acl_check
  deriving DecidableEq

/-- The value of an `int32_t` object into which the `uint32_t` value `c` was
written, as `aclrtGetDeviceCount((uint32_t*)&info.device_count)` does. -/
def int32_of_uint32 (c : Nat) : Int :=
  if c % 2 ^ 32 < 2 ^ 31 then ((c % 2 ^ 32 : Nat) : Int)
  else ((c % 2 ^ 32 : Nat) : Int) - 2 ^ 32

/-- The loop `for (int id = 0; id < info.device_count; ++id)` of
`ggml_cann_init` over the remaining device ids: each iteration stores the
granularity reported for `id` in `info.devices[id].vmm_granularity`. -/
def ggml_cann_init_loop (acl : AclInit) : List Nat → List Nat → Except InitFatal (List Nat)
  | [], devices => .ok devices
  | id :: rest, devices =>
    match acl.getAllocationGranularity id with
    | none => .error .acl_check
    | some g => ggml_cann_init_loop acl rest (devices.set id g)

/-- The function `ggml_cann_init()`, with `GGML_CANN_MAX_DEVICES` (not under
src/) as the parameter `max_devices`: `info = {}` is the all-zero table. -/
def ggml_cann_init (max_devices : Nat) (acl : AclInit) :
    Except InitFatal ggml_cann_device_info :=
  let info : ggml_cann_device_info :=
    { device_count := 0, devices := List.replicate max_devices 0 }
  match acl.getDeviceCount with
  | none => .ok info
  | some c =>
    let device_count := int32_of_uint32 c
    if ¬ (device_count ≤ (max_devices : Int)) then .error .device_count_assert
    else
      match ggml_cann_init_loop acl (List.range device_count.toNat) info.devices with
      | .error e => .error e
      | .ok devices => .ok { device_count := device_count, devices := devices }

/-! ## Tensors, operations and the graph -/

/-- Modelled from the spec: the enumeration `ggml_type` of `ggml.h`: the
enumerators this file names, and `other` for every further one. -/
inductive ggml_type where
  | GGML_TYPE_F32
  | GGML_TYPE_F16
  | GGML_TYPE_Q4_0
  | GGML_TYPE_Q8_0
  | other (code : Nat)
  deriving DecidableEq

/-- Modelled from the spec: the enumeration `ggml_op` of `ggml.h`: the
enumerators this file names, and `other` for every further one. -/
inductive ggml_op where
  | GGML_OP_NONE
  | GGML_OP_DUP
  | GGML_OP_ADD
  | GGML_OP_ACC
  | GGML_OP_MUL
  | GGML_OP_DIV
  | GGML_OP_SQR
  | GGML_OP_SUM_ROWS
  | GGML_OP_REPEAT
  | GGML_OP_CONCAT
  | GGML_OP_NORM
  | GGML_OP_RMS_NORM
  | GGML_OP_GROUP_NORM
  | GGML_OP_MUL_MAT
  | GGML_OP_MUL_MAT_ID
  | GGML_OP_SCALE
  | GGML_OP_CPY
  | GGML_OP_CONT
  | GGML_OP_RESHAPE
  | GGML_OP_VIEW
  | GGML_OP_PERMUTE
  | GGML_OP_TRANSPOSE
  | GGML_OP_GET_ROWS
  | GGML_OP_DIAG_MASK_INF
  | GGML_OP_SOFT_MAX
  | GGML_OP_ROPE
  | GGML_OP_CLAMP
  | GGML_OP_IM2COL
  | GGML_OP_POOL_2D
  | GGML_OP_UPSCALE
  | GGML_OP_PAD
  | GGML_OP_ARANGE
  | GGML_OP_TIMESTEP_EMBEDDING
  | GGML_OP_ARGSORT
  | GGML_OP_LEAKY_RELU
  | GGML_OP_UNARY
  | other (code : Nat)
  deriving DecidableEq

/-- Modelled from the spec: the enumeration `ggml_unary_op` of `ggml.h`: the
enumerators this file names, and `other` for every further one. -/
inductive ggml_unary_op where
  | GGML_UNARY_OP_GELU
  | GGML_UNARY_OP_SILU
  | GGML_UNARY_OP_GELU_QUICK
  | GGML_UNARY_OP_TANH
  | GGML_UNARY_OP_RELU
  | GGML_UNARY_OP_HARDSIGMOID
  | GGML_UNARY_OP_HARDSWISH
  | other (code : Nat)
  deriving DecidableEq

/-- Modelled from the spec: what the functions of this file read of a
`ggml_tensor` (`ggml.h`): its `type`, its `op`, the value of
`ggml_get_unary_op`, the type of `src[0]`, the value of `ggml_nelements` and
the value of `ggml_is_empty`. -/
structure ggml_tensor where
  type : ggml_type
  op : ggml_op
  unary_op : ggml_unary_op
  src0_type : ggml_type
  nelements : Nat
  is_empty : Bool
  deriving DecidableEq

/-- The function `need_transform(type)`. -/
def need_transform : ggml_type → Bool
  | .GGML_TYPE_Q4_0 => true
  | .GGML_TYPE_Q8_0 => true
  | _ => false

/-- The value returned by `ggml_cann_compute_forward(ctx, dst)`.  The kernels
it calls (`ggml_cann_add` and the like) return nothing and are not under src/;
their effect on device memory is left out, and a kernel that aborts ends the
process before a value is returned. -/
def ggml_cann_compute_forward (dst : ggml_tensor) : Bool :=
  match dst.op with
  | .GGML_OP_REPEAT => true
  | .GGML_OP_GET_ROWS => true
  | .GGML_OP_DUP => true
  | .GGML_OP_ADD => true
  | .GGML_OP_ACC => true
  | .GGML_OP_MUL => true
  | .GGML_OP_DIV => true
  | .GGML_OP_UNARY =>
    match dst.unary_op with
    | .GGML_UNARY_OP_GELU => true
    | .GGML_UNARY_OP_SILU => true
    | .GGML_UNARY_OP_GELU_QUICK => true
    | .GGML_UNARY_OP_TANH => true
    | .GGML_UNARY_OP_RELU => true
    | .GGML_UNARY_OP_HARDSIGMOID => true
    | .GGML_UNARY_OP_HARDSWISH => true
    | _ => false
  | .GGML_OP_NORM => true
  | .GGML_OP_GROUP_NORM => true
  | .GGML_OP_CONCAT => true
  | .GGML_OP_UPSCALE => true
  | .GGML_OP_PAD => true
  | .GGML_OP_ARANGE => true
  | .GGML_OP_TIMESTEP_EMBEDDING => true
  | .GGML_OP_LEAKY_RELU => true
  | .GGML_OP_RMS_NORM => true
  | .GGML_OP_MUL_MAT => true
  | .GGML_OP_MUL_MAT_ID => false
  | .GGML_OP_SCALE => true
  | .GGML_OP_SQR => true
  | .GGML_OP_CLAMP => true
  | .GGML_OP_CPY => true
  | .GGML_OP_CONT => true
  | .GGML_OP_NONE => true
  | .GGML_OP_RESHAPE => true
  | .GGML_OP_VIEW => true
  | .GGML_OP_PERMUTE => true
  | .GGML_OP_TRANSPOSE => true
  | .GGML_OP_DIAG_MASK_INF => true
  | .GGML_OP_SOFT_MAX => true
  | .GGML_OP_ROPE => true
  | .GGML_OP_IM2COL => true
  | .GGML_OP_POOL_2D => true
  | .GGML_OP_SUM_ROWS => true
  | .GGML_OP_ARGSORT => true
  | _ => false

/-- The function `ggml_backend_cann_supports_op(backend, op)`. -/
def ggml_backend_cann_supports_op (op : ggml_tensor) : Bool :=
  match op.op with
  | .GGML_OP_UNARY =>
    match op.unary_op with
    | .GGML_UNARY_OP_GELU => true
    | .GGML_UNARY_OP_SILU => true
    | .GGML_UNARY_OP_RELU => true
    | .GGML_UNARY_OP_HARDSIGMOID => true
    | .GGML_UNARY_OP_HARDSWISH => true
    | .GGML_UNARY_OP_GELU_QUICK => true
    | .GGML_UNARY_OP_TANH => true
    | _ => false
  | .GGML_OP_MUL_MAT =>
    match op.src0_type with
    | .GGML_TYPE_F16 => true
    | .GGML_TYPE_F32 => true
    | .GGML_TYPE_Q8_0 => true
    | .GGML_TYPE_Q4_0 => true
    | _ => false
  | .GGML_OP_MUL_MAT_ID => false
  | .GGML_OP_GET_ROWS =>
    match op.src0_type with
    | .GGML_TYPE_F32 => true
    | .GGML_TYPE_F16 => true
    | .GGML_TYPE_Q4_0 => true
    | .GGML_TYPE_Q8_0 => true
    | _ => false
  | .GGML_OP_CPY =>
    match op.type with
    | .GGML_TYPE_F32 => true
    | .GGML_TYPE_F16 => true
    | .GGML_TYPE_Q8_0 => true
    | .GGML_TYPE_Q4_0 => true
    | _ => false
  | .GGML_OP_DUP => true
  | .GGML_OP_REPEAT => true
  | .GGML_OP_CONCAT => true
  | .GGML_OP_NONE => true
  | .GGML_OP_RESHAPE => true
  | .GGML_OP_VIEW => true
  | .GGML_OP_PERMUTE => true
  | .GGML_OP_TRANSPOSE => true
  | .GGML_OP_NORM => true
  | .GGML_OP_ADD => true
  | .GGML_OP_MUL => true
  | .GGML_OP_DIV => true
  | .GGML_OP_RMS_NORM => true
  | .GGML_OP_SCALE => true
  | .GGML_OP_SQR => true
  | .GGML_OP_CLAMP => true
  | .GGML_OP_CONT => true
  | .GGML_OP_DIAG_MASK_INF => true
  | .GGML_OP_SOFT_MAX => true
  | .GGML_OP_ROPE => true
  | .GGML_OP_IM2COL => true
  | .GGML_OP_POOL_2D => true
  | .GGML_OP_SUM_ROWS => true
  | .GGML_OP_ARGSORT => true
  | .GGML_OP_ACC => true
  | .GGML_OP_GROUP_NORM => true
  | .GGML_OP_UPSCALE => true
  | .GGML_OP_PAD => true
  | .GGML_OP_ARANGE => true
  | .GGML_OP_TIMESTEP_EMBEDDING => true
  | .GGML_OP_LEAKY_RELU => true
  | _ => false

/-- The ways `ggml_backend_cann_graph_compute` can end the process. -/
inductive GraphFatal where
  /-- The `ACL_CHECK` of `ggml_cann_set_device` failed. -/
  | acl_check
  /-- Failure of `GGML_ASSERT(ok)`. -/
  | ok_assert
  deriving DecidableEq

/-- Modelled from the spec: the value `GGML_STATUS_SUCCESS` of
`enum ggml_status` (`ggml.h`), the only status this file returns. -/
inductive ggml_status where
  | GGML_STATUS_SUCCESS
  deriving DecidableEq

/-- The node loop of `ggml_backend_cann_graph_compute`: empty nodes and nodes
with `GGML_OP_NONE` are skipped, every other node is computed and
`GGML_ASSERT(ok)` checks the value returned. -/
def graph_compute_loop : List ggml_tensor → Except GraphFatal ggml_status
  | [] => .ok .GGML_STATUS_SUCCESS
  | node :: rest =>
    if node.is_empty = true ∨ node.op = .GGML_OP_NONE then graph_compute_loop rest
    else if ggml_cann_compute_forward node = false then .error .ok_assert
    else graph_compute_loop rest

/-- The function `ggml_backend_cann_graph_compute(backend, cgraph)` on the
nodes of the graph; `setDevice` tells whether `aclrtSetDevice` succeeded. -/
def ggml_backend_cann_graph_compute (setDevice : Bool) (nodes : List ggml_tensor) :
    Except GraphFatal ggml_status :=
  if setDevice = false then .error .acl_check else graph_compute_loop nodes

/-! ## The Q4_0 device layout, element by element -/

/-- Modelled from the spec: the 4-bit value of element `e` (0..31) of a Q4_0
block: element `e < 16` is the low nibble of `qs[e]`, element `e ≥ 16` the
high nibble of `qs[e - 16]`. -/
def block_q4_0.element (g : block_q4_0) (e : Nat) : Nat :=
  if e < 16 then g.qs.getD e 0 % 16 else g.qs.getD (e - 16) 0 / 16

/-- The nibble of a device byte that belongs to element `e`: the low nibble
when `e` is even, the high nibble when `e` is odd. -/
def cann_nibble (byte e : Nat) : Nat :=
  if e % 2 = 0 then byte % 16 else byte / 16

/-! ## Setting tensor data -/

/-- The bytes of a `block_q4_0` in host memory: the scale (two bytes, low byte
first), then the 16 quant bytes. -/
def block_q4_0.bytes (g : block_q4_0) : List Nat :=
  [g.d % 256, g.d / 256 % 256] ++ g.qs

/-- The bytes of a `block_q8_0` in host memory: the scale (two bytes, low byte
first), then the 32 quant bytes. -/
def block_q8_0.bytes (g : block_q8_0) : List Nat :=
  [g.d % 256, g.d / 256 % 256] ++ g.qs

/-- The library function `memcmp(a, b, size)` on two byte buffers: 0 when the
first `size` bytes agree, otherwise the sign of the first difference. -/
def memcmp : List Nat → List Nat → Nat → Int
  | x :: a, y :: b, size + 1 =>
    if x = y then memcmp a b size else if x < y then -1 else 1
  | _, _, _ => 0

/-- The arguments `tensor` and `data` of the set-tensor paths, by the type of
the tensor: a Q4_0 or Q8_0 tensor (the types for which `need_transform` is
true) of `n_elems` elements with its host data as an array of blocks, or a
tensor of any other type with its host data as bytes. -/
inductive set_tensor_args where
  | q4_0 (n_elems : Nat) (data : List block_q4_0)
  | q8_0 (n_elems : Nat) (data : List block_q8_0)
  | plain (data : List Nat)

/-- What a set-tensor path copies to the device. -/
inductive device_data where
  | quant (transform_buffer : cann_quant_buffer)
  | plain (bytes : List Nat)
  deriving DecidableEq

/-- The ways a set-tensor path can end the process. -/
inductive SetFatal where
  /-- The transform or the transform back left defined behaviour. -/
  | undefined (e : QuantFatal)
  /-- Failure of the debug-build `GGML_ASSERT` on the result of `memcmp`. -/
  | check_assert
  /-- An `ACL_CHECK(...)` around a native call failed. -/
  | acl_check
  deriving DecidableEq

/-- Outcomes of the native calls of a set-tensor path: `aclrtSetDevice`, the
copy (`aclrtMemcpy` or `aclrtMemcpyAsync`) and `aclrtSynchronizeStream`. -/
structure AclSet where
  setDevice : Bool
  memcpy : Bool
  synchronize : Bool
  deriving DecidableEq

/-- The function `ggml_backend_cann_buffer_set_tensor` in a debug build
(`NDEBUG` not defined), `size` being the byte size of the data: for a
quantized tensor the data is transformed, transformed back into
`check_buffer`, `GGML_ASSERT(memcmp(data, check_buffer, size) == 0)` is
checked and `transform_buffer`, as the transform back left it, is copied to
the device. -/
def ggml_backend_cann_buffer_set_tensor (acl : AclSet) (args : set_tensor_args)
    (size : Nat) : Except SetFatal device_data :=
  if acl.setDevice = false then .error .acl_check
  else
    match args with
    | .plain data =>
      if acl.memcpy = false then .error .acl_check else .ok (.plain (data.take size))
    | .q4_0 n_elems data =>
      match ggml_backend_cann_transform_q4_0 n_elems data with
      | .error e => .error (.undefined e)
      | .ok transform_buffer =>
        match ggml_backend_cann_transform_back_q4_0 n_elems transform_buffer with
        | .error e => .error (.undefined e)
        | .ok (check_buffer, transform_buffer) =>
          if ¬ (memcmp (data.flatMap block_q4_0.bytes)
              (check_buffer.flatMap block_q4_0.bytes) size = 0) then .error .check_assert
          else if acl.memcpy = false then .error .acl_check
          else .ok (.quant transform_buffer)
    | .q8_0 n_elems data =>
      match ggml_backend_cann_transform_q8_0 n_elems data with
      | .error e => .error (.undefined e)
      | .ok transform_buffer =>
        match ggml_backend_cann_transform_back_q8_0 n_elems transform_buffer with
        | .error e => .error (.undefined e)
        | .ok check_buffer =>
          if ¬ (memcmp (data.flatMap block_q8_0.bytes)
              (check_buffer.flatMap block_q8_0.bytes) size = 0) then .error .check_assert
          else if acl.memcpy = false then .error .acl_check
          else .ok (.quant transform_buffer)

/-- The function `ggml_backend_cann_set_tensor_async` in a debug build: as
`ggml_backend_cann_buffer_set_tensor`, without the call that sets the device,
with the check written `GGML_ASSERT(memcmp(data, check_buffer, size))`, which
holds when `memcmp` returns a non-zero value, and with a stream
synchronisation after the copy of a quantized tensor. -/
def ggml_backend_cann_set_tensor_async (acl : AclSet) (args : set_tensor_args)
    (size : Nat) : Except SetFatal device_data :=
  match args with
  | .plain data =>
    if acl.memcpy = false then .error .acl_check else .ok (.plain (data.take size))
  | .q4_0 n_elems data =>
    match ggml_backend_cann_transform_q4_0 n_elems data with
    | .error e => .error (.undefined e)
    | .ok transform_buffer =>
      match ggml_backend_cann_transform_back_q4_0 n_elems transform_buffer with
      | .error e => .error (.undefined e)
      | .ok (check_buffer, transform_buffer) =>
        if ¬ (memcmp (data.flatMap block_q4_0.bytes)
            (check_buffer.flatMap block_q4_0.bytes) size ≠ 0) then .error .check_assert
        else if acl.memcpy = false then .error .acl_check
        else if acl.synchronize = false then .error .acl_check
        else .ok (.quant transform_buffer)
  | .q8_0 n_elems data =>
    match ggml_backend_cann_transform_q8_0 n_elems data with
    | .error e => .error (.undefined e)
    | .ok transform_buffer =>
      match ggml_backend_cann_transform_back_q8_0 n_elems transform_buffer with
      | .error e => .error (.undefined e)
      | .ok check_buffer =>
        if ¬ (memcmp (data.flatMap block_q8_0.bytes)
            (check_buffer.flatMap block_q8_0.bytes) size ≠ 0) then .error .check_assert
        else if acl.memcpy = false then .error .acl_check
        else if acl.synchronize = false then .error .acl_check
        else .ok (.quant transform_buffer)

/-- A native runtime in which every call of a set-tensor path succeeds. -/
def acl_set_ok : AclSet := { setDevice := true, memcpy := true, synchronize := true }

/-! # Theorems -/

/-! ## Arithmetic of the `size_t` operations -/

theorem add64_lt (a b : Nat) : add64 a b < 2 ^ 64 := by
  unfold add64; omega

theorem sub64_lt (a b : Nat) : sub64 a b < 2 ^ 64 := by
  unfold sub64; omega

theorem mul64_lt (a b : Nat) : mul64 a b < 2 ^ 64 := by
  unfold mul64; omega

theorem sub64_add64_cancel (a b : Nat) (ha : a < 2 ^ 64) : sub64 (add64 a b) b = a := by
  unfold sub64 add64; omega

theorem vmm_align_lt (size : Nat) : vmm_align size < 2 ^ 64 := mul64_lt _ _

theorem vmm_align_dvd (size : Nat) : 128 ∣ vmm_align size := by
  unfold vmm_align mul64 sub64 add64; omega

theorem vmm_align_eq (size : Nat) (h : size ≤ 2 ^ 64 - 128) :
    vmm_align size = 128 * ((size + 127) / 128) := by
  unfold vmm_align mul64 sub64 add64; omega

theorem vmm_align_wrap (size : Nat) (h1 : 2 ^ 64 - 128 < size) (h2 : size < 2 ^ 64) :
    vmm_align size = 0 := by
  unfold vmm_align mul64 sub64 add64; omega

/-! ## Case analysis of a successful `alloc` -/

theorem vmm_bump_ok {p q : ggml_cann_pool_vmm} {size ptr actual : Nat}
    (h : vmm_bump p size = .ok (ptr, actual, q)) :
    p.pool_addr ≠ 0 ∧ ptr = add64 p.pool_addr p.pool_used ∧ actual = size ∧
      q = { p with pool_used := add64 p.pool_used size } := by
  unfold vmm_bump at h
  split at h
  · cases h
  · rename_i hne
    injection h with h
    injection h with h1 h2
    injection h2 with h2 h3
    exact ⟨hne, h1.symm, h2.symm, h3.symm⟩

theorem vmm_grow_ok {p q : ggml_cann_pool_vmm} {acl : AclResults} {size avail : Nat}
    (h : vmm_grow p acl size avail = .ok q) :
    p.granularity ≠ 0 ∧
    add64 p.pool_size (vmm_reserve_size p.granularity (sub64 size avail))
      ≤ CANN_POOL_VMM_MAX_SIZE ∧
    ∃ handle pool_addr,
      acl.mallocPhysical = some handle ∧
      (if p.pool_addr = 0 then acl.reserveMemAddress = some pool_addr
        else pool_addr = p.pool_addr) ∧
      acl.mapMem = true ∧
      q = { p with
            pool_addr := pool_addr
            handles := p.handles ++ [handle]
            map_offsets := p.map_offsets ++ [add64 pool_addr p.pool_size]
            pool_size := add64 p.pool_size
              (vmm_reserve_size p.granularity (sub64 size avail)) } := by
  unfold vmm_grow at h
  split at h
  · cases h
  · rename_i hg
    simp only at h
    split at h
    · cases h
    · rename_i hmax
      split at h
      · cases h
      · rename_i handle hh
        split at h
        · cases h
        · rename_i pool_addr hres
          split at h
          · cases h
          · rename_i hmap
            injection h with h
            refine ⟨hg, not_not.mp hmax, handle, pool_addr, hh, ?_, by simpa using hmap, h.symm⟩
            split at hres
            · rename_i h0
              rw [if_pos h0]
              split at hres
              · cases hres
              · rename_i addr ha
                injection hres with hres
                subst hres
                exact ha
            · rename_i h0
              rw [if_neg h0]
              injection hres with hres
              exact hres.symm

/-- What a successful `alloc` did, by cases on whether the pool grew. -/
theorem vmm_alloc_ok {p q : ggml_cann_pool_vmm} {acl : AclResults} {size ptr actual : Nat}
    (h : ggml_cann_pool_vmm.alloc p acl size = .ok (ptr, actual, q)) :
    actual = vmm_align size ∧
    q.pool_addr ≠ 0 ∧
    ptr = add64 q.pool_addr p.pool_used ∧
    q.pool_used = add64 p.pool_used actual ∧
    q.granularity = p.granularity ∧
    (p.pool_addr ≠ 0 → q.pool_addr = p.pool_addr) ∧
    ((actual ≤ sub64 p.pool_size p.pool_used ∧ q.pool_addr = p.pool_addr ∧
        q.pool_size = p.pool_size ∧ q.handles = p.handles ∧
        q.map_offsets = p.map_offsets) ∨
     (sub64 p.pool_size p.pool_used < actual ∧ p.granularity ≠ 0 ∧
        add64 p.pool_size (vmm_reserve_size p.granularity
          (sub64 actual (sub64 p.pool_size p.pool_used))) ≤ CANN_POOL_VMM_MAX_SIZE ∧
        q.pool_size = add64 p.pool_size (vmm_reserve_size p.granularity
          (sub64 actual (sub64 p.pool_size p.pool_used))) ∧
        ∃ handle, acl.mallocPhysical = some handle ∧
          q.handles = p.handles ++ [handle] ∧
          q.map_offsets = p.map_offsets ++ [add64 q.pool_addr p.pool_size])) := by
  unfold ggml_cann_pool_vmm.alloc at h
  simp only at h
  split at h
  · rename_i hgt
    split at h
    · cases h
    · rename_i q1 hgrow
      obtain ⟨hg, hmax, handle, pool_addr, hh, hres, -, hq1⟩ := vmm_grow_ok hgrow
      obtain ⟨hne, hptr, hact, hq⟩ := vmm_bump_ok h
      subst hq1 hq hact
      refine ⟨rfl, hne, hptr, rfl, rfl, ?_, Or.inr ⟨hgt, hg, hmax, rfl, handle, hh, rfl, rfl⟩⟩
      intro h0
      rw [if_neg h0] at hres
      exact hres
  · rename_i hle
    obtain ⟨hne, hptr, hact, hq⟩ := vmm_bump_ok h
    subst hq hact
    exact ⟨rfl, hne, hptr, rfl, rfl, fun _ => rfl,
      Or.inl ⟨Nat.le_of_not_lt hle, rfl, rfl, rfl, rfl⟩⟩

/-- What a successful `free` did. -/
theorem vmm_free_ok {p q : ggml_cann_pool_vmm} {ptr size : Nat}
    (h : ggml_cann_pool_vmm.free p ptr size = .ok q) :
    ptr = add64 p.pool_addr (sub64 p.pool_used size) ∧
      q = { p with pool_used := sub64 p.pool_used size } := by
  unfold ggml_cann_pool_vmm.free at h
  simp only at h
  split at h
  · rename_i hp
    injection h with h
    exact ⟨hp, h.symm⟩
  · cases h

/-! ## Successful `alloc` from its preconditions -/

/-- An `alloc` that fits into the committed remainder of a reserved pool. -/
theorem vmm_alloc_fit (p : ggml_cann_pool_vmm) (acl : AclResults) (size : Nat)
    (hfit : vmm_align size ≤ sub64 p.pool_size p.pool_used) (h0 : p.pool_addr ≠ 0) :
    ggml_cann_pool_vmm.alloc p acl size = .ok (add64 p.pool_addr p.pool_used, vmm_align size,
      { p with pool_used := add64 p.pool_used (vmm_align size) }) := by
  unfold ggml_cann_pool_vmm.alloc
  simp only
  rw [if_neg (Nat.not_lt.mpr hfit)]
  unfold vmm_bump
  rw [if_neg h0]

/-- An `alloc` that grows an already reserved pool, all native calls
succeeding. -/
theorem vmm_alloc_grow (p : ggml_cann_pool_vmm) (acl : AclResults) (size handle : Nat)
    (hgt : sub64 p.pool_size p.pool_used < vmm_align size)
    (hg : p.granularity ≠ 0)
    (hmax : add64 p.pool_size (vmm_reserve_size p.granularity
      (sub64 (vmm_align size) (sub64 p.pool_size p.pool_used))) ≤ CANN_POOL_VMM_MAX_SIZE)
    (hh : acl.mallocPhysical = some handle) (hmap : acl.mapMem = true)
    (h0 : p.pool_addr ≠ 0) :
    ggml_cann_pool_vmm.alloc p acl size = .ok (add64 p.pool_addr p.pool_used, vmm_align size,
      { p with
        handles := p.handles ++ [handle]
        map_offsets := p.map_offsets ++ [add64 p.pool_addr p.pool_size]
        pool_size := add64 p.pool_size (vmm_reserve_size p.granularity
          (sub64 (vmm_align size) (sub64 p.pool_size p.pool_used)))
        pool_used := add64 p.pool_used (vmm_align size) }) := by
  unfold ggml_cann_pool_vmm.alloc
  simp only
  rw [if_pos hgt]
  unfold vmm_grow
  simp only [hg, hmax, hh, hmap, h0, if_false, not_true_eq_false, if_true]
  simp [vmm_bump, h0]

/-- The first growing `alloc` of a pool that has not reserved its address
range yet, all native calls succeeding with a non-null reservation. -/
theorem vmm_alloc_first (p : ggml_cann_pool_vmm) (acl : AclResults) (size handle addr : Nat)
    (hgt : sub64 p.pool_size p.pool_used < vmm_align size)
    (hg : p.granularity ≠ 0)
    (hmax : add64 p.pool_size (vmm_reserve_size p.granularity
      (sub64 (vmm_align size) (sub64 p.pool_size p.pool_used))) ≤ CANN_POOL_VMM_MAX_SIZE)
    (hh : acl.mallocPhysical = some handle) (hres : acl.reserveMemAddress = some addr)
    (hmap : acl.mapMem = true)
    (h0 : p.pool_addr = 0) (haddr : addr ≠ 0) :
    ggml_cann_pool_vmm.alloc p acl size = .ok (add64 addr p.pool_used, vmm_align size,
      { p with
        pool_addr := addr
        handles := p.handles ++ [handle]
        map_offsets := p.map_offsets ++ [add64 addr p.pool_size]
        pool_size := add64 p.pool_size (vmm_reserve_size p.granularity
          (sub64 (vmm_align size) (sub64 p.pool_size p.pool_used)))
        pool_used := add64 p.pool_used (vmm_align size) }) := by
  unfold ggml_cann_pool_vmm.alloc
  simp only
  rw [if_pos hgt]
  unfold vmm_grow
  simp only [hg, hmax, hh, hmap, h0, hres, if_false, not_true_eq_false, if_true]
  simp [vmm_bump, haddr]

/-! ## Rounding to the granularity -/

theorem round_up_bounds (g x : Nat) (hg : 0 < g) :
    x ≤ g * ((x + g - 1) / g) ∧ g * ((x + g - 1) / g) ≤ x + g - 1 := by
  have h1 := Nat.div_add_mod (x + g - 1) g
  have h2 := Nat.mod_lt (x + g - 1) hg
  constructor <;> omega

theorem vmm_reserve_size_eq (g r : Nat) (hg : 0 < g) (h : r + g - 1 < 2 ^ 64) :
    vmm_reserve_size g r = g * ((r + g - 1) / g) := by
  have hb := round_up_bounds g r hg
  have e : sub64 (add64 r g) 1 = r + g - 1 := by unfold sub64 add64; omega
  unfold vmm_reserve_size
  rw [e]
  unfold mul64
  omega

/-! ## The pool while no `size_t` computation overflows -/

/-- For a request of at most `2 ^ 64 - 128` bytes the size `alloc` reports is
the least multiple of 128 that is at least the request. -/
theorem vmm_alloc_actual_size_least {p q : ggml_cann_pool_vmm} {acl : AclResults}
    {size ptr actual : Nat} (hsize : size ≤ 2 ^ 64 - 128)
    (h : ggml_cann_pool_vmm.alloc p acl size = .ok (ptr, actual, q)) :
    128 ∣ actual ∧ size ≤ actual ∧ ∀ m, 128 ∣ m → size ≤ m → actual ≤ m := by
  obtain ⟨ha, -⟩ := vmm_alloc_ok h
  rw [ha, vmm_align_eq size hsize]
  refine ⟨Dvd.intro _ rfl, by omega, ?_⟩
  intro m hm hle
  obtain ⟨k, rfl⟩ := hm
  omega

/-- While the rounding of the shortfall and the new committed size stay below
`2 ^ 64`, a growing `alloc` commits exactly the shortfall rounded up to the
granularity. -/
theorem vmm_alloc_growth_exact {p q : ggml_cann_pool_vmm} {acl : AclResults}
    {size ptr actual : Nat}
    (h : ggml_cann_pool_vmm.alloc p acl size = .ok (ptr, actual, q))
    (hgt : sub64 p.pool_size p.pool_used < actual)
    (h1 : actual - sub64 p.pool_size p.pool_used + p.granularity - 1 < 2 ^ 64)
    (h2 : p.pool_size + p.granularity *
      ((actual - sub64 p.pool_size p.pool_used + p.granularity - 1) / p.granularity) < 2 ^ 64) :
    q.pool_size = p.pool_size + p.granularity *
      ((actual - sub64 p.pool_size p.pool_used + p.granularity - 1) / p.granularity) := by
  obtain ⟨ha, -, -, -, -, -, hc⟩ := vmm_alloc_ok h
  rcases hc with ⟨hle, -⟩ | ⟨-, hg, -, hsz, -⟩
  · omega
  · have hal : actual < 2 ^ 64 := ha ▸ vmm_align_lt size
    have e : sub64 actual (sub64 p.pool_size p.pool_used)
        = actual - sub64 p.pool_size p.pool_used := by
      have := sub64_lt p.pool_size p.pool_used
      generalize sub64 p.pool_size p.pool_used = avail at *
      unfold sub64; omega
    rw [hsz, e, vmm_reserve_size_eq _ _ (Nat.pos_of_ne_zero hg) h1]
    unfold add64
    omega

/-- From a pool with `used ≤ committed ≤ 2 ^ 35`, an `alloc` whose request plus
the granularity is at most `2 ^ 64 - 2 ^ 36` either aborts or leaves
`used ≤ committed ≤ 2 ^ 35`, with `used` advanced without wrapping. -/
theorem vmm_alloc_keeps_bounds {p q : ggml_cann_pool_vmm} {acl : AclResults}
    {size ptr actual : Nat}
    (hu : p.pool_used ≤ p.pool_size) (hs : p.pool_size ≤ CANN_POOL_VMM_MAX_SIZE)
    (hreq : size + p.granularity ≤ 2 ^ 64 - 2 ^ 36)
    (h : ggml_cann_pool_vmm.alloc p acl size = .ok (ptr, actual, q)) :
    q.pool_used = p.pool_used + actual ∧ q.pool_used ≤ q.pool_size ∧
      q.pool_size ≤ CANN_POOL_VMM_MAX_SIZE ∧ p.pool_size ≤ q.pool_size := by
  obtain ⟨ha, -, -, hused, -, -, hc⟩ := vmm_alloc_ok h
  unfold CANN_POOL_VMM_MAX_SIZE at *
  have hav : sub64 p.pool_size p.pool_used = p.pool_size - p.pool_used := by
    unfold sub64; omega
  have hact : actual = 128 * ((size + 127) / 128) := by
    rw [ha, vmm_align_eq size (by omega)]
  rw [hav] at hc
  rcases hc with ⟨hle, -, hsz, -⟩ | ⟨hgt, hg, hmax, hsz, -⟩
  · rw [hused, hsz]
    unfold add64
    omega
  · have hg0 := Nat.pos_of_ne_zero hg
    have e : sub64 actual (p.pool_size - p.pool_used)
        = actual - (p.pool_size - p.pool_used) := by
      unfold sub64; omega
    rw [e, vmm_reserve_size_eq _ _ hg0 (by omega)] at hmax hsz
    have hb := round_up_bounds p.granularity (actual - (p.pool_size - p.pool_used)) hg0
    generalize p.granularity * ((actual - (p.pool_size - p.pool_used) + p.granularity - 1)
      / p.granularity) = chunk at *
    rw [hused, hsz]
    unfold add64 at *
    omega

/-! ## Runs whose requests do not overflow -/

/-- Under the hypotheses of `vmm_alloc_keeps_bounds`, either nothing was mapped
or exactly one chunk of non-zero size was appended at the old end of the
committed range. -/
theorem vmm_alloc_bounded_chunks {p q : ggml_cann_pool_vmm} {acl : AclResults}
    {size ptr actual : Nat}
    (hu : p.pool_used ≤ p.pool_size) (hs : p.pool_size ≤ CANN_POOL_VMM_MAX_SIZE)
    (hreq : size + p.granularity ≤ 2 ^ 64 - 2 ^ 36)
    (h : ggml_cann_pool_vmm.alloc p acl size = .ok (ptr, actual, q)) :
    (q.pool_addr = p.pool_addr ∧ q.pool_size = p.pool_size ∧ q.handles = p.handles ∧
        q.map_offsets = p.map_offsets) ∨
    (p.pool_size < q.pool_size ∧
      ∃ handle, q.handles = p.handles ++ [handle] ∧
        q.map_offsets = p.map_offsets ++ [add64 q.pool_addr p.pool_size]) := by
  obtain ⟨ha, -, -, -, -, -, hc⟩ := vmm_alloc_ok h
  unfold CANN_POOL_VMM_MAX_SIZE at *
  have hav : sub64 p.pool_size p.pool_used = p.pool_size - p.pool_used := by
    unfold sub64; omega
  have hact : actual = 128 * ((size + 127) / 128) := by
    rw [ha, vmm_align_eq size (by omega)]
  rw [hav] at hc
  rcases hc with ⟨-, h1, h2, h3, h4⟩ | ⟨hgt, hg, hmax, hsz, handle, -, h3, h4⟩
  · exact Or.inl ⟨h1, h2, h3, h4⟩
  · refine Or.inr ⟨?_, handle, h3, h4⟩
    have hg0 := Nat.pos_of_ne_zero hg
    have e : sub64 actual (p.pool_size - p.pool_used)
        = actual - (p.pool_size - p.pool_used) := by
      unfold sub64; omega
    rw [e, vmm_reserve_size_eq _ _ hg0 (by omega)] at hmax hsz
    have hb := round_up_bounds p.granularity (actual - (p.pool_size - p.pool_used)) hg0
    generalize p.granularity * ((actual - (p.pool_size - p.pool_used) + p.granularity - 1)
      / p.granularity) = chunk at *
    rw [hsz]
    unfold add64 at *
    omega

theorem vmm_inv_fresh (g : Nat) : VmmInv g (vmm_new g) [] where
  gran := rfl
  used_le := Nat.le_refl _
  size_le := Nat.zero_le _
  live_ok := rfl
  unreserved := fun _ => ⟨rfl, rfl⟩
  lengths := rfl
  first := ⟨fun _ => rfl, fun o ho => by simp [vmm_new] at ho⟩
  offsets_lt := List.Pairwise.nil
  offsets_in := fun o ho => by simp [vmm_new] at ho

theorem vmm_inv_alloc {g size ptr actual : Nat} {p q : ggml_cann_pool_vmm}
    {live : List (Nat × Nat)} {acl : AclResults}
    (hinv : VmmInv g p live) (hreq : size + g ≤ 2 ^ 64 - 2 ^ 36)
    (hfits : q.pool_addr + CANN_POOL_VMM_MAX_SIZE < 2 ^ 64)
    (h : ggml_cann_pool_vmm.alloc p acl size = .ok (ptr, actual, q)) :
    VmmInv g q ((ptr, actual) :: live) := by
  obtain ⟨hgran, hused_le, hsize_le, hlive, hunres, hlen, hfirst, hlt, hin⟩ := hinv
  rw [← hgran] at hreq
  obtain ⟨-, hne, hptr, -, hg, haddr, -⟩ := vmm_alloc_ok h
  obtain ⟨hu, hule, hsle, hmono⟩ := vmm_alloc_keeps_bounds hused_le hsize_le hreq h
  have hchunks := vmm_alloc_bounded_chunks hused_le hsize_le hreq h
  have hfits' : q.pool_addr + 2 ^ 35 < 2 ^ 64 := hfits
  have hsize_le' : p.pool_size ≤ 2 ^ 35 := hsize_le
  have eptr : add64 q.pool_addr p.pool_used = q.pool_addr + p.pool_used := by
    unfold add64; omega
  have eoff : add64 q.pool_addr p.pool_size = q.pool_addr + p.pool_size := by
    unfold add64; omega
  rw [eptr] at hptr
  rw [eoff] at hchunks
  have hbase : p.pool_addr ≠ 0 → q.pool_addr = p.pool_addr := haddr
  have hlive' : vmm_live_ok q.pool_addr p.pool_used live := by
    by_cases h0 : p.pool_addr = 0
    · obtain ⟨hl, -⟩ := hunres h0
      subst hl
      exact hlive
    · rw [hbase h0]; exact hlive
  refine ⟨hg.trans hgran, hule, hsle, ?_, fun h0 => absurd h0 hne, ?_, ?_, ?_, ?_⟩
  · refine ⟨by simp only; omega, ?_, ?_⟩
    · simp only; rw [hptr, hu]; omega
    · simp only; rw [hu, Nat.add_sub_cancel]; exact hlive'
  · rcases hchunks with ⟨-, -, h3, h4⟩ | ⟨-, handle, h3, h4⟩
    · rw [h3, h4]; exact hlen
    · rw [h3, h4]; simp [hlen]
  · rcases hchunks with ⟨h1, h2, -, h4⟩ | ⟨-, handle, -, h4⟩
    · rw [h1, h2, h4]; exact hfirst
    · constructor
      · intro he; rw [h4] at he; simp at he
      · intro o ho
        rw [h4] at ho
        cases hm : p.map_offsets with
        | nil =>
          rw [hm] at ho
          have hz := hfirst.1 hm
          simp at ho
          omega
        | cons a rest =>
          rw [hm] at ho
          simp at ho
          have h0 : p.pool_addr ≠ 0 := by
            intro h0
            have := (hunres h0).2
            rw [hm] at this
            cases this
          have := hfirst.2 a (by rw [hm]; rfl)
          rw [hbase h0]
          omega
  · rcases hchunks with ⟨-, -, -, h4⟩ | ⟨-, handle, -, h4⟩
    · rw [h4]; exact hlt
    · rw [h4, List.pairwise_append]
      refine ⟨hlt, List.pairwise_singleton _ _, ?_⟩
      intro a ha b hb
      have hb' : b = q.pool_addr + p.pool_size := by simpa using hb
      have h0 : p.pool_addr ≠ 0 := by
        intro h0
        have := (hunres h0).2
        rw [this] at ha
        cases ha
      have := hin a ha
      rw [hb', hbase h0]
      exact this
  · rcases hchunks with ⟨h1, h2, -, h4⟩ | ⟨hgrow, handle, -, h4⟩
    · rw [h1, h2, h4]; exact hin
    · intro o ho
      rw [h4] at ho
      rcases List.mem_append.mp ho with ho | ho
      · have h0 : p.pool_addr ≠ 0 := by
          intro h0
          have := (hunres h0).2
          rw [this] at ho
          cases ho
        have := hin o ho
        rw [hbase h0]
        omega
      · have : o = q.pool_addr + p.pool_size := by simpa using ho
        omega

theorem vmm_inv_free {g ptr actual : Nat} {p q : ggml_cann_pool_vmm}
    {live : List (Nat × Nat)}
    (hinv : VmmInv g p ((ptr, actual) :: live))
    (h : ggml_cann_pool_vmm.free p ptr actual = .ok q) :
    VmmInv g q live := by
  obtain ⟨hgran, hused_le, hsize_le, hlive, hunres, hlen, hfirst, hlt, hin⟩ := hinv
  obtain ⟨-, hq⟩ := vmm_free_ok h
  obtain ⟨hle, -, hrest⟩ := hlive
  simp only at hle hrest
  have hsub : sub64 p.pool_used actual = p.pool_used - actual := by
    unfold CANN_POOL_VMM_MAX_SIZE at hsize_le
    unfold sub64
    omega
  rw [hsub] at hq
  subst hq
  refine ⟨hgran, ?_, hsize_le, hrest, ?_, hlen, hfirst, hlt, hin⟩
  · simp only; omega
  · intro h0
    have := hunres h0
    cases this.1

/-- Every state reached from a fresh pool by requests of at most `bound` bytes
with `bound + g ≤ 2 ^ 64 - 2 ^ 36` and by size-exact reverse-order frees
satisfies the bookkeeping invariant, whatever the native runtime answers,
provided the range of `CANN_POOL_VMM_MAX_SIZE` bytes reserved at the pool base
ends below `2 ^ 64`. -/
theorem vmm_reach_inv {bound g : Nat} (hb : bound + g ≤ 2 ^ 64 - 2 ^ 36)
    {p : ggml_cann_pool_vmm} {live : List (Nat × Nat)}
    (h : VmmReach bound g p live)
    (hfits : p.pool_addr + CANN_POOL_VMM_MAX_SIZE < 2 ^ 64) : VmmInv g p live := by
  induction h with
  | fresh => exact vmm_inv_fresh g
  | @alloc p q live acl size ptr actual _ hsize halloc ih =>
    have hp : p.pool_addr + CANN_POOL_VMM_MAX_SIZE < 2 ^ 64 := by
      by_cases h0 : p.pool_addr = 0
      · rw [h0]
        unfold CANN_POOL_VMM_MAX_SIZE
        norm_num
      · rw [← (vmm_alloc_ok halloc).2.2.2.2.2.1 h0]
        exact hfits
    exact vmm_inv_alloc (ih hp) (by omega) hfits halloc
  | @free p q live ptr actual _ hfree ih =>
    have hq := (vmm_free_ok hfree).2
    exact vmm_inv_free (ih (by rw [hq] at hfits; exact hfits)) hfree

/-- Blocks that tile `[base, base + used)` lie inside it. -/
theorem vmm_live_ok_inside {base : Nat} {live : List (Nat × Nat)} :
    ∀ {used : Nat}, vmm_live_ok base used live →
      ∀ b ∈ live, base ≤ b.1 ∧ b.1 + b.2 ≤ base + used := by
  induction live with
  | nil => intro used _ b hb; cases hb
  | cons c rest ih =>
    intro used h b hb
    obtain ⟨hle, hptr, hrest⟩ := h
    rcases List.mem_cons.mp hb with rfl | hb
    · omega
    · have := ih hrest b hb
      omega

/-- Blocks that tile `[base, base + used)` are pairwise disjoint: every block
ends at or below the start of each more recent one. -/
theorem vmm_live_ok_disjoint {base : Nat} {live : List (Nat × Nat)} :
    ∀ {used : Nat}, vmm_live_ok base used live →
      live.Pairwise (fun newer older => older.1 + older.2 ≤ newer.1) := by
  induction live with
  | nil => intro used _; exact List.Pairwise.nil
  | cons c rest ih =>
    intro used h
    obtain ⟨hle, hptr, hrest⟩ := h
    refine List.Pairwise.cons ?_ (ih hrest)
    intro b hb
    have := vmm_live_ok_inside hrest b hb
    omega

/-- In a run without overflowing requests whose reserved range ends below
`2 ^ 64`: `used ≤ committed ≤ 2 ^ 35`, every
live block lies inside `[base, base + used)`, live blocks are pairwise
disjoint, `handles` and `map_offsets` have the same length, the first mapped
offset is the pool base and the mapped offsets are strictly increasing. -/
theorem vmm_reach_bounded_summary {bound g : Nat} (hb : bound + g ≤ 2 ^ 64 - 2 ^ 36)
    {p : ggml_cann_pool_vmm} {live : List (Nat × Nat)}
    (h : VmmReach bound g p live)
    (hfits : p.pool_addr + CANN_POOL_VMM_MAX_SIZE < 2 ^ 64) :
    p.pool_used ≤ p.pool_size ∧ p.pool_size ≤ CANN_POOL_VMM_MAX_SIZE ∧
    (∀ b ∈ live, p.pool_addr ≤ b.1 ∧ b.1 + b.2 ≤ p.pool_addr + p.pool_used) ∧
    live.Pairwise (fun newer older => ∀ x, ¬ (in_block x newer ∧ in_block x older)) ∧
    p.handles.length = p.map_offsets.length ∧
    (∀ o, p.map_offsets.head? = some o → o = p.pool_addr) ∧
    p.map_offsets.Pairwise (fun a b => a < b) := by
  have hinv := vmm_reach_inv hb h hfits
  refine ⟨hinv.used_le, hinv.size_le, vmm_live_ok_inside hinv.live_ok, ?_, hinv.lengths,
    hinv.first.2, hinv.offsets_lt⟩
  refine (vmm_live_ok_disjoint hinv.live_ok).imp ?_
  intro newer older hle x hx
  unfold in_block at hx
  omega

/-! ## Strict LIFO release -/

/-- C1 (amended): after two successive successful allocations A then B where
B has a non-zero `actual_size`, `free(A.ptr, A.actual_size)` issued while B is
still live fails the assertion of `free`. -/
theorem vmm_free_out_of_order_rejected (p p1 p2 : ggml_cann_pool_vmm)
    (acl1 acl2 : AclResults) (sizeA sizeB ptrA actualA ptrB actualB : Nat)
    (hA : ggml_cann_pool_vmm.alloc p acl1 sizeA = .ok (ptrA, actualA, p1))
    (hB : ggml_cann_pool_vmm.alloc p1 acl2 sizeB = .ok (ptrB, actualB, p2))
    (hne : actualB ≠ 0) :
    ggml_cann_pool_vmm.free p2 ptrA actualA = .error .lifo_assert := by
  obtain ⟨ha, hne1, hptrA, hu1, -, -, -⟩ := vmm_alloc_ok hA
  obtain ⟨hb, -, -, hu2, -, haddr, -⟩ := vmm_alloc_ok hB
  have hbase := haddr hne1
  have hla : actualA < 2 ^ 64 := ha ▸ vmm_align_lt sizeA
  have hlb : actualB < 2 ^ 64 := hb ▸ vmm_align_lt sizeB
  unfold ggml_cann_pool_vmm.free
  simp only
  rw [if_neg]
  rw [hptrA, hbase, hu2, hu1]
  unfold sub64 add64
  omega

/-- C1 witness: on a fresh pool of granularity 2 MiB, A = `alloc(128)` and
B = `alloc(256)` succeed and `free(A.ptr, 128)` is then rejected. -/
theorem vmm_free_out_of_order_rejected_witness :
    ggml_cann_pool_vmm.alloc (vmm_new (2 ^ 21)) (acl_ok 1 4096) 128
      = .ok (4096, 128, ⟨4096, 128, 2 ^ 21, 2 ^ 21, [1], [4096]⟩) ∧
    ggml_cann_pool_vmm.alloc ⟨4096, 128, 2 ^ 21, 2 ^ 21, [1], [4096]⟩ acl_fail 256
      = .ok (4096 + 128, 256, ⟨4096, 384, 2 ^ 21, 2 ^ 21, [1], [4096]⟩) ∧
    ggml_cann_pool_vmm.free ⟨4096, 384, 2 ^ 21, 2 ^ 21, [1], [4096]⟩ 4096 128
      = .error .lifo_assert :=
  ⟨rfl, rfl,
    vmm_free_out_of_order_rejected (vmm_new (2 ^ 21)) ⟨4096, 128, 2 ^ 21, 2 ^ 21, [1], [4096]⟩
      ⟨4096, 384, 2 ^ 21, 2 ^ 21, [1], [4096]⟩ (acl_ok 1 4096) acl_fail 128 256 4096 128
      (4096 + 128) 256 (by rfl) (by rfl) (by simp)⟩

/-- C1 as stated fails: on a fresh pool of granularity 2 MiB, A = `alloc(128)`
and B = `alloc(0)` both succeed (B has `actual_size` 0), and
`free(A.ptr, 128)` issued before B is freed passes the assertion. -/
theorem vmm_free_out_of_order_accepted_for_empty_block :
    ggml_cann_pool_vmm.alloc (vmm_new (2 ^ 21)) (acl_ok 1 4096) 128
      = .ok (4096, 128, ⟨4096, 128, 2 ^ 21, 2 ^ 21, [1], [4096]⟩) ∧
    ggml_cann_pool_vmm.alloc ⟨4096, 128, 2 ^ 21, 2 ^ 21, [1], [4096]⟩ acl_fail 0
      = .ok (4096 + 128, 0, ⟨4096, 128, 2 ^ 21, 2 ^ 21, [1], [4096]⟩) ∧
    ggml_cann_pool_vmm.free ⟨4096, 128, 2 ^ 21, 2 ^ 21, [1], [4096]⟩ 4096 128
      = .ok ⟨4096, 0, 2 ^ 21, 2 ^ 21, [1], [4096]⟩ :=
  ⟨rfl, rfl, rfl⟩

/-- C2: from a pool state with `used ≤ committed`, after two successive
successful allocations A then B, `free(B.ptr, B.actual_size)` and then
`free(A.ptr, A.actual_size)` both pass the assertion of `free`, and `used` is
back at the value it had before A was allocated. -/
theorem vmm_reverse_free_restores_used (p p1 p2 : ggml_cann_pool_vmm)
    (acl1 acl2 : AclResults) (sizeA sizeB ptrA actualA ptrB actualB : Nat)
    (h64 : p.pool_size < 2 ^ 64) (hle : p.pool_used ≤ p.pool_size)
    (hA : ggml_cann_pool_vmm.alloc p acl1 sizeA = .ok (ptrA, actualA, p1))
    (hB : ggml_cann_pool_vmm.alloc p1 acl2 sizeB = .ok (ptrB, actualB, p2)) :
    ∃ q1 q2, ggml_cann_pool_vmm.free p2 ptrB actualB = .ok q1 ∧
      ggml_cann_pool_vmm.free q1 ptrA actualA = .ok q2 ∧ q2.pool_used = p.pool_used := by
  obtain ⟨-, hne1, hptrA, hu1, -, -, -⟩ := vmm_alloc_ok hA
  obtain ⟨-, -, hptrB, hu2, -, haddr, -⟩ := vmm_alloc_ok hB
  have hbase := haddr hne1
  have e1 : sub64 p2.pool_used actualB = p1.pool_used := by
    rw [hu2, hu1]; unfold sub64 add64; omega
  have e2 : sub64 p1.pool_used actualA = p.pool_used := by
    rw [hu1]; unfold sub64 add64; omega
  refine ⟨{ p2 with pool_used := p1.pool_used }, { p2 with pool_used := p.pool_used },
    ?_, ?_, rfl⟩
  · unfold ggml_cann_pool_vmm.free
    simp only
    rw [e1, if_pos hptrB]
  · unfold ggml_cann_pool_vmm.free
    simp only
    rw [e2, if_pos (by rw [hptrA, hbase])]

/-- C2 witness: a pool with `used = 128`, `committed = 2 MiB`; A = `alloc(100)`
fits, B = `alloc(4 MiB)` grows the pool; freeing B then A brings `used` back
to 128. -/
theorem vmm_reverse_free_restores_used_witness :
    (2 ^ 21 < 2 ^ 64 ∧ 128 ≤ 2 ^ 21) ∧
    ∃ q1 q2,
      ggml_cann_pool_vmm.free
        ⟨4096, 256 + 2 ^ 22, 3 * 2 ^ 21, 2 ^ 21, [1, 2], [4096, 4096 + 2 ^ 21]⟩
        (4096 + 256) (2 ^ 22) = .ok q1 ∧
      ggml_cann_pool_vmm.free q1 (4096 + 128) 128 = .ok q2 ∧ q2.pool_used = 128 :=
  ⟨by norm_num,
    vmm_reverse_free_restores_used ⟨4096, 128, 2 ^ 21, 2 ^ 21, [1], [4096]⟩
      ⟨4096, 256, 2 ^ 21, 2 ^ 21, [1], [4096]⟩
      ⟨4096, 256 + 2 ^ 22, 3 * 2 ^ 21, 2 ^ 21, [1, 2], [4096, 4096 + 2 ^ 21]⟩
      acl_fail (acl_ok 2 0) 100 (2 ^ 22) (4096 + 128) 128 (4096 + 256) (2 ^ 22)
      (by norm_num) (by norm_num) (by rfl) (by rfl)⟩

/-! ## Rounding, growth and the bump pointer -/

/-- C3 (failing input): in the pool reached from a fresh pool of granularity
2 MiB by `alloc(1)`, the call `alloc(2^64 - 1)` makes no native call and
returns successfully with `actual_size = 0`: `size + alignment - 1` wrapped
around, so the reported size is below the request. -/
theorem vmm_alloc_huge_request_rounds_to_zero :
    VmmReachable (2 ^ 21) ⟨4096, 128, 2 ^ 21, 2 ^ 21, [1], [4096]⟩ [(4096, 128)] ∧
    ggml_cann_pool_vmm.alloc ⟨4096, 128, 2 ^ 21, 2 ^ 21, [1], [4096]⟩ acl_fail (2 ^ 64 - 1)
      = .ok (4096 + 128, 0, ⟨4096, 128, 2 ^ 21, 2 ^ 21, [1], [4096]⟩) ∧
    ¬ (2 ^ 64 - 1 ≤ 0) := by
  refine ⟨?_, by rfl, by norm_num⟩
  exact @VmmReach.alloc _ _ _ _ _ (acl_ok 1 4096) 1 _ _ VmmReach.fresh (by norm_num)
    (by rfl)

/-- C4 (failing inputs): on a fresh pool, `alloc(2^64 - 128)` with a native
runtime that grants the chunk needs growth (`avail = 0`), the rounding
`reserve_size + granularity - 1` wraps around, the chunk size becomes 0 and
the call returns with `committed` still 0.  With granularity 2 MiB the claimed
growth `g * ceil((s - avail) / g)` is `2 ^ 64`; with granularity 3 MiB it is
`2 ^ 64 + 2 ^ 21`, which differs from 0 also modulo `2 ^ 64`. -/
theorem vmm_alloc_growth_rounding_wraps :
    ggml_cann_pool_vmm.alloc (vmm_new (2 ^ 21)) (acl_ok 1 4096) (2 ^ 64 - 128)
      = .ok (4096, 2 ^ 64 - 128, ⟨4096, 2 ^ 64 - 128, 0, 2 ^ 21, [1], [4096]⟩) ∧
    vmm_reserve_size (2 ^ 21) (2 ^ 64 - 128) = 0 ∧
    2 ^ 21 * ((2 ^ 64 - 128 - 0 + 2 ^ 21 - 1) / 2 ^ 21) = 2 ^ 64 ∧
    ggml_cann_pool_vmm.alloc (vmm_new (3 * 2 ^ 20)) (acl_ok 1 4096) (2 ^ 64 - 128)
      = .ok (4096, 2 ^ 64 - 128, ⟨4096, 2 ^ 64 - 128, 0, 3 * 2 ^ 20, [1], [4096]⟩) ∧
    vmm_reserve_size (3 * 2 ^ 20) (2 ^ 64 - 128) = 0 ∧
    3 * 2 ^ 20 * ((2 ^ 64 - 128 - 0 + 3 * 2 ^ 20 - 1) / (3 * 2 ^ 20)) = 2 ^ 64 + 2 ^ 21 :=
  ⟨by rfl, by rfl, by norm_num, by rfl, by rfl, by norm_num⟩

/-- From a pool with `used ≤ committed ≤ 2 ^ 35` whose reserved range ends
below `2 ^ 64`, an `alloc` whose request plus the granularity is at most
`2 ^ 64 - 2 ^ 36` returns the pool base plus the previous `used` (the base is
unchanged once reserved), reports the least multiple of 128 that is at least
the request, and leaves `used` equal to the previous `used` plus that size. -/
theorem vmm_alloc_bump_bounded {p q : ggml_cann_pool_vmm} {acl : AclResults}
    {size ptr actual : Nat}
    (hu : p.pool_used ≤ p.pool_size) (hs : p.pool_size ≤ CANN_POOL_VMM_MAX_SIZE)
    (hreq : size + p.granularity ≤ 2 ^ 64 - 2 ^ 36)
    (hfits : q.pool_addr + CANN_POOL_VMM_MAX_SIZE < 2 ^ 64)
    (h : ggml_cann_pool_vmm.alloc p acl size = .ok (ptr, actual, q)) :
    ptr = q.pool_addr + p.pool_used ∧
    (p.pool_addr ≠ 0 → q.pool_addr = p.pool_addr) ∧
    128 ∣ actual ∧ size ≤ actual ∧ (∀ m, 128 ∣ m → size ≤ m → actual ≤ m) ∧
    q.pool_used = p.pool_used + actual := by
  obtain ⟨-, -, hptr, -, -, haddr, -⟩ := vmm_alloc_ok h
  obtain ⟨h1, h2, h3⟩ := vmm_alloc_actual_size_least (by omega) h
  obtain ⟨h4, -⟩ := vmm_alloc_keeps_bounds hu hs hreq h
  refine ⟨?_, haddr, h1, h2, h3, h4⟩
  rw [hptr]
  unfold CANN_POOL_VMM_MAX_SIZE at hs hfits
  unfold add64
  omega

/-- In a run without overflowing requests whose reserved range ends below
`2 ^ 64`, every further `alloc` within the bound of the run returns the pool
base plus the previous `used`, reports the least multiple of 128 that is at
least the request, and leaves `used` equal to the previous `used` plus that
size. -/
theorem vmm_reach_alloc_bump {bound g : Nat} (hb : bound + g ≤ 2 ^ 64 - 2 ^ 36)
    {p q : ggml_cann_pool_vmm} {live : List (Nat × Nat)} {acl : AclResults}
    {size ptr actual : Nat}
    (hreach : VmmReach bound g p live) (hsize : size ≤ bound)
    (hfits : q.pool_addr + CANN_POOL_VMM_MAX_SIZE < 2 ^ 64)
    (h : ggml_cann_pool_vmm.alloc p acl size = .ok (ptr, actual, q)) :
    ptr = q.pool_addr + p.pool_used ∧
    128 ∣ actual ∧ size ≤ actual ∧ (∀ m, 128 ∣ m → size ≤ m → actual ≤ m) ∧
    q.pool_used = p.pool_used + actual := by
  have hp : p.pool_addr + CANN_POOL_VMM_MAX_SIZE < 2 ^ 64 := by
    by_cases h0 : p.pool_addr = 0
    · rw [h0]
      unfold CANN_POOL_VMM_MAX_SIZE
      norm_num
    · rw [← (vmm_alloc_ok h).2.2.2.2.2.1 h0]
      exact hfits
  have hinv := vmm_reach_inv hb hreach hp
  obtain ⟨h1, -, h2, h3, h4, h5⟩ := vmm_alloc_bump_bounded hinv.used_le hinv.size_le
    (by rw [hinv.gran]; omega) hfits h
  exact ⟨h1, h2, h3, h4, h5⟩

/-- C5 (failing inputs): from a fresh pool of granularity 2 MiB, after
`alloc(2 MiB)` the call `alloc(2^64 - 128)`, granted by the native runtime,
reports `actual_size = 2^64 - 128` and leaves `used = 2 MiB - 128`, which is
not the previous `used` (2 MiB) plus `actual_size`: the sum wrapped around.
From the state with `used = 2^64 - 128` that the single call `alloc(2^64 - 128)`
reaches on a fresh pool, `alloc(128)` returns the pointer 3968, below the pool
base 4096, which is not the base plus the previous `used`. -/
theorem vmm_alloc_bump_wraps :
    VmmReachable (2 ^ 21) ⟨4096, 2 ^ 21, 2 ^ 21, 2 ^ 21, [1], [4096]⟩ [(4096, 2 ^ 21)] ∧
    ggml_cann_pool_vmm.alloc ⟨4096, 2 ^ 21, 2 ^ 21, 2 ^ 21, [1], [4096]⟩ (acl_ok 2 0)
        (2 ^ 64 - 128)
      = .ok (4096 + 2 ^ 21, 2 ^ 64 - 128,
          ⟨4096, 2 ^ 21 - 128, 2 ^ 21, 2 ^ 21, [1, 2], [4096, 4096 + 2 ^ 21]⟩) ∧
    2 ^ 21 - 128 ≠ 2 ^ 21 + (2 ^ 64 - 128) ∧
    VmmReachable (2 ^ 21) ⟨4096, 2 ^ 64 - 128, 0, 2 ^ 21, [1], [4096]⟩
      [(4096, 2 ^ 64 - 128)] ∧
    ggml_cann_pool_vmm.alloc ⟨4096, 2 ^ 64 - 128, 0, 2 ^ 21, [1], [4096]⟩ acl_fail 128
      = .ok (3968, 128, ⟨4096, 0, 0, 2 ^ 21, [1], [4096]⟩) ∧
    3968 ≠ 4096 + (2 ^ 64 - 128) :=
  ⟨@VmmReach.alloc _ _ _ _ _ (acl_ok 1 4096) (2 ^ 21) _ _ VmmReach.fresh
      (by norm_num) (by rfl),
    by rfl, by norm_num,
    @VmmReach.alloc _ _ _ _ _ (acl_ok 1 4096) (2 ^ 64 - 128) _ _ VmmReach.fresh
      (by norm_num) (by rfl),
    by rfl, by norm_num⟩

/-! ## The 32 GB ceiling -/

/-- C6 (failing inputs): on a fresh pool of granularity 2 MiB with a native
runtime that grants every chunk, `alloc(2^64 - 2^21)` is stopped by the
ceiling assertion, but `alloc(2^64 - 2^21 + 128)` passes it (the chunk size
wraps to 0) and returns with `committed = 0` and `used = 2^64 - 2^21 + 128`;
and on the pool reached by `alloc(1)`, `alloc(2^64 - 100)` returns without any
native call, the request having been rounded to 0 bytes. -/
theorem vmm_alloc_ceiling_bypassed :
    ggml_cann_pool_vmm.alloc (vmm_new (2 ^ 21)) (acl_ok 1 4096) (2 ^ 64 - 2 ^ 21)
      = .error .max_size_assert ∧
    ggml_cann_pool_vmm.alloc (vmm_new (2 ^ 21)) (acl_ok 1 4096) (2 ^ 64 - 2 ^ 21 + 128)
      = .ok (4096, 2 ^ 64 - 2 ^ 21 + 128,
          ⟨4096, 2 ^ 64 - 2 ^ 21 + 128, 0, 2 ^ 21, [1], [4096]⟩) ∧
    ¬ ((2 ^ 64 - 2 ^ 21 + 128 : Nat) ≤ 0) ∧
    ggml_cann_pool_vmm.alloc ⟨4096, 128, 2 ^ 21, 2 ^ 21, [1], [4096]⟩ acl_fail (2 ^ 64 - 100)
      = .ok (4096 + 128, 0, ⟨4096, 128, 2 ^ 21, 2 ^ 21, [1], [4096]⟩) :=
  ⟨by rfl, by rfl, by norm_num, by rfl⟩

/-- C7 (failing input): the state with `used = 2^64 - 128` and `committed = 0`
is reached from a fresh pool of granularity 2 MiB by the single call
`alloc(2^64 - 128)` when the native runtime grants the chunk; there
`used ≤ committed` fails. -/
theorem vmm_reachable_used_above_committed :
    0 < 2 ^ 21 ∧
    VmmReachable (2 ^ 21) ⟨4096, 2 ^ 64 - 128, 0, 2 ^ 21, [1], [4096]⟩
      [(4096, 2 ^ 64 - 128)] ∧
    ¬ ((⟨4096, 2 ^ 64 - 128, 0, 2 ^ 21, [1], [4096]⟩ : ggml_cann_pool_vmm).pool_used
        ≤ (⟨4096, 2 ^ 64 - 128, 0, 2 ^ 21, [1], [4096]⟩ : ggml_cann_pool_vmm).pool_size) := by
  refine ⟨by norm_num, ?_, by norm_num⟩
  exact @VmmReach.alloc _ _ _ _ _ (acl_ok 1 4096) (2 ^ 64 - 128) _ _ VmmReach.fresh
    (by norm_num) (by rfl)

/-! ## Live blocks and mapped chunks -/

/-- C8 (failing input): from a fresh pool of granularity 2 MiB, A = `alloc(2 MiB)`,
B = `alloc(2^64 - 128)` (granted by the native runtime; `used` wraps to
`2 MiB - 128`) and C = `alloc(128)` reach a state in which C, A and B are live,
B does not end inside `[base, base + used)`, and the address
`base + 2 MiB - 128` belongs to both C and A. -/
theorem vmm_reachable_live_blocks_overlap :
    VmmReachable (2 ^ 21) ⟨4096, 2 ^ 21, 2 ^ 21, 2 ^ 21, [1, 2], [4096, 4096 + 2 ^ 21]⟩
      [(4096 + 2 ^ 21 - 128, 128), (4096 + 2 ^ 21, 2 ^ 64 - 128), (4096, 2 ^ 21)] ∧
    in_block (4096 + 2 ^ 21 - 128) (4096 + 2 ^ 21 - 128, 128) ∧
    in_block (4096 + 2 ^ 21 - 128) (4096, 2 ^ 21) ∧
    ¬ (4096 + 2 ^ 21 + (2 ^ 64 - 128) ≤ 4096 + 2 ^ 21) := by
  refine ⟨?_, by unfold in_block; norm_num, by unfold in_block; norm_num, by norm_num⟩
  have hA : VmmReachable (2 ^ 21) ⟨4096, 2 ^ 21, 2 ^ 21, 2 ^ 21, [1], [4096]⟩
      [(4096, 2 ^ 21)] :=
    @VmmReach.alloc _ _ _ _ _ (acl_ok 1 4096) (2 ^ 21) _ _ VmmReach.fresh
      (by norm_num) (by rfl)
  have hB : VmmReachable (2 ^ 21)
      ⟨4096, 2 ^ 21 - 128, 2 ^ 21, 2 ^ 21, [1, 2], [4096, 4096 + 2 ^ 21]⟩
      [(4096 + 2 ^ 21, 2 ^ 64 - 128), (4096, 2 ^ 21)] :=
    @VmmReach.alloc _ _ _ _ _ (acl_ok 2 0) (2 ^ 64 - 128) _ _ hA (by norm_num) (by rfl)
  exact @VmmReach.alloc _ _ _ _ _ acl_fail 128 _ _ hB (by norm_num) (by rfl)

/-- C9 (failing input): from a fresh pool of granularity 2 MiB, `alloc(2 MiB)`,
`alloc(2^64 - 128)` (its chunk size wraps to 0 and is granted by the native
runtime) and `alloc(256)` reach a state whose `map_offsets` holds the address
`base + 2 MiB` twice, so the offsets are not strictly increasing. -/
theorem vmm_reachable_map_offsets_repeat :
    0 < 2 ^ 21 ∧
    VmmReachable (2 ^ 21)
      ⟨4096, 2 ^ 21 + 128, 2 ^ 22, 2 ^ 21, [1, 2, 3], [4096, 4096 + 2 ^ 21, 4096 + 2 ^ 21]⟩
      [(4096 + 2 ^ 21 - 128, 256), (4096 + 2 ^ 21, 2 ^ 64 - 128), (4096, 2 ^ 21)] ∧
    ¬ List.Pairwise (fun a b => a < b) [4096, 4096 + 2 ^ 21, 4096 + 2 ^ 21] := by
  refine ⟨by norm_num, ?_, by simp⟩
  have hA : VmmReachable (2 ^ 21) ⟨4096, 2 ^ 21, 2 ^ 21, 2 ^ 21, [1], [4096]⟩
      [(4096, 2 ^ 21)] :=
    @VmmReach.alloc _ _ _ _ _ (acl_ok 1 4096) (2 ^ 21) _ _ VmmReach.fresh
      (by norm_num) (by rfl)
  have hB : VmmReachable (2 ^ 21)
      ⟨4096, 2 ^ 21 - 128, 2 ^ 21, 2 ^ 21, [1, 2], [4096, 4096 + 2 ^ 21]⟩
      [(4096 + 2 ^ 21, 2 ^ 64 - 128), (4096, 2 ^ 21)] :=
    @VmmReach.alloc _ _ _ _ _ (acl_ok 2 0) (2 ^ 64 - 128) _ _ hA (by norm_num) (by rfl)
  exact @VmmReach.alloc _ _ _ _ _ (acl_ok 3 0) 256 _ _ hB (by norm_num) (by rfl)

/-! ## End-to-end scenario -/

/-- C10: on a fresh pool with granularity 2 MiB whose reservation yields the
non-null base `base`, `alloc(1 MiB)` commits 2 MiB and returns offset 0 with
`actual_size` 1,048,576; `alloc(2 MiB)` grows `committed` to 4 MiB and returns
offset 1 MiB; `free(base + 1 MiB, 2 MiB)` succeeds leaving `used = 1 MiB`;
`free(base + 0, 1 MiB)` succeeds leaving `used = 0` and `committed = 4 MiB`.
The pointers `base + offset` are pointer sums (`add64 base offset`); they are
the plain sums for every base below `2 ^ 64 - 4 MiB`. -/
theorem vmm_end_to_end (base h1 h2 r2 : Nat) (hbase : base ≠ 0) :
    ggml_cann_pool_vmm.alloc (vmm_new 2097152) (acl_ok h1 base) 1048576
      = .ok (add64 base 0, 1048576,
          ⟨base, 1048576, 2097152, 2097152, [h1], [add64 base 0]⟩) ∧
    ggml_cann_pool_vmm.alloc ⟨base, 1048576, 2097152, 2097152, [h1], [add64 base 0]⟩
        (acl_ok h2 r2) 2097152
      = .ok (add64 base 1048576, 2097152,
          ⟨base, 3145728, 4194304, 2097152, [h1, h2],
            [add64 base 0, add64 base 2097152]⟩) ∧
    ggml_cann_pool_vmm.free
        ⟨base, 3145728, 4194304, 2097152, [h1, h2], [add64 base 0, add64 base 2097152]⟩
        (add64 base 1048576) 2097152
      = .ok ⟨base, 1048576, 4194304, 2097152, [h1, h2],
          [add64 base 0, add64 base 2097152]⟩ ∧
    ggml_cann_pool_vmm.free
        ⟨base, 1048576, 4194304, 2097152, [h1, h2], [add64 base 0, add64 base 2097152]⟩
        (add64 base 0) 1048576
      = .ok ⟨base, 0, 4194304, 2097152, [h1, h2], [add64 base 0, add64 base 2097152]⟩ ∧
    (base + 4194304 < 2 ^ 64 → add64 base 0 = base + 0 ∧
      add64 base 1048576 = base + 1048576 ∧ add64 base 2097152 = base + 2097152) := by
  have hle1 : (2097152 : Nat) ≤ CANN_POOL_VMM_MAX_SIZE := by
    unfold CANN_POOL_VMM_MAX_SIZE; norm_num
  have hle2 : (4194304 : Nat) ≤ CANN_POOL_VMM_MAX_SIZE := by
    unfold CANN_POOL_VMM_MAX_SIZE; norm_num
  have al1 : vmm_align 1048576 = 1048576 := by rfl
  have al2 : vmm_align 2097152 = 2097152 := by rfl
  have av1 : sub64 0 0 = 0 := by rfl
  have av2 : sub64 2097152 1048576 = 1048576 := by rfl
  have rs1 : vmm_reserve_size 2097152 (sub64 1048576 0) = 2097152 := by rfl
  have rs2 : vmm_reserve_size 2097152 1048576 = 2097152 := by rfl
  have sz1 : add64 0 2097152 = 2097152 := by rfl
  have sz2 : add64 2097152 2097152 = 4194304 := by rfl
  have us1 : add64 0 1048576 = 1048576 := by rfl
  have us2 : add64 1048576 2097152 = 3145728 := by rfl
  have fr1 : sub64 3145728 2097152 = 1048576 := by rfl
  have fr2 : sub64 1048576 1048576 = 0 := by rfl
  refine ⟨?_, ?_, ?_, ?_, ?_⟩
  · rw [vmm_alloc_first (vmm_new 2097152) (acl_ok h1 base) 1048576 h1 base
      (by simp only [vmm_new, av1, al1]; norm_num) (by simp [vmm_new])
      (by simp only [vmm_new, av1, al1, rs1, sz1]; exact hle1) rfl rfl rfl rfl hbase]
    simp only [vmm_new, av1, al1, rs1, sz1, us1, List.nil_append, Nat.add_zero]
  · rw [vmm_alloc_grow ⟨base, 1048576, 2097152, 2097152, [h1], [add64 base 0]⟩
      (acl_ok h2 r2) 2097152 h2
      (by simp only [av2, al2]; norm_num) (by simp)
      (by simp only [av2, al2, rs2, sz2]; exact hle2) rfl rfl hbase]
    simp only [av2, al2, rs2, sz2, us2, List.singleton_append, List.cons_append,
      List.nil_append]
  · simp only [ggml_cann_pool_vmm.free, fr1]
    simp
  · simp only [ggml_cann_pool_vmm.free, fr2]
    simp
  · intro hlt
    unfold add64
    omega

/-- C10 witness: the scenario with base address 4096. -/
theorem vmm_end_to_end_witness :
    (4096 : Nat) ≠ 0 ∧
    ggml_cann_pool_vmm.free ⟨4096, 1048576, 4194304, 2097152, [1, 2], [4096, 4096 + 2097152]⟩
        (4096 + 0) 1048576
      = .ok ⟨4096, 0, 4194304, 2097152, [1, 2], [4096, 4096 + 2097152]⟩ :=
  ⟨by norm_num, (vmm_end_to_end 4096 1 2 0 (by norm_num)).2.2.2.1⟩

/-! ## Alignment of the bump pointer -/

/-- In every state of a run, `used` and the sizes of the live blocks are
multiples of 128, the base is reserved while blocks are live, and every live
block starts at the base plus a multiple of 128 (a pointer sum). -/
theorem vmm_reach_aligned {bound g : Nat} {p : ggml_cann_pool_vmm}
    {live : List (Nat × Nat)} (h : VmmReach bound g p live) :
    128 ∣ p.pool_used ∧
      ∀ b ∈ live, 128 ∣ b.2 ∧ p.pool_addr ≠ 0 ∧
        ∃ k, b.1 = add64 p.pool_addr (128 * k) := by
  induction h with
  | fresh => exact ⟨⟨0, rfl⟩, fun b hb => by cases hb⟩
  | @alloc p q live acl size ptr actual _ _ halloc ih =>
    obtain ⟨hu, hl⟩ := ih
    obtain ⟨ha, hq0, hptr, hused, -, hkeep, -⟩ := vmm_alloc_ok halloc
    have hact : 128 ∣ actual := ha ▸ vmm_align_dvd size
    obtain ⟨ku, hku⟩ := hu
    refine ⟨?_, ?_⟩
    · rw [hused]
      obtain ⟨ka, hka⟩ := hact
      unfold add64
      omega
    · intro b hb
      rcases List.mem_cons.mp hb with rfl | hb
      · exact ⟨hact, hq0, ku, by rw [hptr, hku]⟩
      · obtain ⟨h1, h2, k, hk⟩ := hl b hb
        exact ⟨h1, hq0, k, by rw [hkeep h2]; exact hk⟩
  | @free p q live ptr actual _ hfree ih =>
    obtain ⟨hu, hl⟩ := ih
    obtain ⟨-, hq⟩ := vmm_free_ok hfree
    obtain ⟨ha, -, -⟩ := hl (ptr, actual) (List.mem_cons_self _ _)
    subst hq
    refine ⟨?_, fun b hb => hl b (List.mem_cons_of_mem _ hb)⟩
    obtain ⟨ku, hku⟩ := hu
    obtain ⟨ka, hka⟩ := ha
    simp only at hka
    show 128 ∣ sub64 p.pool_used actual
    unfold sub64
    omega

/-- C22: in every state reached from a fresh pool by `alloc` calls and
size-exact reverse-order `free` calls, `used` is a multiple of 128, every live
block starts at the pool base plus a multiple of 128, and so does the pointer
returned by any further `alloc`; the sums are pointer sums (`add64`), and are
the plain sums whenever the base plus `used` stays below `2 ^ 64`. -/
theorem vmm_pointer_alignment (g : Nat) (p : ggml_cann_pool_vmm)
    (live : List (Nat × Nat)) (h : VmmReachable g p live) :
    128 ∣ p.pool_used ∧
    (∀ b ∈ live, ∃ k, b.1 = add64 p.pool_addr (128 * k)) ∧
    ∀ (acl : AclResults) (size ptr actual : Nat) (q : ggml_cann_pool_vmm),
      p.alloc acl size = .ok (ptr, actual, q) →
        (∃ k, ptr = add64 q.pool_addr (128 * k) ∧ 128 * k = p.pool_used ∧
          (q.pool_addr + p.pool_used < 2 ^ 64 → ptr = q.pool_addr + 128 * k)) ∧
        128 ∣ q.pool_used := by
  obtain ⟨hu, hl⟩ := vmm_reach_aligned h
  refine ⟨hu, fun b hb => (hl b hb).2.2, ?_⟩
  intro acl size ptr actual q halloc
  obtain ⟨ha, -, hptr, hused, -⟩ := vmm_alloc_ok halloc
  obtain ⟨ku, hku⟩ := hu
  refine ⟨⟨ku, by rw [hptr, hku], hku.symm, fun hlt => by
    rw [hptr, ← hku]; unfold add64; omega⟩, ?_⟩
  have hact : 128 ∣ actual := ha ▸ vmm_align_dvd size
  obtain ⟨ka, hka⟩ := hact
  rw [hused]
  unfold add64
  omega

/-- C22 witness: after `alloc(100)` and `alloc(1)` on a fresh pool of
granularity 2 MiB, `used` is 256, the blocks start at offsets 0 and 128, and
`alloc(5)` returns the offset 256. -/
theorem vmm_pointer_alignment_witness :
    VmmReachable (2 ^ 21) ⟨4096, 256, 2 ^ 21, 2 ^ 21, [1], [4096]⟩
      [(4096 + 128, 128), (4096, 128)] ∧
    ggml_cann_pool_vmm.alloc ⟨4096, 256, 2 ^ 21, 2 ^ 21, [1], [4096]⟩ acl_fail 5
      = .ok (4096 + 256, 128, ⟨4096, 384, 2 ^ 21, 2 ^ 21, [1], [4096]⟩) ∧
    (∃ k, 4096 + 256 = add64 4096 (128 * k) ∧ 128 * k = 256 ∧
      (4096 + 256 < 2 ^ 64 → 4096 + 256 = 4096 + 128 * k)) := by
  have h1 : VmmReachable (2 ^ 21) ⟨4096, 128, 2 ^ 21, 2 ^ 21, [1], [4096]⟩ [(4096, 128)] :=
    @VmmReach.alloc _ _ _ _ _ (acl_ok 1 4096) 100 _ _ VmmReach.fresh (by norm_num) (by rfl)
  have h2 : VmmReachable (2 ^ 21) ⟨4096, 256, 2 ^ 21, 2 ^ 21, [1], [4096]⟩
      [(4096 + 128, 128), (4096, 128)] :=
    @VmmReach.alloc _ _ _ _ _ acl_fail 1 _ _ h1 (by norm_num) (by rfl)
  exact ⟨h2, by rfl,
    ((vmm_pointer_alignment (2 ^ 21) _ _ h2).2.2 acl_fail 5 (4096 + 256) 128
      ⟨4096, 384, 2 ^ 21, 2 ^ 21, [1], [4096]⟩ (by rfl)).1⟩

/-! ## Requests of zero bytes -/

/-- C25: a request of 0 bytes rounds to 0 bytes; on a freshly constructed pool
`alloc(0)` triggers no growth (no native call is made) and aborts on
`GGML_ASSERT(pool_addr != 0)`; on a pool whose address range is reserved, as
it is after any `alloc` that returned, it returns `base + used` (a pointer
sum) with `actual_size = 0` and leaves the pool as it was. -/
theorem vmm_alloc_zero_size :
    vmm_align 0 = 0 ∧
    (∀ (g : Nat) (acl : AclResults),
      (vmm_new g).alloc acl 0 = .error .pool_addr_assert) ∧
    (∀ (p : ggml_cann_pool_vmm) (acl : AclResults), p.pool_addr ≠ 0 →
      p.pool_used < 2 ^ 64 →
      p.alloc acl 0 = .ok (add64 p.pool_addr p.pool_used, 0, p)) ∧
    (∀ (p q : ggml_cann_pool_vmm) (acl acl' : AclResults) (size ptr actual : Nat),
      p.alloc acl size = .ok (ptr, actual, q) →
      q.alloc acl' 0 = .ok (add64 q.pool_addr q.pool_used, 0, q)) := by
  have e1 : vmm_align 0 = 0 := by rfl
  have hzero : ∀ (p : ggml_cann_pool_vmm) (acl : AclResults), p.pool_addr ≠ 0 →
      p.pool_used < 2 ^ 64 →
      p.alloc acl 0 = .ok (add64 p.pool_addr p.pool_used, 0, p) := by
    intro p acl h0 hu
    rw [vmm_alloc_fit p acl 0 (by rw [e1]; exact Nat.zero_le _) h0, e1]
    have e2 : add64 p.pool_used 0 = p.pool_used := by unfold add64; omega
    rw [e2]
  refine ⟨e1, ?_, hzero, ?_⟩
  · intro g acl
    unfold ggml_cann_pool_vmm.alloc
    simp only
    rw [e1, if_neg (Nat.not_lt_zero _)]
    rfl
  · intro p q acl acl' size ptr actual h
    obtain ⟨-, hq0, -, hused, -⟩ := vmm_alloc_ok h
    exact hzero q acl' hq0 (hused ▸ add64_lt _ _)

/-! ## The frame of `free` and the committed size -/

/-- Over the lifetime of a pool the committed size never decreases. -/
theorem vmm_life_committed {p q : ggml_cann_pool_vmm} (h : VmmLife p q) :
    p.pool_size ≤ q.pool_size := by
  induction h with
  | start => exact Nat.le_refl _
  | @alloc q r acl size ptr actual _ halloc hfit ih =>
    obtain ⟨ha, hr0, -, -, -, -, hc⟩ := vmm_alloc_ok halloc
    rcases hc with ⟨-, -, hsz, -⟩ | ⟨hgt, -, -, hsz, -⟩
    · omega
    · have hmap := hfit (ha ▸ hgt)
      unfold vmm_chunk at hmap
      rw [← ha] at hmap
      rw [hsz]
      generalize vmm_reserve_size q.granularity
        (sub64 actual (sub64 q.pool_size q.pool_used)) = chunk at *
      unfold add64
      omega
  | @free q r ptr size _ hfree ih =>
    obtain ⟨-, hr⟩ := vmm_free_ok hfree
    subst hr
    exact ih

/-- C29: a `free` that returns changes `pool_used` only: committed size, base
address, granularity and both chunk lists are as before; over the lifetime of
a pool the committed size never decreases; and an `alloc` whose rounded
request fits in `committed - used` maps nothing: it makes no native call,
leaves committed size, base and chunk lists as they were, and only advances
`used`. -/
theorem vmm_free_frame :
    (∀ (p q : ggml_cann_pool_vmm) (ptr size : Nat), p.free ptr size = .ok q →
      q = { p with pool_used := sub64 p.pool_used size } ∧
      q.pool_size = p.pool_size ∧ q.pool_addr = p.pool_addr ∧
      q.granularity = p.granularity ∧ q.handles = p.handles ∧
      q.map_offsets = p.map_offsets) ∧
    (∀ p q : ggml_cann_pool_vmm, VmmLife p q → p.pool_size ≤ q.pool_size) ∧
    (∀ (p q : ggml_cann_pool_vmm) (acl : AclResults) (size ptr actual : Nat),
      p.alloc acl size = .ok (ptr, actual, q) →
      vmm_align size ≤ sub64 p.pool_size p.pool_used →
      q = { p with pool_used := add64 p.pool_used (vmm_align size) } ∧
      q.pool_size = p.pool_size ∧ q.pool_addr = p.pool_addr ∧
      q.handles = p.handles ∧ q.map_offsets = p.map_offsets ∧
      ∀ acl' : AclResults, p.alloc acl' size = .ok (ptr, actual, q)) := by
  refine ⟨?_, fun p q h => vmm_life_committed h, ?_⟩
  · intro p q ptr size h
    obtain ⟨-, hq⟩ := vmm_free_ok h
    subst hq
    exact ⟨rfl, rfl, rfl, rfl, rfl, rfl⟩
  · intro p q acl size ptr actual h hfit
    obtain ⟨-, hq0, -, -, -, -, hc⟩ := vmm_alloc_ok h
    have h0 : p.pool_addr ≠ 0 := by
      rcases hc with ⟨-, hpa, -⟩ | ⟨hgt, -⟩
      · rw [← hpa]; exact hq0
      · obtain ⟨ha, -⟩ := vmm_alloc_ok h
        omega
    have hall := fun acl' => vmm_alloc_fit p acl' size hfit h0
    rw [hall acl] at h
    injection h with h
    injection h with h1 h2
    injection h2 with h2 h3
    subst h1 h2 h3
    exact ⟨rfl, rfl, rfl, rfl, rfl, hall⟩

/-- C29 witness: from a fresh pool of granularity 2 MiB, `alloc(1 MiB)` maps
one chunk of 2 MiB inside the address space, `free` returns the block, and
`alloc(100)` then fits: the committed size stays 2 MiB throughout. -/
theorem vmm_free_frame_witness :
    VmmLife (vmm_new (2 ^ 21)) ⟨4096, 128, 2 ^ 21, 2 ^ 21, [1], [4096]⟩ ∧
    (vmm_new (2 ^ 21)).pool_size
      ≤ (⟨4096, 128, 2 ^ 21, 2 ^ 21, [1], [4096]⟩ : ggml_cann_pool_vmm).pool_size := by
  have h1 : VmmLife (vmm_new (2 ^ 21)) ⟨4096, 2 ^ 20, 2 ^ 21, 2 ^ 21, [1], [4096]⟩ :=
    @VmmLife.alloc _ _ _ (acl_ok 1 4096) (2 ^ 20) 4096 (2 ^ 20)
      (VmmLife.start _) (by rfl) (fun _ => by
        have e : vmm_chunk (vmm_new (2 ^ 21)) (2 ^ 20) = 2 ^ 21 := by rfl
        rw [e]
        norm_num [vmm_new])
  have h2 : VmmLife (vmm_new (2 ^ 21)) ⟨4096, 0, 2 ^ 21, 2 ^ 21, [1], [4096]⟩ :=
    @VmmLife.free _ _ _ 4096 (2 ^ 20) h1 (by rfl)
  have h3 : VmmLife (vmm_new (2 ^ 21)) ⟨4096, 128, 2 ^ 21, 2 ^ 21, [1], [4096]⟩ :=
    @VmmLife.alloc _ _ _ acl_fail 100 4096 128 h2 (by rfl) (fun h => by
      have e : sub64 (2 ^ 21) 0 = 2 ^ 21 := by rfl
      have e' : vmm_align 100 = 128 := by rfl
      simp only [e, e'] at h
      norm_num at h)
  exact ⟨h3, vmm_free_frame.2.1 _ _ h3⟩

/-! ## Commitment in multiples of the granularity -/

theorem vmm_chunk_sizes_append (e o : Nat) :
    ∀ offs : List Nat,
      vmm_chunk_sizes e (offs ++ [o]) = vmm_chunk_sizes o offs ++ [e - o] := by
  intro offs
  induction offs with
  | nil => rfl
  | cons a rest ih =>
    cases rest with
    | nil => rfl
    | cons b rest' =>
      show (b - a) :: vmm_chunk_sizes e (b :: rest' ++ [o])
        = (b - a) :: vmm_chunk_sizes o (b :: rest') ++ [e - o]
      rw [ih]
      rfl

/-- Under the hypotheses of `vmm_alloc_keeps_bounds`, a growing `alloc`
commits a positive multiple of the granularity. -/
theorem vmm_alloc_bounded_chunk_multiple {p q : ggml_cann_pool_vmm} {acl : AclResults}
    {size ptr actual : Nat}
    (hu : p.pool_used ≤ p.pool_size) (hs : p.pool_size ≤ CANN_POOL_VMM_MAX_SIZE)
    (hreq : size + p.granularity ≤ 2 ^ 64 - 2 ^ 36)
    (h : ggml_cann_pool_vmm.alloc p acl size = .ok (ptr, actual, q)) :
    (q.pool_addr = p.pool_addr ∧ q.pool_size = p.pool_size ∧
        q.map_offsets = p.map_offsets) ∨
    (∃ k, 0 < k ∧ 0 < p.granularity ∧ q.pool_size = p.pool_size + p.granularity * k ∧
        q.map_offsets = p.map_offsets ++ [add64 q.pool_addr p.pool_size]) := by
  obtain ⟨ha, -, -, -, -, -, hc⟩ := vmm_alloc_ok h
  unfold CANN_POOL_VMM_MAX_SIZE at *
  have hav : sub64 p.pool_size p.pool_used = p.pool_size - p.pool_used := by
    unfold sub64; omega
  have hact : actual = 128 * ((size + 127) / 128) := by
    rw [ha, vmm_align_eq size (by omega)]
  rw [hav] at hc
  rcases hc with ⟨-, h1, h2, -, h4⟩ | ⟨hgt, hg, hmax, hsz, handle, -, -, h4⟩
  · exact Or.inl ⟨h1, h2, h4⟩
  · have hg0 := Nat.pos_of_ne_zero hg
    have e : sub64 actual (p.pool_size - p.pool_used)
        = actual - (p.pool_size - p.pool_used) := by
      unfold sub64; omega
    rw [e, vmm_reserve_size_eq _ _ hg0 (by omega)] at hmax hsz
    have hb := round_up_bounds p.granularity (actual - (p.pool_size - p.pool_used)) hg0
    refine Or.inr ⟨(actual - (p.pool_size - p.pool_used) + p.granularity - 1)
      / p.granularity, ?_, hg0, ?_, h4⟩
    · apply Nat.pos_of_ne_zero
      intro hk
      rw [hk] at hb
      omega
    · generalize p.granularity * ((actual - (p.pool_size - p.pool_used) + p.granularity - 1)
        / p.granularity) = chunk at *
      rw [hsz]
      unfold add64 at *
      omega

/-- In a run without overflowing requests whose reserved range ends below
`2 ^ 64` the committed size is a multiple of the granularity, every mapped offset is the base plus a multiple of the
granularity, and every mapped chunk has a size that is a positive multiple of
the granularity. -/
theorem vmm_reach_bounded_granular {bound g : Nat} (hb : bound + g ≤ 2 ^ 64 - 2 ^ 36)
    {p : ggml_cann_pool_vmm} {live : List (Nat × Nat)}
    (h : VmmReach bound g p live)
    (hfits : p.pool_addr + CANN_POOL_VMM_MAX_SIZE < 2 ^ 64) :
    g ∣ p.pool_size ∧
    (∀ o ∈ p.map_offsets, ∃ k, o = p.pool_addr + g * k) ∧
    (∀ c ∈ vmm_chunk_sizes (p.pool_addr + p.pool_size) p.map_offsets, 0 < c ∧ g ∣ c) := by
  induction h with
  | fresh =>
    exact ⟨⟨0, rfl⟩, fun o ho => by simp [vmm_new] at ho,
      fun c hc => by simp [vmm_new, vmm_chunk_sizes] at hc⟩
  | @alloc p q live acl size ptr actual hprev hsize halloc ih =>
    have hp : p.pool_addr + CANN_POOL_VMM_MAX_SIZE < 2 ^ 64 := by
      by_cases h0 : p.pool_addr = 0
      · rw [h0]
        unfold CANN_POOL_VMM_MAX_SIZE
        norm_num
      · rw [← (vmm_alloc_ok halloc).2.2.2.2.2.1 h0]
        exact hfits
    obtain ⟨hdvd, hoffs, hchunks⟩ := ih hp
    have hinv := vmm_reach_inv hb hprev hp
    have hgran := hinv.gran
    have hsz35 : p.pool_size ≤ 2 ^ 35 := hinv.size_le
    have hfits' : q.pool_addr + 2 ^ 35 < 2 ^ 64 := hfits
    have eoff : add64 q.pool_addr p.pool_size = q.pool_addr + p.pool_size := by
      unfold add64; omega
    obtain ⟨-, -, -, -, -, hkeep, -⟩ := vmm_alloc_ok halloc
    rcases vmm_alloc_bounded_chunk_multiple hinv.used_le hinv.size_le
        (by rw [hgran]; omega) halloc with ⟨h1, h2, h3⟩ | ⟨k, hk, hg0, h2, h3⟩
    · rw [h1, h2, h3]
      exact ⟨hdvd, hoffs, hchunks⟩
    · rw [hgran] at h2 hg0
      rw [eoff] at h3
      obtain ⟨m, hm⟩ := hdvd
      have hbase : p.pool_addr ≠ 0 → q.pool_addr = p.pool_addr := hkeep
      have hempty : p.pool_addr = 0 → p.map_offsets = [] ∧ p.pool_size = 0 := by
        intro h0
        have := (hinv.unreserved h0).2
        exact ⟨this, hinv.first.1 this⟩
      refine ⟨⟨m + k, by rw [h2, hm]; ring⟩, ?_, ?_⟩
      · intro o ho
        rw [h3] at ho
        rcases List.mem_append.mp ho with ho | ho
        · by_cases h0 : p.pool_addr = 0
          · rw [(hempty h0).1] at ho
            cases ho
          · rw [hbase h0]
            exact hoffs o ho
        · rw [List.mem_singleton] at ho
          exact ⟨m, by rw [ho, hm]⟩
      · intro c hc
        rw [h3, vmm_chunk_sizes_append] at hc
        rcases List.mem_append.mp hc with hc | hc
        · by_cases h0 : p.pool_addr = 0
          · rw [(hempty h0).1] at hc
            cases hc
          · rw [hbase h0] at hc
            exact hchunks c hc
        · rw [List.mem_singleton] at hc
          have hc' : c = g * k := by
            rw [hc]
            generalize g * k = gk at h2 ⊢
            omega
          rw [hc']
          exact ⟨Nat.mul_pos hg0 hk, Dvd.intro _ rfl⟩
  | @free p q live ptr actual hprev hfree ih =>
    obtain ⟨-, hq⟩ := vmm_free_ok hfree
    subst hq
    exact ih hfits

/-- C30 (failing input): from a fresh pool of granularity 2 MiB, `alloc(2 MiB)`
and `alloc(2^64 - 128)`, both granted by the native runtime, reach a state
with two mapped chunks and 2 MiB committed: the second chunk, mapped at
`base + 2 MiB`, has size 0 (its rounded size wrapped around), which is not a
positive multiple of the granularity. -/
theorem vmm_reachable_zero_size_chunk :
    0 < 2 ^ 21 ∧
    VmmReachable (2 ^ 21)
      ⟨4096, 2 ^ 21 - 128, 2 ^ 21, 2 ^ 21, [1, 2], [4096, 4096 + 2 ^ 21]⟩
      [(4096 + 2 ^ 21, 2 ^ 64 - 128), (4096, 2 ^ 21)] ∧
    vmm_chunk ⟨4096, 2 ^ 21, 2 ^ 21, 2 ^ 21, [1], [4096]⟩ (2 ^ 64 - 128) = 0 ∧
    vmm_chunk_sizes (4096 + 2 ^ 21) [4096, 4096 + 2 ^ 21] = [2 ^ 21, 0] := by
  refine ⟨by norm_num, ?_, by rfl, by rfl⟩
  have hA : VmmReachable (2 ^ 21) ⟨4096, 2 ^ 21, 2 ^ 21, 2 ^ 21, [1], [4096]⟩
      [(4096, 2 ^ 21)] :=
    @VmmReach.alloc _ _ _ _ _ (acl_ok 1 4096) (2 ^ 21) _ _ VmmReach.fresh
      (by norm_num) (by rfl)
  exact @VmmReach.alloc _ _ _ _ _ (acl_ok 2 0) (2 ^ 64 - 128) _ _ hA (by norm_num) (by rfl)

/-! # The legacy pool -/

set_option maxRecDepth 100000

/-! ## The scan loop of the legacy `alloc` -/

/-- What the scan loop computes.  Either no remaining slot fits with a
difference below `best_diff` and the recorded `ibest` stands, or the scan
designates the first of the remaining slots whose size is the least among the
fitting ones, that least difference being below `best_diff`. -/
theorem leg_scan_spec (size : Nat) :
    ∀ (l : List ggml_cann_buffer) (i best_diff : Nat) (ibest : Option Nat),
      ((leg_scan size l i best_diff ibest).index = ibest ∧
        ∀ c ∈ l, leg_fits size c → best_diff ≤ c.size - size) ∨
      (∃ k b, l[k]? = some b ∧ leg_fits size b ∧ b.size - size < best_diff ∧
        (leg_scan size l i best_diff ibest).index = some (i + k) ∧
        (∀ c ∈ l, leg_fits size c → b.size ≤ c.size) ∧
        (∀ k' c, k' < k → l[k']? = some c → leg_fits size c → b.size < c.size)) := by
  intro l
  induction l with
  | nil =>
    intro i best_diff ibest
    left
    exact ⟨rfl, fun c hc => by cases hc⟩
  | cons b rest ih =>
    intro i best_diff ibest
    unfold leg_scan
    by_cases hp : b.ptr ≠ 0
    · rw [if_pos hp]
      by_cases hs : b.size ≥ size
      · rw [if_pos hs]
        simp only
        by_cases hd : b.size - size < best_diff
        · rw [if_pos hd]
          by_cases hz : b.size - size = 0
          · rw [if_pos hz]
            right
            refine ⟨0, b, by simp, ⟨hp, hs⟩, hd, rfl, ?_, ?_⟩
            · intro c _ hc
              have := hc.2
              omega
            · intro k' c hk
              omega
          · rw [if_neg hz]
            rcases ih (i + 1) (b.size - size) (some i) with ⟨hidx, hall⟩ | ⟨k, b', hk, hfit, hlt, hidx, hmin, hfirst⟩
            · right
              refine ⟨0, b, by simp, ⟨hp, hs⟩, hd, hidx, ?_, ?_⟩
              · intro c hc hfc
                rcases List.mem_cons.mp hc with rfl | hc
                · exact Nat.le_refl _
                · have := hall c hc hfc
                  have := hfc.2
                  omega
              · intro k' c hk
                omega
            · right
              refine ⟨k + 1, b', by simpa using hk, hfit, by omega, ?_, ?_, ?_⟩
              · rw [hidx]; congr 1; omega
              · intro c hc hfc
                rcases List.mem_cons.mp hc with rfl | hc
                · have := hfit.2
                  omega
                · exact hmin c hc hfc
              · intro k' c hk' hc hfc
                cases k' with
                | zero =>
                  simp at hc
                  subst hc
                  have := hfit.2
                  omega
                | succ k'' =>
                  exact hfirst k'' c (by omega) (by simpa using hc) hfc
        · rw [if_neg hd]
          rcases ih (i + 1) best_diff ibest with ⟨hidx, hall⟩ | ⟨k, b', hk, hfit, hlt, hidx, hmin, hfirst⟩
          · left
            refine ⟨hidx, ?_⟩
            intro c hc hfc
            rcases List.mem_cons.mp hc with rfl | hc
            · omega
            · exact hall c hc hfc
          · right
            refine ⟨k + 1, b', by simpa using hk, hfit, hlt, ?_, ?_, ?_⟩
            · rw [hidx]; congr 1; omega
            · intro c hc hfc
              rcases List.mem_cons.mp hc with rfl | hc
              · have := hfit.2
                omega
              · exact hmin c hc hfc
            · intro k' c hk' hc hfc
              cases k' with
              | zero =>
                simp at hc
                subst hc
                have := hfit.2
                omega
              | succ k'' =>
                exact hfirst k'' c (by omega) (by simpa using hc) hfc
      · rw [if_neg hs]
        rcases ih (i + 1) best_diff ibest with ⟨hidx, hall⟩ | ⟨k, b', hk, hfit, hlt, hidx, hmin, hfirst⟩
        · left
          refine ⟨hidx, ?_⟩
          intro c hc hfc
          rcases List.mem_cons.mp hc with rfl | hc
          · exact absurd hfc.2 (by omega)
          · exact hall c hc hfc
        · right
          refine ⟨k + 1, b', by simpa using hk, hfit, hlt, ?_, ?_, ?_⟩
          · rw [hidx]; congr 1; omega
          · intro c hc hfc
            rcases List.mem_cons.mp hc with rfl | hc
            · exact absurd hfc.2 (by omega)
            · exact hmin c hc hfc
          · intro k' c hk' hc hfc
            cases k' with
            | zero =>
              simp at hc
              subst hc
              exact absurd hfc.2 (by omega)
            | succ k'' =>
              exact hfirst k'' c (by omega) (by simpa using hc) hfc
    · rw [if_neg hp]
      rcases ih (i + 1) best_diff ibest with ⟨hidx, hall⟩ | ⟨k, b', hk, hfit, hlt, hidx, hmin, hfirst⟩
      · left
        refine ⟨hidx, ?_⟩
        intro c hc hfc
        rcases List.mem_cons.mp hc with rfl | hc
        · exact absurd hfc.1 hp
        · exact hall c hc hfc
      · right
        refine ⟨k + 1, b', by simpa using hk, hfit, hlt, ?_, ?_, ?_⟩
        · rw [hidx]; congr 1; omega
        · intro c hc hfc
          rcases List.mem_cons.mp hc with rfl | hc
          · exact absurd hfc.1 hp
          · exact hmin c hc hfc
        · intro k' c hk' hc hfc
          cases k' with
          | zero =>
            simp at hc
            subst hc
            exact absurd hfc.1 hp
          | succ k'' =>
            exact hfirst k'' c (by omega) (by simpa using hc) hfc

/-- The scan of `alloc` from the start of the array. -/
theorem leg_pick_spec (size : Nat) (l : List ggml_cann_buffer) :
    (leg_pick size l = none ∧ ∀ c ∈ l, leg_fits size c → 2 ^ 36 ≤ c.size - size) ∨
    (∃ k b, l[k]? = some b ∧ leg_fits size b ∧ b.size - size < 2 ^ 36 ∧
      leg_pick size l = some k ∧
      (∀ c ∈ l, leg_fits size c → b.size ≤ c.size) ∧
      (∀ k' c, k' < k → l[k']? = some c → leg_fits size c → b.size < c.size)) := by
  unfold leg_pick
  rcases leg_scan_spec size l 0 (2 ^ 36) none with h | ⟨k, b, hk, hfit, hlt, hidx, hmin, hfirst⟩
  · exact Or.inl h
  · exact Or.inr ⟨k, b, hk, hfit, hlt, by rw [hidx, Nat.zero_add], hmin, hfirst⟩

/-- The method `alloc` by cases on the slot the scan designates. -/
theorem leg_alloc_eq (p : ggml_cann_pool_leg) (acl : AclMalloc) (size : Nat) :
    p.alloc acl size =
      match leg_pick size p.buffer_pool with
      | some i => .ok (leg_take p i)
      | none => leg_alloc_native p acl size := by
  unfold ggml_cann_pool_leg.alloc leg_pick LegScan.index
  cases h : leg_scan size p.buffer_pool 0 (2 ^ 36) none with
  | exact i => rfl
  | done ibest => cases ibest <;> rfl

/-! ## The double computation of the look-ahead size -/

/-- The exponent search: the quotient by `2 ^ s` has at most 53 digits, `s` is
0 or the argument has at least `53 + s` digits, and `s ≤ j` for an argument
below `2 ^ (53 + j)`. -/
theorem fp_exp_spec : ∀ (fuel n : Nat),
    (n < 2 ^ (53 + fuel) → n / 2 ^ fp_exp fuel n < 2 ^ 53) ∧
    (fp_exp fuel n = 0 ∨ 2 ^ (52 + fp_exp fuel n) ≤ n) ∧
    ∀ j, n < 2 ^ (53 + j) → fp_exp fuel n ≤ j := by
  intro fuel
  induction fuel with
  | zero =>
    intro n
    refine ⟨fun h => ?_, Or.inl rfl, fun j _ => Nat.zero_le _⟩
    simpa [fp_exp] using h
  | succ fuel ih =>
    intro n
    unfold fp_exp
    by_cases hn : n < 2 ^ 53
    · rw [if_pos hn]
      refine ⟨fun _ => by simpa using hn, Or.inl rfl, fun j _ => Nat.zero_le _⟩
    · rw [if_neg hn]
      obtain ⟨h1, h2, h3⟩ := ih (n / 2)
      refine ⟨fun h => ?_, Or.inr ?_, fun j hj => ?_⟩
      · have hlt : n / 2 < 2 ^ (53 + fuel) := by
          have e : 2 ^ (53 + (fuel + 1)) = 2 * 2 ^ (53 + fuel) := by
            rw [← Nat.add_assoc, Nat.pow_succ, Nat.mul_comm]
          rw [e] at h
          omega
        have := h1 hlt
        rw [Nat.pow_succ, Nat.mul_comm, ← Nat.div_div_eq_div_mul]
        exact this
      · rcases h2 with h0 | hge
        · rw [h0]
          show 2 ^ 53 ≤ n
          omega
        · have e : 2 ^ (52 + (fp_exp fuel (n / 2) + 1))
              = 2 * 2 ^ (52 + fp_exp fuel (n / 2)) := by
            rw [← Nat.add_assoc, Nat.pow_succ, Nat.mul_comm]
          rw [e]
          omega
      · cases j with
        | zero => exact absurd hj hn
        | succ j =>
          have e : 2 ^ (53 + (j + 1)) = 2 * 2 ^ (53 + j) := by
            rw [← Nat.add_assoc, Nat.pow_succ, Nat.mul_comm]
          rw [e] at hj
          have := h3 j (by omega)
          omega


/-- The rounding `fp_round53` yields `a * 2 ^ s` with `a ≤ 2 ^ 53`, at most
half a unit `2 ^ s` away from its argument; `s` is 0 or `2 ^ (52 + s)` is at
most the argument, and `s ≤ j` for an argument below `2 ^ (53 + j)`. -/
theorem fp_round53_spec (n : Nat) (hn : n < 2 ^ 181) :
    ∃ s a, fp_round53 n = a * 2 ^ s ∧ a ≤ 2 ^ 53 ∧
      2 * fp_round53 n ≤ 2 * n + 2 ^ s ∧ 2 * n ≤ 2 * fp_round53 n + 2 ^ s ∧
      (s = 0 ∨ 2 ^ (52 + s) ≤ n) ∧ ∀ j, n < 2 ^ (53 + j) → s ≤ j := by
  obtain ⟨h1, h2, h3⟩ := fp_exp_spec 128 n
  have hq := h1 hn
  have hc : 0 < 2 ^ fp_exp 128 n := Nat.pow_pos (by norm_num)
  have hdm := Nat.div_add_mod n (2 ^ fp_exp 128 n)
  have hrem := Nat.mod_lt n hc
  unfold fp_round53
  simp only
  generalize fp_exp 128 n = s at *
  generalize hcdef : 2 ^ s = c at *
  generalize n / c = q at *
  generalize n % c = rem at *
  have hmul : c * q = q * c := Nat.mul_comm _ _
  have hsucc : (q + 1) * c = q * c + c := by ring
  rw [hmul] at hdm
  by_cases hup : c < 2 * rem ∨ (2 * rem = c ∧ q % 2 = 1)
  · rw [if_pos hup]
    refine ⟨s, q + 1, by rw [hcdef], by omega, ?_, ?_, h2, h3⟩
    · rw [hcdef, hsucc]
      generalize q * c = qc at *
      omega
    · rw [hcdef, hsucc]
      generalize q * c = qc at *
      omega
  · rw [if_neg hup]
    refine ⟨s, q, by rw [hcdef], by omega, ?_, ?_, h2, h3⟩
    · rw [hcdef]
      generalize q * c = qc at *
      omega
    · rw [hcdef]
      generalize q * c = qc at *
      omega

/-- Numbers below `2 ^ 53` are `double` values: the rounding leaves them. -/
theorem fp_round53_exact (n : Nat) (hn : n < 2 ^ 53) : fp_round53 n = n := by
  obtain ⟨s, a, -, -, h1, h2, -, h3⟩ := fp_round53_spec n
    (Nat.lt_of_lt_of_le hn (Nat.pow_le_pow_right (by norm_num) (by norm_num)))
  have hs : s = 0 := Nat.le_zero.mp (h3 0 hn)
  subst hs
  omega

/-- The relative error of the rounding is at most `2 ^ -53` (downwards). -/
theorem fp_round53_rel (n : Nat) (hn : n < 2 ^ 181) :
    (2 ^ 53 - 1) * n ≤ 2 ^ 53 * fp_round53 n := by
  obtain ⟨s, a, -, -, h1, h2, h3, -⟩ := fp_round53_spec n hn
  rcases h3 with h0 | hge
  · subst h0
    omega
  · rw [Nat.pow_add] at hge
    generalize 2 ^ s = c at *
    omega

/-- The constant `DOUBLE_1_05 / 2 ^ 52` is the `double` nearest to 21/20: it has
53 significant digits and `DOUBLE_1_05` is the integer nearest to
`21 * 2 ^ 52 / 20`. -/
theorem double_1_05_nearest :
    20 * DOUBLE_1_05 = 21 * 2 ^ 52 + 4 ∧ 2 ^ 52 ≤ DOUBLE_1_05 ∧ DOUBLE_1_05 < 2 ^ 53 := by
  unfold DOUBLE_1_05
  norm_num

/-- Below `3 * 2 ^ 47` the double computation of the look-ahead size is the
truncated exact product `21 * size / 20`. -/
theorem leg_look_ahead_floor (r : Nat) (hr : r < 3 * 2 ^ 47) :
    leg_look_ahead r = 21 * r / 20 := by
  have e1 : fp_round53 r = r := fp_round53_exact r (by omega)
  have hN : r * DOUBLE_1_05 < 2 ^ (53 + 48) := by unfold DOUBLE_1_05; omega
  obtain ⟨s, a, h1, -, h2, h3, -, h4⟩ := fp_round53_spec (r * DOUBLE_1_05)
    (Nat.lt_of_lt_of_le hN (Nat.pow_le_pow_right (by norm_num) (by norm_num)))
  have hs := h4 48 hN
  unfold leg_look_ahead
  simp only
  rw [e1]
  generalize fp_round53 (r * DOUBLE_1_05) = R at *
  unfold DOUBLE_1_05 at *
  have key : R / 2 ^ 52 = 21 * r / 20 := by
    interval_cases s <;> omega
  rw [key, if_pos (by omega)]

/-- Whenever the double product `1.05 * size` is below `2 ^ 64`, so that its
conversion to `size_t` is defined, the converted value is at least `size` and
adding 255 to it does not wrap. -/
theorem leg_look_ahead_ge (size : Nat) (hsize : size < 2 ^ 64)
    (hr : fp_round53 (fp_round53 size * DOUBLE_1_05) < 2 ^ 116) :
    leg_look_ahead size = fp_round53 (fp_round53 size * DOUBLE_1_05) / 2 ^ 52 ∧
      size ≤ leg_look_ahead size ∧ leg_look_ahead size + 255 < 2 ^ 64 := by
  unfold leg_look_ahead
  simp only
  have hs181 : size < 2 ^ 181 :=
    Nat.lt_of_lt_of_le hsize (Nat.pow_le_pow_right (by norm_num) (by norm_num))
  obtain ⟨s1, a1, -, -, h11, -, -, h14⟩ := fp_round53_spec size hs181
  have hrel1 := fp_round53_rel size hs181
  have hs1 : s1 ≤ 11 := h14 11 hsize
  have hR1 : fp_round53 size < 2 ^ 65 := by
    have : 2 ^ s1 ≤ 2 ^ 11 := Nat.pow_le_pow_right (by norm_num) hs1
    omega
  generalize fp_round53 size = R1 at *
  have hN : R1 * DOUBLE_1_05 < 2 ^ (53 + 65) := by unfold DOUBLE_1_05; omega
  have hN181 : R1 * DOUBLE_1_05 < 2 ^ 181 :=
    Nat.lt_of_lt_of_le hN (Nat.pow_le_pow_right (by norm_num) (by norm_num))
  obtain ⟨s2, a2, h20, h2a, -, -, -, h24⟩ := fp_round53_spec (R1 * DOUBLE_1_05) hN181
  have hrel2 := fp_round53_rel (R1 * DOUBLE_1_05) hN181
  have hs2 := h24 65 hN
  generalize fp_round53 (R1 * DOUBLE_1_05) = R2 at *
  unfold DOUBLE_1_05 at *
  have hin : R2 / 2 ^ 52 < 2 ^ 64 := by omega
  rw [if_pos hin]
  refine ⟨rfl, by omega, ?_⟩
  interval_cases s2 <;> omega

/-- Where adding 255 does not wrap, the rounding to 256 is exact and does not
decrease the size. -/
theorem leg_round_256_eq {la : Nat} (h : la + 255 < 2 ^ 64) :
    leg_round_256 la = 256 * ((la + 255) / 256) ∧ la ≤ leg_round_256 la := by
  have h2 : 256 * ((la + 255) / 256) < 2 ^ 64 := by omega
  unfold leg_round_256 mul64 add64
  rw [Nat.mod_eq_of_lt h, Nat.mod_eq_of_lt h2]
  exact ⟨rfl, by omega⟩

/-- Requests of at most `2 ^ 63` bytes have a double product below `2 ^ 64`. -/
theorem leg_look_ahead_in_range (size : Nat) (hsize : size ≤ 2 ^ 63) :
    fp_round53 (fp_round53 size * DOUBLE_1_05) < 2 ^ 116 := by
  have hs64 : size < 2 ^ (53 + 11) := by omega
  have hs181 : size < 2 ^ 181 :=
    Nat.lt_of_lt_of_le hs64 (Nat.pow_le_pow_right (by norm_num) (by norm_num))
  obtain ⟨s1, a1, -, -, h11, -, -, h14⟩ := fp_round53_spec size hs181
  have hs1 : s1 ≤ 11 := h14 11 hs64
  have hR1 : fp_round53 size ≤ 2 ^ 63 + 2 ^ 10 := by
    have : 2 ^ s1 ≤ 2 ^ 11 := Nat.pow_le_pow_right (by norm_num) hs1
    omega
  generalize fp_round53 size = R1 at *
  have hN : R1 * DOUBLE_1_05 < 2 ^ (53 + 63) := by unfold DOUBLE_1_05; omega
  have hN181 : R1 * DOUBLE_1_05 < 2 ^ 181 :=
    Nat.lt_of_lt_of_le hN (Nat.pow_le_pow_right (by norm_num) (by norm_num))
  obtain ⟨s2, a2, -, -, h21, -, -, h24⟩ := fp_round53_spec (R1 * DOUBLE_1_05) hN181
  have hs2 := h24 63 hN
  have : 2 ^ s2 ≤ 2 ^ 63 := Nat.pow_le_pow_right (by norm_num) hs2
  generalize fp_round53 (R1 * DOUBLE_1_05) = R2 at *
  unfold DOUBLE_1_05 at *
  omega

/-- What a successful native path of `alloc` did. -/
theorem leg_alloc_native_ok {p q : ggml_cann_pool_leg} {acl : AclMalloc}
    {size ptr actual : Nat}
    (h : leg_alloc_native p acl size = .ok (ptr, actual, q)) :
    actual = leg_round_256 (leg_look_ahead size) ∧ actual < 2 ^ 64 ∧
      acl.malloc = some ptr ∧
      q = { p with pool_size := add64 p.pool_size actual } := by
  unfold leg_alloc_native at h
  simp only at h
  split at h
  · cases h
  · split at h
    · cases h
    · rename_i ptr' hm
      injection h with h
      injection h with e1 h
      injection h with e2 e3
      subst e1 e2 e3
      exact ⟨rfl, mul64_lt _ _, hm, rfl⟩

/-- The only fatal outcome of `alloc` is a failed native call. -/
theorem leg_alloc_error {p : ggml_cann_pool_leg} {acl : AclMalloc} {size : Nat}
    {e : LegFatal} (h : p.alloc acl size = .error e) :
    e = .acl_check := by
  rw [leg_alloc_eq] at h
  split at h
  · cases h
  · unfold leg_alloc_native at h
    simp only at h
    split at h
    · injection h with h
      exact h.symm
    · split at h
      · injection h with h
        exact h.symm
      · cases h

/-! ## The insertion loop of the legacy `free` -/

theorem leg_insert_none_iff (ptr size : Nat) (l : List ggml_cann_buffer) :
    leg_insert ptr size l = none ↔ ∀ b ∈ l, b.ptr ≠ 0 := by
  induction l with
  | nil => simp [leg_insert]
  | cons b rest ih =>
    unfold leg_insert
    by_cases hb : b.ptr = 0
    · rw [if_pos hb]
      simp only [List.mem_cons, forall_eq_or_imp, false_iff, not_and, reduceCtorEq]
      intro h
      exact absurd hb h
    · rw [if_neg hb]
      simp only [Option.map_eq_none', ih, List.mem_cons, forall_eq_or_imp]
      exact ⟨fun h => ⟨hb, h⟩, fun h => h.2⟩

/-- The loop of `free` stores the block in the first slot with a null pointer
and changes no other slot. -/
theorem leg_insert_some (ptr size : Nat) (l : List ggml_cann_buffer)
    (h : ∃ b ∈ l, b.ptr = 0) :
    ∃ i b, l[i]? = some b ∧ b.ptr = 0 ∧
      (∀ j c, j < i → l[j]? = some c → c.ptr ≠ 0) ∧
      leg_insert ptr size l = some (l.set i ⟨ptr, size⟩) := by
  induction l with
  | nil =>
    obtain ⟨b, hb, -⟩ := h
    cases hb
  | cons b rest ih =>
    unfold leg_insert
    by_cases hb : b.ptr = 0
    · rw [if_pos hb]
      refine ⟨0, b, by simp, hb, ?_, by simp⟩
      intro j c hj
      omega
    · rw [if_neg hb]
      have h' : ∃ c ∈ rest, c.ptr = 0 := by
        obtain ⟨c, hc, hc0⟩ := h
        rcases List.mem_cons.mp hc with rfl | hc
        · exact absurd hc0 hb
        · exact ⟨c, hc, hc0⟩
      obtain ⟨i, c, hi, hc0, hfirst, hins⟩ := ih h'
      refine ⟨i + 1, c, by simpa using hi, hc0, ?_, by simp [hins]⟩
      intro j d hj hd
      cases j with
      | zero =>
        simp at hd
        subst hd
        exact hb
      | succ j' => exact hfirst j' d (by omega) (by simpa using hd)

theorem leg_insert_length {ptr size : Nat} {l l' : List ggml_cann_buffer}
    (h : leg_insert ptr size l = some l') : l'.length = l.length := by
  have hex : ∃ b ∈ l, b.ptr = 0 := by
    by_contra hne
    have : leg_insert ptr size l = none :=
      (leg_insert_none_iff ptr size l).mpr (fun b hb h0 => hne ⟨b, hb, h0⟩)
    rw [this] at h
    cases h
  obtain ⟨i, b, -, -, -, hins⟩ := leg_insert_some ptr size l hex
  rw [hins] at h
  injection h with h
  rw [← h, List.length_set]

/-- What a successful `free` did. -/
theorem leg_free_ok {p q : ggml_cann_pool_leg} {ptr size : Nat}
    (h : p.free ptr size = .ok q) :
    leg_insert ptr size p.buffer_pool = some q.buffer_pool ∧ q.pool_size = p.pool_size := by
  unfold ggml_cann_pool_leg.free at h
  split at h
  · rename_i l hl
    injection h with h
    subst h
    exact ⟨hl, rfl⟩
  · cases h

/-! ## Best fit in the legacy pool -/


theorem leg_take_eq {p : ggml_cann_pool_leg} {k : Nat} {b : ggml_cann_buffer}
    (h : p.buffer_pool[k]? = some b) :
    leg_take p k = (b.ptr, b.size, { p with buffer_pool := p.buffer_pool.set k ⟨0, 0⟩ }) := by
  unfold leg_take
  rw [List.getD_eq_getElem?_getD, h]
  rfl

/-- The slot the scan designates holds a fitting block of least size, no
fitting slot of the same size precedes it, and `alloc` returns its block and
clears it. -/
theorem leg_alloc_reuse (p : ggml_cann_pool_leg) (acl : AclMalloc)
    (r k : Nat) (hpick : leg_pick r p.buffer_pool = some k) :
    ∃ b, p.buffer_pool[k]? = some b ∧ leg_fits r b ∧
      p.alloc acl r =
        .ok (b.ptr, b.size, { p with buffer_pool := p.buffer_pool.set k ⟨0, 0⟩ }) ∧
      (∀ c ∈ p.buffer_pool, leg_fits r c → b.size ≤ c.size) ∧
      (∀ j c, p.buffer_pool[j]? = some c → leg_fits r c → c.size = b.size → k ≤ j) := by
  rcases leg_pick_spec r p.buffer_pool with ⟨hnone, -⟩ | ⟨k', b, hk, hfit, -, hpick', hmin, hfirst⟩
  · rw [hnone] at hpick
    cases hpick
  · rw [hpick'] at hpick
    injection hpick with hpick
    subst hpick
    refine ⟨b, hk, hfit, ?_, hmin, ?_⟩
    · rw [leg_alloc_eq, hpick']
      simp only
      rw [leg_take_eq hk]
    · intro j c hj hfc hsz
      by_contra hlt
      have := hfirst j c (by omega) hj hfc
      omega

/-- C11 (amended): when some occupied slot holds a block of at least `r` and
less than `r + 2 ^ 36` bytes, `alloc(r)` makes no native allocation (its
result does not depend on the native runtime and `pool_size` is unchanged) and
returns the block of an occupied slot whose size is the minimum of all
occupied slot sizes that are at least `r`, clearing that slot. -/
theorem leg_alloc_best_fit (p : ggml_cann_pool_leg) (r : Nat)
    (h : ∃ c ∈ p.buffer_pool, leg_fits r c ∧ c.size < r + 2 ^ 36) :
    ∃ k b, p.buffer_pool[k]? = some b ∧ leg_fits r b ∧
      (∀ c ∈ p.buffer_pool, leg_fits r c → b.size ≤ c.size) ∧
      ∀ acl : AclMalloc, p.alloc acl r =
        .ok (b.ptr, b.size, { p with buffer_pool := p.buffer_pool.set k ⟨0, 0⟩ }) := by
  rcases leg_pick_spec r p.buffer_pool with ⟨-, hall⟩ | ⟨k, b, hk, hfit, -, hpick, hmin, -⟩
  · obtain ⟨c, hc, hfc, hlt⟩ := h
    have := hall c hc hfc
    have := hfc.2
    omega
  · refine ⟨k, b, hk, hfit, hmin, ?_⟩
    intro acl
    rw [leg_alloc_eq, hpick]
    simp only
    rw [leg_take_eq hk]

/-- C11 witness: a pool holding blocks of 1024 and 512 bytes serves
`alloc(300)` from the 512-byte block in slot 1, whatever the native runtime. -/
theorem leg_alloc_best_fit_witness :
    (∃ c ∈ leg_slots [⟨4096, 1024⟩, ⟨8192, 512⟩] 254, leg_fits 300 c ∧ c.size < 300 + 2 ^ 36) ∧
    ∃ k b, (leg_slots [⟨4096, 1024⟩, ⟨8192, 512⟩] 254)[k]? = some b ∧ leg_fits 300 b ∧
      (∀ c ∈ leg_slots [⟨4096, 1024⟩, ⟨8192, 512⟩] 254, leg_fits 300 c → b.size ≤ c.size) ∧
      ∀ acl : AclMalloc,
        ggml_cann_pool_leg.alloc ⟨leg_slots [⟨4096, 1024⟩, ⟨8192, 512⟩] 254, 1536⟩ acl 300 =
          .ok (b.ptr, b.size,
            ⟨(leg_slots [⟨4096, 1024⟩, ⟨8192, 512⟩] 254).set k ⟨0, 0⟩, 1536⟩) :=
  ⟨⟨⟨8192, 512⟩, List.mem_append_left _ (by simp), ⟨by simp, by simp⟩, by norm_num⟩,
    leg_alloc_best_fit ⟨leg_slots [⟨4096, 1024⟩, ⟨8192, 512⟩] 254, 1536⟩ 300
      ⟨⟨8192, 512⟩, List.mem_append_left _ (by simp), ⟨by simp, by simp⟩, by norm_num⟩⟩

/-- C11 as stated fails: the pool obtained from a fresh pool by
`free(4096, 2^36 + 256)` holds one block of `2^36 + 256` bytes; `alloc(256)`
(256 is at most the largest slot size) does not reuse it, because the
difference `2^36` is not below the initial `best_diff = 1ull << 36`, and makes
a native allocation of 512 bytes instead. -/
theorem leg_alloc_skips_far_larger_block :
    ggml_cann_pool_leg.free leg_new 4096 (2 ^ 36 + 256)
      = .ok ⟨leg_slots [⟨4096, 2 ^ 36 + 256⟩] 255, 0⟩ ∧
    leg_fits 256 ⟨4096, 2 ^ 36 + 256⟩ ∧
    ggml_cann_pool_leg.alloc ⟨leg_slots [⟨4096, 2 ^ 36 + 256⟩] 255, 0⟩
        (acl_malloc_ok 8192) 256
      = .ok (8192, 512, ⟨leg_slots [⟨4096, 2 ^ 36 + 256⟩] 255, 512⟩) ∧
    ggml_cann_pool_leg.alloc ⟨leg_slots [⟨4096, 2 ^ 36 + 256⟩] 255, 0⟩
        acl_malloc_fail 256
      = .error .acl_check :=
  ⟨by rfl, ⟨by decide, by norm_num⟩, by rfl, by rfl⟩

/-- Whenever the double product `1.05 * size` is below `2 ^ 64`, the
`actual_size` that a returning `alloc` reports is at least the requested
size, both when a slot is reused and when a new block is allocated
natively. -/
theorem leg_alloc_actual_size_ge_in_range (p q : ggml_cann_pool_leg) (acl : AclMalloc)
    (size ptr actual : Nat) (hsize : size < 2 ^ 64)
    (hr : fp_round53 (fp_round53 size * DOUBLE_1_05) < 2 ^ 116)
    (h : p.alloc acl size = .ok (ptr, actual, q)) : size ≤ actual := by
  rw [leg_alloc_eq] at h
  rcases leg_pick_spec size p.buffer_pool with ⟨hpick, -⟩ | ⟨k, b, hk, hfit, -, hpick, -, -⟩
  · rw [hpick] at h
    obtain ⟨h1, -⟩ := leg_alloc_native_ok h
    obtain ⟨-, h2, h3⟩ := leg_look_ahead_ge size hsize hr
    have h4 := (leg_round_256_eq h3).2
    rw [h1]
    omega
  · rw [hpick] at h
    simp only at h
    rw [leg_take_eq hk] at h
    injection h with h
    injection h with h1 h2
    injection h2 with h2 h3
    rw [← h2]
    exact hfit.2

/-- For every request of at most `2 ^ 63` bytes the `actual_size` that a
returning `alloc` reports is at least the requested size. -/
theorem leg_alloc_actual_size_ge_below_2_63 (p q : ggml_cann_pool_leg) (acl : AclMalloc)
    (size ptr actual : Nat) (hsize : size ≤ 2 ^ 63)
    (h : p.alloc acl size = .ok (ptr, actual, q)) : size ≤ actual :=
  leg_alloc_actual_size_ge_in_range p q acl size ptr actual (by omega)
    (leg_look_ahead_in_range size hsize) h

/-- C12 (failing inputs): on a fresh pool, the native allocation succeeding,
`alloc(2^64 - 1)` reports `actual_size = 0`, below the request: the double
product `1.05 * size` is `2 ^ 64` or more, its conversion to `size_t` is out
of range and the rounded look-ahead size is 0.  The same happens from the
request 17568327689247190016 on, whose double product is exactly `2 ^ 64`,
while the request just below it is served with 18446744073709549568 bytes.
A conversion that saturates at `2 ^ 64 - 1` is rounded to 0 as well. -/
theorem leg_alloc_actual_size_below_request :
    ggml_cann_pool_leg.alloc leg_new (acl_malloc_ok 4096) (2 ^ 64 - 1)
      = .ok (4096, 0, ⟨leg_slots [] 256, 0⟩) ∧
    ¬ (2 ^ 64 - 1 ≤ 0) ∧
    ggml_cann_pool_leg.alloc leg_new (acl_malloc_ok 4096) 17568327689247190016
      = .ok (4096, 0, ⟨leg_slots [] 256, 0⟩) ∧
    fp_round53 (fp_round53 17568327689247190016 * DOUBLE_1_05) = 2 ^ 116 ∧
    ggml_cann_pool_leg.alloc leg_new (acl_malloc_ok 4096) 17568327689247190015
      = .ok (4096, 18446744073709549568, ⟨leg_slots [] 256, 18446744073709549568⟩) ∧
    leg_round_256 (2 ^ 64 - 1) = 0 :=
  ⟨by rfl, by norm_num, by rfl, by rfl, by rfl, by rfl⟩

/-- C13 (amended): for a request of `r < 3 * 2 ^ 47` bytes that no occupied
slot satisfies, when `alloc(r)` returns, the new block's `actual_size` is
`256 * ceil(floor(1.05 * r) / 256)`: the product is truncated by the cast, then
rounded up to the next multiple of 256 (1.05 taken as the exact rational
21/20, which the double computation of the source reproduces below
`3 * 2 ^ 47`). -/
theorem leg_alloc_growth_size (p q : ggml_cann_pool_leg) (acl : AclMalloc)
    (r ptr actual : Nat) (hr : r < 3 * 2 ^ 47)
    (hnone : ∀ c ∈ p.buffer_pool, ¬ leg_fits r c)
    (h : p.alloc acl r = .ok (ptr, actual, q)) :
    actual = 256 * ((21 * r / 20 + 255) / 256) ∧
      q = { p with pool_size := add64 p.pool_size actual } := by
  rw [leg_alloc_eq] at h
  rcases leg_pick_spec r p.buffer_pool with ⟨hpick, -⟩ | ⟨k, b, hk, hfit, -, -, -, -⟩
  · rw [hpick] at h
    obtain ⟨h1, -, -, h2⟩ := leg_alloc_native_ok h
    refine ⟨?_, h2⟩
    rw [h1, leg_look_ahead_floor r hr]
    exact (leg_round_256_eq (by omega)).1
  · exact absurd hfit (hnone b (List.getElem?_mem hk))

/-- C13 witness: `alloc(1000)` on a fresh pool: `floor(1050) = 1050` is
rounded up to 1280. -/
theorem leg_alloc_growth_size_witness :
    1000 < 3 * 2 ^ 47 ∧
    (∀ c ∈ leg_new.buffer_pool, ¬ leg_fits 1000 c) ∧
    ggml_cann_pool_leg.alloc leg_new (acl_malloc_ok 4096) 1000
      = .ok (4096, 1280, ⟨leg_slots [] 256, 1280⟩) ∧
    1280 = 256 * ((21 * 1000 / 20 + 255) / 256) :=
  ⟨by norm_num,
    fun c hc hf => hf.1 (by
      have := List.eq_of_mem_replicate hc
      rw [this]),
    by rfl,
    (leg_alloc_growth_size leg_new ⟨leg_slots [] 256, 1280⟩ (acl_malloc_ok 4096) 1000 4096
      1280 (by norm_num) (fun c hc hf => hf.1 (by
        have := List.eq_of_mem_replicate hc
        rw [this])) (by rfl)).1⟩

/-- C13 as stated fails: for `r = 244` on a fresh pool no slot fits,
`1.05 * 244 = 256.2` is truncated to 256 and the new block has 256 bytes,
while `256 * ceil(1.05 * 244 / 256)` is 512.  The truncated exact product
describes the code only for bounded requests: for `r = 422212465067399`
(`3 * 2 ^ 47 + 1415`) the exact product is 443323088320768.95, the double
product rounds up to 443323088320769 and the new block has 443323088321024
bytes, while `256 * ceil(floor(1.05 * r) / 256)` is 443323088320768. -/
theorem leg_alloc_growth_truncates :
    ggml_cann_pool_leg.alloc leg_new (acl_malloc_ok 4096) 244
      = .ok (4096, 256, ⟨leg_slots [] 256, 256⟩) ∧
    leg_look_ahead_spec 244 = 512 ∧
    ggml_cann_pool_leg.alloc leg_new (acl_malloc_ok 4096) 422212465067399
      = .ok (4096, 443323088321024, ⟨leg_slots [] 256, 443323088321024⟩) ∧
    leg_look_ahead 422212465067399 = 443323088320769 ∧
    21 * 422212465067399 / 20 = 443323088320768 ∧
    256 * ((21 * 422212465067399 / 20 + 255) / 256) = 443323088320768 :=
  ⟨by rfl, by rfl, by rfl, by rfl, by norm_num, by norm_num⟩

/-- C14: when `alloc` reuses a slot, the block it returns has the least size
among the occupied slots that fit the request, and every occupied slot tied
with it at that size has the same or a higher index. -/
theorem leg_alloc_tie_lowest_index (p : ggml_cann_pool_leg) (acl : AclMalloc)
    (r k : Nat) (hpick : leg_pick r p.buffer_pool = some k) :
    ∃ b, p.buffer_pool[k]? = some b ∧ leg_fits r b ∧
      p.alloc acl r =
        .ok (b.ptr, b.size, { p with buffer_pool := p.buffer_pool.set k ⟨0, 0⟩ }) ∧
      (∀ c ∈ p.buffer_pool, leg_fits r c → b.size ≤ c.size) ∧
      (∀ j c, p.buffer_pool[j]? = some c → leg_fits r c → c.size = b.size → k ≤ j) :=
  leg_alloc_reuse p acl r k hpick

/-- C14 witness: with blocks of 512 bytes in slots 0 and 2 and a block of 1024
bytes in slot 1, `alloc(300)` takes slot 0. -/
theorem leg_alloc_tie_lowest_index_witness :
    leg_pick 300 (leg_slots [⟨4096, 512⟩, ⟨8192, 1024⟩, ⟨12288, 512⟩] 253) = some 0 ∧
    ∃ b, (leg_slots [⟨4096, 512⟩, ⟨8192, 1024⟩, ⟨12288, 512⟩] 253)[0]? = some b ∧
      leg_fits 300 b ∧
      ggml_cann_pool_leg.alloc
          ⟨leg_slots [⟨4096, 512⟩, ⟨8192, 1024⟩, ⟨12288, 512⟩] 253, 2048⟩ acl_malloc_fail 300 =
        .ok (b.ptr, b.size,
          ⟨(leg_slots [⟨4096, 512⟩, ⟨8192, 1024⟩, ⟨12288, 512⟩] 253).set 0 ⟨0, 0⟩, 2048⟩) ∧
      (∀ c ∈ leg_slots [⟨4096, 512⟩, ⟨8192, 1024⟩, ⟨12288, 512⟩] 253,
        leg_fits 300 c → b.size ≤ c.size) ∧
      (∀ j c, (leg_slots [⟨4096, 512⟩, ⟨8192, 1024⟩, ⟨12288, 512⟩] 253)[j]? = some c →
        leg_fits 300 c → c.size = b.size → 0 ≤ j) :=
  ⟨by rfl,
    leg_alloc_tie_lowest_index
      ⟨leg_slots [⟨4096, 512⟩, ⟨8192, 1024⟩, ⟨12288, 512⟩] 253, 2048⟩ acl_malloc_fail 300 0
      (by rfl)⟩

/-! ## Insertion order and slot order -/

theorem leg_insert_slots (ptr size : Nat) (blocks : List ggml_cann_buffer) (empty : Nat)
    (hb : ∀ b ∈ blocks, b.ptr ≠ 0) :
    leg_insert ptr size (leg_slots blocks (empty + 1))
      = some (leg_slots (blocks ++ [⟨ptr, size⟩]) empty) := by
  induction blocks with
  | nil => simp [leg_slots, leg_insert, List.replicate_succ]
  | cons b rest ih =>
    have hb0 : b.ptr ≠ 0 := hb b (List.mem_cons_self _ _)
    have ih' := ih (fun c hc => hb c (List.mem_cons_of_mem _ hc))
    unfold leg_slots at ih' ⊢
    rw [List.cons_append, leg_insert, if_neg hb0, ih']
    rfl

/-- Frees into a pool whose occupied slots come first fill the following
slots in the order of the calls. -/
theorem leg_free_all_slots (incoming : List ggml_cann_buffer) :
    ∀ (blocks : List ggml_cann_buffer) (empty pool_size : Nat),
      (∀ b ∈ blocks, b.ptr ≠ 0) → (∀ b ∈ incoming, b.ptr ≠ 0) →
      leg_free_all ⟨leg_slots blocks (empty + incoming.length), pool_size⟩ incoming
        = .ok ⟨leg_slots (blocks ++ incoming) empty, pool_size⟩ := by
  induction incoming with
  | nil =>
    intro blocks empty pool_size _ _
    simp [leg_free_all]
  | cons b rest ih =>
    intro blocks empty pool_size hb hin
    have hb0 : b.ptr ≠ 0 := hin b (List.mem_cons_self _ _)
    unfold leg_free_all ggml_cann_pool_leg.free
    have hlen : empty + (b :: rest).length = (empty + rest.length) + 1 := by
      simp only [List.length_cons]; omega
    simp only [hlen, leg_insert_slots b.ptr b.size blocks (empty + rest.length) hb]
    have := ih (blocks ++ [b]) empty pool_size
      (by
        intro c hc
        rcases List.mem_append.mp hc with hc | hc
        · exact hb c hc
        · have : c = b := by simpa using hc
          rw [this]; exact hb0)
      (fun c hc => hin c (List.mem_cons_of_mem _ hc))
    simpa using this

/-- C15 (amended): in a pool filled from a fresh pool by `free` calls alone
(at most `MAX_BUFFERS` blocks with non-null pointers, no `alloc` in between),
when `alloc` reuses a slot it returns a block of least fitting size, and every
block of that same size was inserted at the same time or later: among tied
blocks the earliest inserted is returned. -/
theorem leg_alloc_tie_earliest_freed (blocks : List ggml_cann_buffer)
    (p : ggml_cann_pool_leg) (acl : AclMalloc) (r k : Nat)
    (hlen : blocks.length ≤ MAX_BUFFERS) (hb : ∀ b ∈ blocks, b.ptr ≠ 0)
    (hp : leg_free_all leg_new blocks = .ok p)
    (hpick : leg_pick r p.buffer_pool = some k) :
    ∃ b, blocks[k]? = some b ∧ r ≤ b.size ∧
      p.alloc acl r =
        .ok (b.ptr, b.size, { p with buffer_pool := p.buffer_pool.set k ⟨0, 0⟩ }) ∧
      (∀ c ∈ blocks, r ≤ c.size → b.size ≤ c.size) ∧
      (∀ j c, blocks[j]? = some c → c.size = b.size → k ≤ j) := by
  have hnew : leg_new = ⟨leg_slots [] ((MAX_BUFFERS - blocks.length) + blocks.length), 0⟩ := by
    unfold leg_new leg_slots
    rw [Nat.sub_add_cancel hlen]
    rfl
  rw [hnew, leg_free_all_slots blocks [] (MAX_BUFFERS - blocks.length) 0
    (fun b hb' => by cases hb') hb] at hp
  injection hp with hp
  subst hp
  simp only [List.nil_append] at hpick ⊢
  obtain ⟨b, hk, hfit, halloc, hmin, hfirst⟩ :=
    leg_alloc_reuse ⟨leg_slots blocks (MAX_BUFFERS - blocks.length), 0⟩ acl r k hpick
  simp only at hk hmin hfirst
  have hkb : blocks[k]? = some b := by
    unfold leg_slots at hk
    by_cases hlt : k < blocks.length
    · rw [List.getElem?_append_left hlt] at hk
      exact hk
    · rw [List.getElem?_append_right (by omega)] at hk
      have hmem := List.getElem?_mem hk
      have := List.eq_of_mem_replicate hmem
      rw [this] at hfit
      exact absurd rfl hfit.1
  have hin : ∀ (j : Nat) (c : ggml_cann_buffer), blocks[j]? = some c →
      (leg_slots blocks (MAX_BUFFERS - blocks.length))[j]? = some c := by
    intro j c hj
    unfold leg_slots
    have hlt : j < blocks.length := by
      by_contra hge
      rw [List.getElem?_eq_none (by omega)] at hj
      cases hj
    rw [List.getElem?_append_left hlt]
    exact hj
  refine ⟨b, hkb, hfit.2, halloc, ?_, ?_⟩
  · intro c hc hrc
    exact hmin c (List.mem_append_left _ hc) ⟨hb c hc, hrc⟩
  · intro j c hj hsz
    have hc : c ∈ blocks := List.getElem?_mem hj
    exact hfirst j c (hin j c hj) ⟨hb c hc, by have := hfit.2; omega⟩ hsz

/-- C15 witness: after `free` of blocks of 512, 1024 and 512 bytes into a
fresh pool, `alloc(300)` returns the 512-byte block freed first. -/
theorem leg_alloc_tie_earliest_freed_witness :
    ([⟨4096, 512⟩, ⟨8192, 1024⟩, ⟨12288, 512⟩] : List ggml_cann_buffer).length ≤ MAX_BUFFERS ∧
    leg_free_all leg_new [⟨4096, 512⟩, ⟨8192, 1024⟩, ⟨12288, 512⟩]
      = .ok ⟨leg_slots [⟨4096, 512⟩, ⟨8192, 1024⟩, ⟨12288, 512⟩] 253, 0⟩ ∧
    ∃ b, ([⟨4096, 512⟩, ⟨8192, 1024⟩, ⟨12288, 512⟩] : List ggml_cann_buffer)[0]? = some b ∧
      300 ≤ b.size ∧
      ggml_cann_pool_leg.alloc
          ⟨leg_slots [⟨4096, 512⟩, ⟨8192, 1024⟩, ⟨12288, 512⟩] 253, 0⟩ acl_malloc_fail 300 =
        .ok (b.ptr, b.size,
          ⟨(leg_slots [⟨4096, 512⟩, ⟨8192, 1024⟩, ⟨12288, 512⟩] 253).set 0 ⟨0, 0⟩, 0⟩) ∧
      (∀ c ∈ ([⟨4096, 512⟩, ⟨8192, 1024⟩, ⟨12288, 512⟩] : List ggml_cann_buffer),
        300 ≤ c.size → b.size ≤ c.size) ∧
      (∀ j c, ([⟨4096, 512⟩, ⟨8192, 1024⟩, ⟨12288, 512⟩] : List ggml_cann_buffer)[j]? = some c →
        c.size = b.size → 0 ≤ j) :=
  ⟨by simp [MAX_BUFFERS], by rfl,
    leg_alloc_tie_earliest_freed [⟨4096, 512⟩, ⟨8192, 1024⟩, ⟨12288, 512⟩]
      ⟨leg_slots [⟨4096, 512⟩, ⟨8192, 1024⟩, ⟨12288, 512⟩] 253, 0⟩ acl_malloc_fail 300 0
      (by simp [MAX_BUFFERS]) (by simp) (by rfl) (by rfl)⟩

/-- C15 as stated fails: three blocks A, B, C of 256 bytes are allocated from a
fresh pool; `free(A)`, `free(B)` fill slots 0 and 1; `alloc(256)` takes A out of
slot 0; `free(C)` refills slot 0; then B (inserted before C) and C tie, and
`alloc(256)` returns C, the block in the lower slot. -/
theorem leg_alloc_tie_prefers_refilled_slot :
    ggml_cann_pool_leg.alloc leg_new (acl_malloc_ok 4096) 200
      = .ok (4096, 256, ⟨leg_slots [] 256, 256⟩) ∧
    ggml_cann_pool_leg.alloc ⟨leg_slots [] 256, 256⟩ (acl_malloc_ok 8192) 200
      = .ok (8192, 256, ⟨leg_slots [] 256, 512⟩) ∧
    ggml_cann_pool_leg.alloc ⟨leg_slots [] 256, 512⟩ (acl_malloc_ok 12288) 200
      = .ok (12288, 256, ⟨leg_slots [] 256, 768⟩) ∧
    ggml_cann_pool_leg.free ⟨leg_slots [] 256, 768⟩ 4096 256
      = .ok ⟨leg_slots [⟨4096, 256⟩] 255, 768⟩ ∧
    ggml_cann_pool_leg.free ⟨leg_slots [⟨4096, 256⟩] 255, 768⟩ 8192 256
      = .ok ⟨leg_slots [⟨4096, 256⟩, ⟨8192, 256⟩] 254, 768⟩ ∧
    ggml_cann_pool_leg.alloc ⟨leg_slots [⟨4096, 256⟩, ⟨8192, 256⟩] 254, 768⟩
        acl_malloc_fail 256
      = .ok (4096, 256, ⟨leg_slots [⟨0, 0⟩, ⟨8192, 256⟩] 254, 768⟩) ∧
    ggml_cann_pool_leg.free ⟨leg_slots [⟨0, 0⟩, ⟨8192, 256⟩] 254, 768⟩ 12288 256
      = .ok ⟨leg_slots [⟨12288, 256⟩, ⟨8192, 256⟩] 254, 768⟩ ∧
    ggml_cann_pool_leg.alloc ⟨leg_slots [⟨12288, 256⟩, ⟨8192, 256⟩] 254, 768⟩
        acl_malloc_fail 256
      = .ok (12288, 256, ⟨leg_slots [⟨0, 0⟩, ⟨8192, 256⟩] 254, 768⟩) :=
  ⟨by rfl, by rfl, by rfl, by rfl, by rfl, by rfl, by rfl, by rfl⟩

/-! ## Capacity of the slot table and placement by `free` -/

theorem leg_free_error_iff (p : ggml_cann_pool_leg) (ptr size : Nat) :
    p.free ptr size = .error .pool_full ↔ ∀ b ∈ p.buffer_pool, b.ptr ≠ 0 := by
  rw [← leg_insert_none_iff ptr size p.buffer_pool]
  unfold ggml_cann_pool_leg.free
  cases leg_insert ptr size p.buffer_pool <;> simp

theorem leg_free_error {p : ggml_cann_pool_leg} {ptr size : Nat} {e : LegFatal}
    (h : p.free ptr size = .error e) : e = .pool_full := by
  unfold ggml_cann_pool_leg.free at h
  split at h
  · cases h
  · injection h with h
    exact h.symm

theorem leg_occupied_le (l : List ggml_cann_buffer) : leg_occupied l ≤ l.length :=
  List.length_filter_le _ _

theorem leg_alloc_length {p q : ggml_cann_pool_leg} {acl : AclMalloc} {size ptr actual : Nat}
    (h : p.alloc acl size = .ok (ptr, actual, q)) :
    q.buffer_pool.length = p.buffer_pool.length := by
  rw [leg_alloc_eq] at h
  split at h
  · injection h with h
    unfold leg_take at h
    injection h with h1 h2
    injection h2 with h2 h3
    rw [← h3]
    simp
  · rw [(leg_alloc_native_ok h).2.2.2]

theorem leg_run_length {p : ggml_cann_pool_leg} (h : LegRun p) :
    p.buffer_pool.length = MAX_BUFFERS := by
  induction h with
  | fresh => simp [leg_new]
  | alloc _ ha ih => rw [leg_alloc_length ha, ih]
  | free _ hf ih => rw [leg_insert_length (leg_free_ok hf).1, ih]

/-- C16: `free` aborts exactly when every slot is occupied before the call
(and in no other way); `alloc` ends fatally only through a failed native call,
never through the pool's bookkeeping; and in every pool reached from a fresh pool by `alloc` and `free`
calls the table has `MAX_BUFFERS = 256` slots, so at most 256 are occupied. -/
theorem leg_free_aborts_iff_full :
    (∀ (p : ggml_cann_pool_leg) (ptr size : Nat),
      p.free ptr size = .error .pool_full ↔ ∀ b ∈ p.buffer_pool, b.ptr ≠ 0) ∧
    (∀ (p : ggml_cann_pool_leg) (ptr size : Nat) (e : LegFatal),
      p.free ptr size = .error e → e = .pool_full) ∧
    (∀ (p : ggml_cann_pool_leg) (acl : AclMalloc) (size : Nat) (e : LegFatal),
      p.alloc acl size = .error e → e = .acl_check) ∧
    (∀ p : ggml_cann_pool_leg, LegRun p →
      p.buffer_pool.length = 256 ∧ leg_occupied p.buffer_pool ≤ 256) :=
  ⟨leg_free_error_iff, fun _ _ _ _ h => leg_free_error h,
    fun _ _ _ _ h => leg_alloc_error h,
    fun p h => ⟨leg_run_length h,
      Nat.le_trans (leg_occupied_le p.buffer_pool) (Nat.le_of_eq (leg_run_length h))⟩⟩

/-- C17: when at least one slot is empty, `free(ptr, size)` stores
`(ptr, size)` in the lowest-indexed empty slot and leaves every other slot and
`pool_size` unchanged. -/
theorem leg_free_first_empty (p : ggml_cann_pool_leg) (ptr size : Nat)
    (h : ∃ b ∈ p.buffer_pool, b.ptr = 0) :
    ∃ i b q, p.buffer_pool[i]? = some b ∧ b.ptr = 0 ∧
      (∀ (j : Nat) (c : ggml_cann_buffer), j < i → p.buffer_pool[j]? = some c → c.ptr ≠ 0) ∧
      p.free ptr size = .ok q ∧
      q.buffer_pool[i]? = some ⟨ptr, size⟩ ∧
      (∀ j : Nat, j ≠ i → q.buffer_pool[j]? = p.buffer_pool[j]?) ∧
      q.buffer_pool.length = p.buffer_pool.length ∧
      q.pool_size = p.pool_size := by
  obtain ⟨i, b, hi, hb0, hfirst, hins⟩ := leg_insert_some ptr size p.buffer_pool h
  have hlt : i < p.buffer_pool.length := by
    by_contra hge
    rw [List.getElem?_eq_none (by omega)] at hi
    cases hi
  refine ⟨i, b, { p with buffer_pool := p.buffer_pool.set i ⟨ptr, size⟩ }, hi, hb0, hfirst,
    ?_, ?_, ?_, ?_, rfl⟩
  · unfold ggml_cann_pool_leg.free
    rw [hins]
  · simp [List.getElem?_set, hlt]
  · intro j hj
    simp only
    rw [List.getElem?_set_ne (Ne.symm hj)]
  · simp

/-- C17 witness: with slot 0 occupied and slot 1 empty, `free(12288, 512)`
writes slot 1. -/
theorem leg_free_first_empty_witness :
    (∃ b ∈ leg_slots [⟨4096, 256⟩, ⟨0, 0⟩, ⟨8192, 256⟩] 253, b.ptr = 0) ∧
    ggml_cann_pool_leg.free ⟨leg_slots [⟨4096, 256⟩, ⟨0, 0⟩, ⟨8192, 256⟩] 253, 768⟩ 12288 512
      = .ok ⟨leg_slots [⟨4096, 256⟩, ⟨12288, 512⟩, ⟨8192, 256⟩] 253, 768⟩ ∧
    ∃ i b q, (leg_slots [⟨4096, 256⟩, ⟨0, 0⟩, ⟨8192, 256⟩] 253)[i]? = some b ∧ b.ptr = 0 ∧
      (∀ (j : Nat) (c : ggml_cann_buffer), j < i →
        (leg_slots [⟨4096, 256⟩, ⟨0, 0⟩, ⟨8192, 256⟩] 253)[j]? = some c → c.ptr ≠ 0) ∧
      ggml_cann_pool_leg.free ⟨leg_slots [⟨4096, 256⟩, ⟨0, 0⟩, ⟨8192, 256⟩] 253, 768⟩
        12288 512 = .ok q ∧
      q.buffer_pool[i]? = some ⟨12288, 512⟩ ∧
      (∀ j : Nat, j ≠ i →
        q.buffer_pool[j]? = (leg_slots [⟨4096, 256⟩, ⟨0, 0⟩, ⟨8192, 256⟩] 253)[j]?) ∧
      q.buffer_pool.length = (leg_slots [⟨4096, 256⟩, ⟨0, 0⟩, ⟨8192, 256⟩] 253).length ∧
      q.pool_size = 768 :=
  ⟨⟨⟨0, 0⟩, List.mem_append_left _ (by simp), rfl⟩, by rfl,
    leg_free_first_empty ⟨leg_slots [⟨4096, 256⟩, ⟨0, 0⟩, ⟨8192, 256⟩] 253, 768⟩ 12288 512
      ⟨⟨0, 0⟩, List.mem_append_left _ (by simp), rfl⟩⟩

/-! ## Accounting of `pool_size` and the destructor -/

/-- What a successful `alloc` did: it took the block of an occupied slot, or
it allocated a new block natively. -/
theorem leg_alloc_ok {p q : ggml_cann_pool_leg} {acl : AclMalloc} {size ptr actual : Nat}
    (h : p.alloc acl size = .ok (ptr, actual, q)) :
    (∃ k b, p.buffer_pool[k]? = some b ∧ leg_fits size b ∧ ptr = b.ptr ∧ actual = b.size ∧
      q = { p with buffer_pool := p.buffer_pool.set k ⟨0, 0⟩ }) ∨
    (leg_pick size p.buffer_pool = none ∧ acl.malloc = some ptr ∧
      actual = leg_round_256 (leg_look_ahead size) ∧ actual < 2 ^ 64 ∧
      q = { p with pool_size := add64 p.pool_size actual }) := by
  rw [leg_alloc_eq] at h
  rcases leg_pick_spec size p.buffer_pool with ⟨hpick, -⟩ | ⟨k, b, hk, hfit, -, hpick, -, -⟩
  · rw [hpick] at h
    obtain ⟨h1, h2, h3, h4⟩ := leg_alloc_native_ok h
    exact Or.inr ⟨hpick, h3, h1, h2, h4⟩
  · rw [hpick] at h
    simp only at h
    rw [leg_take_eq hk] at h
    injection h with h
    injection h with h1 h2
    injection h2 with h2 h3
    exact Or.inl ⟨k, b, hk, hfit, h1.symm, h2.symm, h3.symm⟩

theorem leg_pooled_set_clear :
    ∀ (l : List ggml_cann_buffer) (k : Nat) (b : ggml_cann_buffer),
      l[k]? = some b → b.ptr ≠ 0 → leg_pooled (l.set k ⟨0, 0⟩) + b.size = leg_pooled l := by
  intro l
  induction l with
  | nil => intro k b hk; simp at hk
  | cons c rest ih =>
    intro k b hk hb
    cases k with
    | zero =>
      simp at hk
      subst hk
      simp only [List.set_cons_zero, leg_pooled, if_pos hb]
      simp
      omega
    | succ k' =>
      have hk' : rest[k']? = some b := by simpa using hk
      have := ih k' b hk' hb
      simp only [List.set_cons_succ, leg_pooled]
      split <;> omega

theorem leg_pooled_insert {ptr size : Nat} (hptr : ptr ≠ 0) :
    ∀ (l l' : List ggml_cann_buffer), leg_insert ptr size l = some l' →
      leg_pooled l' = leg_pooled l + size := by
  intro l
  induction l with
  | nil => intro l' h; cases h
  | cons c rest ih =>
    intro l' h
    unfold leg_insert at h
    by_cases hc : c.ptr = 0
    · rw [if_pos hc] at h
      injection h with h
      subst h
      simp only [leg_pooled, if_pos hptr]
      rw [if_neg (by simpa using hc)]
      omega
    · rw [if_neg hc] at h
      cases hr : leg_insert ptr size rest with
      | none => rw [hr] at h; cases h
      | some r =>
        rw [hr] at h
        injection h with h
        subst h
        have := ih r hr
        simp only [leg_pooled, if_pos hc]
        omega

theorem leg_total_erase (x : Nat × Nat) :
    ∀ out : List (Nat × Nat), x ∈ out → leg_total (out.erase x) + x.2 = leg_total out := by
  intro out
  induction out with
  | nil => intro h; cases h
  | cons y rest ih =>
    intro h
    by_cases hxy : y = x
    · subst hxy
      simp only [List.erase_cons_head, leg_total]
      omega
    · have hmem : x ∈ rest := by
        rcases List.mem_cons.mp h with h | h
        · exact absurd h.symm hxy
        · exact h
      have := ih hmem
      rw [List.erase_cons_tail (by simpa using hxy)]
      simp only [leg_total]
      omega

theorem leg_total_pos_of_mem {x : Nat × Nat} :
    ∀ {out : List (Nat × Nat)}, x ∈ out → x.2 ≤ leg_total out := by
  intro out
  induction out with
  | nil => intro h; cases h
  | cons y rest ih =>
    intro h
    simp only [leg_total]
    rcases List.mem_cons.mp h with h | h
    · subst h; omega
    · have := ih h; omega

/-- With every native release succeeding, the loop of the destructor leaves
`pool_size` minus the total size of the occupied slots. -/
theorem leg_release_ok :
    ∀ (l : List ggml_cann_buffer) (pool_size : Nat),
      leg_pooled l ≤ pool_size → pool_size < 2 ^ 64 →
      leg_release acl_free_ok l pool_size = .ok (pool_size - leg_pooled l) := by
  intro l
  induction l with
  | nil => intro ps _ _; rfl
  | cons b rest ih =>
    intro ps hle hlt
    unfold leg_release
    unfold leg_pooled at hle ⊢
    by_cases hb : b.ptr ≠ 0
    · rw [if_pos hb] at hle ⊢
      rw [if_pos hb]
      have hsub : sub64 ps b.size = ps - b.size := by unfold sub64; omega
      have hfree : acl_free_ok.free b.ptr = true := rfl
      rw [hfree, hsub]
      simp only [Bool.true_eq_false, if_false]
      rw [ih (ps - b.size) (by omega) (by omega)]
      congr 1
      omega
    · rw [if_neg hb] at hle ⊢
      rw [if_neg hb]
      exact ih ps hle hlt

/-- In every state of `LegExact`, `pool_size` is the total size of the blocks
in occupied slots plus that of the outstanding blocks. -/
theorem leg_exact_inv {p : ggml_cann_pool_leg} {out : List (Nat × Nat)}
    (h : LegExact p out) :
    p.pool_size = leg_pooled p.buffer_pool + leg_total out ∧ p.pool_size < 2 ^ 64 ∧
      ∀ x ∈ out, x.1 ≠ 0 := by
  induction h with
  | fresh =>
    refine ⟨?_, by simp [leg_new], fun x hx => by cases hx⟩
    have : leg_pooled leg_new.buffer_pool = 0 := by rfl
    rw [this]
    rfl
  | @alloc p q out acl size ptr actual _ halloc hptr hfit ih =>
    obtain ⟨hsum, hlt, hnz⟩ := ih
    have hmem : ∀ x ∈ (ptr, actual) :: out, x.1 ≠ 0 := by
      intro x hx
      rcases List.mem_cons.mp hx with rfl | hx
      · exact hptr
      · exact hnz x hx
    rcases leg_alloc_ok halloc with ⟨k, b, hk, hfb, -, hact, hq⟩ | ⟨-, -, -, -, hq⟩
    · subst hq
      have := leg_pooled_set_clear p.buffer_pool k b hk hfb.1
      simp only [leg_total] at hfit ⊢
      refine ⟨by omega, hlt, hmem⟩
    · subst hq
      simp only [leg_total] at hfit ⊢
      have hadd : add64 p.pool_size actual = p.pool_size + actual := by
        unfold add64; omega
      rw [hadd]
      refine ⟨by omega, by omega, hmem⟩
  | @free p q out ptr actual _ hmem hfree ih =>
    obtain ⟨hsum, hlt, hnz⟩ := ih
    obtain ⟨hins, hps⟩ := leg_free_ok hfree
    have hptr : ptr ≠ 0 := hnz (ptr, actual) hmem
    have h1 := leg_pooled_insert hptr p.buffer_pool q.buffer_pool hins
    have h2 := leg_total_erase (ptr, actual) out hmem
    simp only at h2
    refine ⟨by omega, by omega, ?_⟩
    intro x hx
    exact hnz x (List.mem_of_mem_erase hx)

/-- C18: in every state reached from a fresh pool by `alloc` calls and by
`free` calls that return an outstanding block with the `actual_size` that
`alloc` reported, `pool_size` equals the total size of the occupied slots
plus the outstanding blocks; so, the native calls of the destructor
succeeding, its check `pool_size == 0` holds when no block is outstanding and
fails when some outstanding block has a non-zero size. -/
theorem leg_teardown_reconciles (p : ggml_cann_pool_leg) (out : List (Nat × Nat))
    (h : LegExact p out) :
    p.pool_size = leg_pooled p.buffer_pool + leg_total out ∧
    (out = [] → p.destroy acl_free_ok = .ok ()) ∧
    ((∃ x ∈ out, x.2 ≠ 0) → p.destroy acl_free_ok = .error .pool_size_assert) := by
  obtain ⟨hsum, hlt, -⟩ := leg_exact_inv h
  have hrel := leg_release_ok p.buffer_pool p.pool_size (by omega) hlt
  refine ⟨hsum, ?_, ?_⟩
  · intro ho
    subst ho
    unfold ggml_cann_pool_leg.destroy
    have hs : acl_free_ok.setDevice = true := rfl
    rw [hs, hrel]
    simp only [Bool.true_eq_false, if_false]
    rw [if_pos (by simp only [leg_total] at hsum; omega)]
  · rintro ⟨x, hx, hx0⟩
    have := leg_total_pos_of_mem hx
    unfold ggml_cann_pool_leg.destroy
    have hs : acl_free_ok.setDevice = true := rfl
    rw [hs, hrel]
    simp only [Bool.true_eq_false, if_false]
    rw [if_neg (by omega)]

/-- C18 witness: after `alloc(244)` on a fresh pool the block of 256 bytes is
outstanding and the destructor's check fails; after it is returned with
`free(4096, 256)` the check holds. -/
theorem leg_teardown_reconciles_witness :
    LegExact { buffer_pool := leg_slots [] 256, pool_size := 256 } [(4096, 256)] ∧
    LegExact { buffer_pool := leg_slots [⟨4096, 256⟩] 255, pool_size := 256 } [] ∧
    ggml_cann_pool_leg.destroy { buffer_pool := leg_slots [] 256, pool_size := 256 }
      acl_free_ok = .error .pool_size_assert ∧
    ggml_cann_pool_leg.destroy { buffer_pool := leg_slots [⟨4096, 256⟩] 255, pool_size := 256 }
      acl_free_ok = .ok () := by
  have h1 : LegExact { buffer_pool := leg_slots [] 256, pool_size := 256 } [(4096, 256)] :=
    @LegExact.alloc leg_new _ [] (acl_malloc_ok 4096) 244 4096 256 LegExact.fresh
      (by rfl) (by decide) (by
        have e : leg_pooled (leg_slots [] 256) = 0 := by rfl
        show leg_pooled (leg_slots [] 256) + leg_total [(4096, 256)] < 2 ^ 64
        rw [e]
        norm_num [leg_total])
  have h2 : LegExact { buffer_pool := leg_slots [⟨4096, 256⟩] 255, pool_size := 256 } [] :=
    @LegExact.free _ _ [(4096, 256)] 4096 256 h1 (by simp) (by rfl)
  exact ⟨h1, h2,
    (leg_teardown_reconciles _ _ h1).2.2 ⟨(4096, 256), by simp, by simp⟩,
    (leg_teardown_reconciles _ _ h2).2.1 rfl⟩

/-! ## The early return of the legacy `alloc` -/

/-- Once a slot without waste is recorded, the full scan keeps it. -/
theorem leg_scan_all_zero (size : Nat) :
    ∀ (l : List ggml_cann_buffer) (i : Nat) (ibest : Option Nat),
      leg_scan_all size l i 0 ibest = ibest := by
  intro l
  induction l with
  | nil => intro i ibest; rfl
  | cons b rest ih =>
    intro i ibest
    unfold leg_scan_all
    simp only [Nat.not_lt_zero, if_false]
    split
    · split <;> exact ih _ _
    · exact ih _ _

/-- The full scan records the slot that the scan with the early return
selects. -/
theorem leg_scan_all_eq (size : Nat) :
    ∀ (l : List ggml_cann_buffer) (i best_diff : Nat) (ibest : Option Nat),
      leg_scan_all size l i best_diff ibest = (leg_scan size l i best_diff ibest).index := by
  intro l
  induction l with
  | nil => intro i best_diff ibest; rfl
  | cons b rest ih =>
    intro i best_diff ibest
    unfold leg_scan_all leg_scan
    by_cases hb : b.ptr ≠ 0
    · rw [if_pos hb, if_pos hb]
      by_cases hs : b.size ≥ size
      · rw [if_pos hs, if_pos hs]
        simp only
        by_cases hd : b.size - size < best_diff
        · rw [if_pos hd, if_pos hd]
          by_cases h0 : b.size - size = 0
          · rw [if_pos h0, h0, leg_scan_all_zero]
            rfl
          · rw [if_neg h0]
            exact ih _ _ _
        · rw [if_neg hd, if_neg hd]
          exact ih _ _ _
      · rw [if_neg hs, if_neg hs]
        exact ih _ _ _
    · rw [if_neg hb, if_neg hb]
      exact ih _ _ _

/-- C23: for every pool state, native behaviour and request, `alloc` as
written, with its immediate return on a slot whose size equals the request,
has the same result (pointer, `actual_size`, final pool state, or fatal error)
as the variant that scans all slots and then takes the recorded best slot. -/
theorem leg_alloc_early_return_is_optimization (p : ggml_cann_pool_leg)
    (acl : AclMalloc) (size : Nat) :
    p.alloc acl size = p.alloc_scan_all acl size := by
  rw [leg_alloc_eq]
  unfold ggml_cann_pool_leg.alloc_scan_all
  rw [leg_scan_all_eq]
  rfl

/-! ## The frame of the legacy `alloc` -/

/-- C24: when `alloc` returns after reusing slot `k`, the returned pointer and
`actual_size` are the pair the slot held, exactly that slot is cleared
(pointer null, size 0), every other slot and `pool_size` are unchanged; when
it returns after a native allocation, no slot changes and `pool_size` has
grown by the returned `actual_size` (a `size_t` sum, equal to the plain sum
whenever that fits 64 bits). -/
theorem leg_alloc_frame (p q : ggml_cann_pool_leg) (acl : AclMalloc)
    (size ptr actual : Nat) (h : p.alloc acl size = .ok (ptr, actual, q)) :
    (∃ k, leg_pick size p.buffer_pool = some k ∧
      p.buffer_pool[k]? = some ⟨ptr, actual⟩ ∧ ptr ≠ 0 ∧
      q.buffer_pool[k]? = some ⟨0, 0⟩ ∧
      (∀ j : Nat, j ≠ k → q.buffer_pool[j]? = p.buffer_pool[j]?) ∧
      q.buffer_pool.length = p.buffer_pool.length ∧
      q.pool_size = p.pool_size) ∨
    (leg_pick size p.buffer_pool = none ∧
      q.buffer_pool = p.buffer_pool ∧
      q.pool_size = add64 p.pool_size actual ∧
      (p.pool_size + actual < 2 ^ 64 → q.pool_size = p.pool_size + actual)) := by
  rw [leg_alloc_eq] at h
  rcases leg_pick_spec size p.buffer_pool with ⟨hpick, -⟩ | ⟨k, b, hk, hfit, -, hpick, -, -⟩
  · rw [hpick] at h
    obtain ⟨-, -, -, hq⟩ := leg_alloc_native_ok h
    subst hq
    refine Or.inr ⟨hpick, rfl, rfl, ?_⟩
    intro hlt
    show add64 p.pool_size actual = p.pool_size + actual
    unfold add64
    omega
  · rw [hpick] at h
    simp only at h
    rw [leg_take_eq hk] at h
    injection h with h
    injection h with h1 h2
    injection h2 with h2 h3
    subst h1 h2 h3
    have hlt : k < p.buffer_pool.length := by
      by_contra hge
      rw [List.getElem?_eq_none (by omega)] at hk
      cases hk
    refine Or.inl ⟨k, hpick, hk, hfit.1, ?_, ?_, ?_, rfl⟩
    · simp [List.getElem?_set, hlt]
    · intro j hj
      simp only
      rw [List.getElem?_set_ne (Ne.symm hj)]
    · simp

/-- C24 witness: a pool holding a block of 512 bytes at 8192 in slot 1 serves
`alloc(300)` from it and clears slot 1 only; a fresh pool serves `alloc(244)`
natively and only `pool_size` grows, by 256. -/
theorem leg_alloc_frame_witness :
    ggml_cann_pool_leg.alloc ⟨leg_slots [⟨4096, 1024⟩, ⟨8192, 512⟩] 254, 1536⟩
        acl_malloc_fail 300
      = .ok (8192, 512, ⟨leg_slots [⟨4096, 1024⟩, ⟨0, 0⟩] 254, 1536⟩) ∧
    ((∃ k, leg_pick 300 (leg_slots [⟨4096, 1024⟩, ⟨8192, 512⟩] 254) = some k ∧
      (leg_slots [⟨4096, 1024⟩, ⟨8192, 512⟩] 254)[k]? = some ⟨8192, 512⟩ ∧ 8192 ≠ 0 ∧
      (leg_slots [⟨4096, 1024⟩, ⟨0, 0⟩] 254)[k]? = some ⟨0, 0⟩ ∧
      (∀ j : Nat, j ≠ k → (leg_slots [⟨4096, 1024⟩, ⟨0, 0⟩] 254)[j]?
        = (leg_slots [⟨4096, 1024⟩, ⟨8192, 512⟩] 254)[j]?) ∧
      (leg_slots [⟨4096, 1024⟩, ⟨0, 0⟩] 254).length
        = (leg_slots [⟨4096, 1024⟩, ⟨8192, 512⟩] 254).length ∧
      1536 = 1536) ∨
    (leg_pick 300 (leg_slots [⟨4096, 1024⟩, ⟨8192, 512⟩] 254) = none ∧
      leg_slots [⟨4096, 1024⟩, ⟨0, 0⟩] 254 = leg_slots [⟨4096, 1024⟩, ⟨8192, 512⟩] 254 ∧
      1536 = add64 1536 512 ∧ (1536 + 512 < 2 ^ 64 → 1536 = 1536 + 512))) :=
  ⟨by rfl,
    leg_alloc_frame ⟨leg_slots [⟨4096, 1024⟩, ⟨8192, 512⟩] 254, 1536⟩
      ⟨leg_slots [⟨4096, 1024⟩, ⟨0, 0⟩] 254, 1536⟩ acl_malloc_fail 300 8192 512 (by rfl)⟩

/-! ## The quantized layouts: transform and transform back -/

theorem and_0xF0_byte : ∀ x < 256, x &&& 0xF0 = 16 * (x / 16) := by decide

theorem or_shl4_byte : ∀ s < 16, ∀ b < 256, (s ||| b <<< 4) % 256 = s + 16 * (b % 16) := by
  decide

theorem or_nibbles : ∀ s < 16, ∀ t < 16, s ||| 16 * t = s + 16 * t := by decide

theorem and_0x0F (x : Nat) : x &&& 0x0F = x % 16 :=
  Nat.and_pow_two_sub_one_eq_mod x 4

theorem q4_0_low_eq (a : Nat) {b : Nat} (hb : b < 256) :
    q4_0_low a b = a % 16 + 16 * (b % 16) := by
  unfold q4_0_low
  rw [and_0x0F, or_shl4_byte (a % 16) (Nat.mod_lt _ (by norm_num)) b hb]

theorem q4_0_high_eq {a b : Nat} (ha : a < 256) (hb : b < 256) :
    q4_0_high a b = a / 16 + 16 * (b / 16) := by
  unfold q4_0_high
  have h1 : a / 16 < 16 := by omega
  have h2 : b / 16 < 16 := by omega
  rw [Nat.shiftRight_eq_div_pow, and_0xF0_byte b hb]
  show (a / 16 ||| 16 * (b / 16)) % 256 = _
  rw [or_nibbles _ h1 _ h2]
  omega

/-- The pair of bytes rebuilt from the two bytes written for a pair is the
pair itself. -/
theorem q4_0_pair_low_high {a b : Nat} (ha : a < 256) (hb : b < 256) :
    q4_0_pair (q4_0_low a b) (q4_0_high a b) = [a, b] := by
  rw [q4_0_low_eq a hb, q4_0_high_eq ha hb]
  unfold q4_0_pair
  have hlo : a % 16 + 16 * (b % 16) < 256 := by omega
  have hhi : a / 16 + 16 * (b / 16) < 256 := by omega
  have e1 : (a % 16 + 16 * (b % 16)) % 16 = a % 16 := by omega
  have e2 : (a / 16 + 16 * (b / 16)) % 16 = a / 16 := by omega
  have e3 : (a % 16 + 16 * (b % 16)) / 16 = b % 16 := by omega
  have e4 : (a / 16 + 16 * (b / 16)) / 16 = b / 16 := by omega
  rw [and_0x0F, e1, or_shl4_byte (a % 16) (Nat.mod_lt _ (by norm_num)) _ hhi, e2,
    Nat.shiftRight_eq_div_pow, and_0xF0_byte _ hhi]
  show [a % 16 + 16 * (a / 16),
    ((a % 16 + 16 * (b % 16)) / 16 ||| 16 * ((a / 16 + 16 * (b / 16)) / 16)) % 256] = [a, b]
  rw [e3, e4, or_nibbles _ (Nat.mod_lt _ (by norm_num)) _ (by omega)]
  have f1 : a % 16 + 16 * (a / 16) = a := by omega
  have f2 : (b % 16 + 16 * (b / 16)) % 256 = b := by omega
  rw [f1, f2]

theorem list_length_succ {α : Type} {n : Nat} (l : List α) (h : l.length = n + 1) :
    ∃ a t, l = a :: t ∧ t.length = n := by
  cases l with
  | nil => cases h
  | cons a t => exact ⟨a, t, rfl, by simpa using h⟩

theorem list_length_16 (l : List Nat) (h : l.length = 16) :
    ∃ a0 a1 a2 a3 a4 a5 a6 a7 a8 a9 a10 a11 a12 a13 a14 a15 : Nat,
      l = [a0, a1, a2, a3, a4, a5, a6, a7, a8, a9, a10, a11, a12, a13, a14, a15] := by
  obtain ⟨a0, l0, e0, h0⟩ := @list_length_succ Nat 15 l h
  obtain ⟨a1, l1, e1, h1⟩ := @list_length_succ Nat 14 l0 h0
  obtain ⟨a2, l2, e2, h2⟩ := @list_length_succ Nat 13 l1 h1
  obtain ⟨a3, l3, e3, h3⟩ := @list_length_succ Nat 12 l2 h2
  obtain ⟨a4, l4, e4, h4⟩ := @list_length_succ Nat 11 l3 h3
  obtain ⟨a5, l5, e5, h5⟩ := @list_length_succ Nat 10 l4 h4
  obtain ⟨a6, l6, e6, h6⟩ := @list_length_succ Nat 9 l5 h5
  obtain ⟨a7, l7, e7, h7⟩ := @list_length_succ Nat 8 l6 h6
  obtain ⟨a8, l8, e8, h8⟩ := @list_length_succ Nat 7 l7 h7
  obtain ⟨a9, l9, e9, h9⟩ := @list_length_succ Nat 6 l8 h8
  obtain ⟨a10, l10, e10, h10⟩ := @list_length_succ Nat 5 l9 h9
  obtain ⟨a11, l11, e11, h11⟩ := @list_length_succ Nat 4 l10 h10
  obtain ⟨a12, l12, e12, h12⟩ := @list_length_succ Nat 3 l11 h11
  obtain ⟨a13, l13, e13, h13⟩ := @list_length_succ Nat 2 l12 h12
  obtain ⟨a14, l14, e14, h14⟩ := @list_length_succ Nat 1 l13 h13
  obtain ⟨a15, l15, e15, h15⟩ := @list_length_succ Nat 0 l14 h14
  have e16 : l15 = [] := List.length_eq_zero.mp h15
  refine ⟨a0, a1, a2, a3, a4, a5, a6, a7, a8, a9, a10, a11, a12, a13, a14, a15, ?_⟩
  rw [e0, e1, e2, e3, e4, e5, e6, e7, e8, e9, e10, e11, e12, e13, e14, e15, e16]

theorem q4_0_pack_length (qs : List Nat) : (q4_0_pack qs).length = QK4_0 / 2 := by
  simp [q4_0_pack, QK4_0]

/-- Rebuilding the quant bytes of a well-formed block from the 16 bytes written
for it gives the quant bytes back. -/
theorem q4_0_unpack_pack (qs : List Nat) (hlen : qs.length = QK4_0 / 2)
    (hb : ∀ x ∈ qs, x < 256) : q4_0_unpack (q4_0_pack qs) = qs := by
  obtain ⟨a0, a1, a2, a3, a4, a5, a6, a7, a8, a9, a10, a11, a12, a13, a14, a15, rfl⟩ :=
    list_length_16 qs hlen
  have e : q4_0_unpack (q4_0_pack
      [a0, a1, a2, a3, a4, a5, a6, a7, a8, a9, a10, a11, a12, a13, a14, a15]) =
      q4_0_pair (q4_0_low a0 a1) (q4_0_high a0 a1) ++
      (q4_0_pair (q4_0_low a2 a3) (q4_0_high a2 a3) ++
      (q4_0_pair (q4_0_low a4 a5) (q4_0_high a4 a5) ++
      (q4_0_pair (q4_0_low a6 a7) (q4_0_high a6 a7) ++
      (q4_0_pair (q4_0_low a8 a9) (q4_0_high a8 a9) ++
      (q4_0_pair (q4_0_low a10 a11) (q4_0_high a10 a11) ++
      (q4_0_pair (q4_0_low a12 a13) (q4_0_high a12 a13) ++
      (q4_0_pair (q4_0_low a14 a15) (q4_0_high a14 a15) ++ []))))))) := by
    rfl
  rw [e]
  simp only [List.mem_cons, List.mem_singleton, forall_eq_or_imp, forall_eq] at hb
  obtain ⟨h0, h1, h2, h3, h4, h5, h6, h7, h8, h9, h10, h11, h12, h13, h14, h15, -⟩ := hb
  rw [q4_0_pair_low_high h0 h1, q4_0_pair_low_high h2 h3, q4_0_pair_low_high h4 h5,
    q4_0_pair_low_high h6 h7, q4_0_pair_low_high h8 h9, q4_0_pair_low_high h10 h11,
    q4_0_pair_low_high h12 h13, q4_0_pair_low_high h14 h15]
  rfl

theorem xor_0x88_full (n : Nat) (l : List Nat) (h : n = l.length) :
    xor_0x88 n l = l.map (fun b => b ^^^ 0x88) := by
  subst h
  simp [xor_0x88]

theorem xor_0x88_twice (n : Nat) (l : List Nat) (h : n = l.length) :
    xor_0x88 n (xor_0x88 n l) = l := by
  rw [xor_0x88_full n l h, xor_0x88_full n _ (by simpa using h), List.map_map]
  have : ((fun b => b ^^^ 0x88) ∘ fun b => b ^^^ 0x88) = (id : Nat → Nat) := by
    funext b
    exact Nat.xor_cancel_right 0x88 b
  rw [this, List.map_id]

theorem q4_0_flatten_length (src : List block_q4_0) :
    (List.flatten (src.map (fun group => q4_0_pack group.qs))).length
      = QK4_0 / 2 * src.length := by
  induction src with
  | nil => rfl
  | cons g rest ih =>
    rw [List.map_cons, List.flatten_cons, List.length_append, ih, q4_0_pack_length,
      List.length_cons]
    ring

/-- The block loop of the transform back, run on what the block loop of the
transform wrote for well-formed blocks, rebuilds the blocks. -/
theorem transform_back_q4_0_loop_pack (src : List block_q4_0)
    (hwf : ∀ g ∈ src, g.wf) :
    transform_back_q4_0_loop src.length
      (List.flatten (src.map (fun group => q4_0_pack group.qs)))
      (src.map (fun group => group.d)) = src := by
  induction src with
  | nil => rfl
  | cons g rest ih =>
    have hg := hwf g (List.mem_cons_self g rest)
    rw [List.length_cons, List.map_cons, List.flatten_cons, List.map_cons]
    unfold transform_back_q4_0_loop
    rw [List.take_left' (q4_0_pack_length g.qs), List.drop_left' (q4_0_pack_length g.qs),
      q4_0_unpack_pack g.qs hg.1 hg.2]
    change { d := g.d, qs := g.qs } :: transform_back_q4_0_loop rest.length
      (List.flatten (rest.map (fun group => q4_0_pack group.qs)))
      (rest.map (fun group => group.d)) = g :: rest
    rw [ih (fun x hx => hwf x (List.mem_cons_of_mem g hx))]

theorem transform_q4_0_ok (n_elems : Nat) (src : List block_q4_0)
    (hg : n_elems / QK4_0 ≤ INT_MAX) :
    ggml_backend_cann_transform_q4_0 n_elems src =
      .ok { quant := xor_0x88 (n_elems * 1 / 2) (List.flatten
              ((src.take (n_elems / QK4_0)).map (fun group => q4_0_pack group.qs))),
            scale := (src.take (n_elems / QK4_0)).map (fun group => group.d) } := by
  unfold ggml_backend_cann_transform_q4_0
  exact if_neg (Nat.not_lt.mpr hg)

theorem transform_back_q4_0_ok (n_elems : Nat) (src : cann_quant_buffer)
    (hg : n_elems / QK4_0 ≤ INT_MAX) :
    ggml_backend_cann_transform_back_q4_0 n_elems src =
      .ok (transform_back_q4_0_loop (n_elems / QK4_0)
            (xor_0x88 (n_elems * 1 / 2) src.quant) src.scale,
          { src with quant := xor_0x88 (n_elems * 1 / 2) src.quant }) := by
  unfold ggml_backend_cann_transform_back_q4_0
  exact if_neg (Nat.not_lt.mpr hg)

/-- Q4_0 round trip while the loop counter stays in range: for an element
count that is a multiple of the block size with at most `INT_MAX` blocks and a
well-formed source buffer of that many blocks, the transform returns a device
buffer from which the transform back rebuilds the source buffer exactly. -/
theorem transform_q4_0_round_trip (n_elems : Nat) (src : List block_q4_0)
    (hn : n_elems % QK4_0 = 0) (hg : n_elems / QK4_0 ≤ INT_MAX)
    (hlen : src.length = n_elems / QK4_0) (hwf : ∀ g ∈ src, g.wf) :
    ∃ dev, ggml_backend_cann_transform_q4_0 n_elems src = .ok dev ∧
      ggml_backend_cann_transform_back_q4_0 n_elems dev =
        .ok (src, { dev with quant := xor_0x88 (n_elems * 1 / 2) dev.quant }) := by
  refine ⟨_, transform_q4_0_ok n_elems src hg, ?_⟩
  rw [transform_back_q4_0_ok n_elems _ hg]
  have htake : src.take (n_elems / QK4_0) = src := by
    rw [← hlen, List.take_length]
  have hbytes : n_elems * 1 / 2
      = (List.flatten (src.map (fun group => q4_0_pack group.qs))).length := by
    rw [q4_0_flatten_length, hlen]
    unfold QK4_0 at hn ⊢
    omega
  simp only [htake]
  rw [xor_0x88_twice _ _ hbytes, ← hlen, transform_back_q4_0_loop_pack src hwf]

theorem transform_back_q8_0_loop_copy (src : List block_q8_0)
    (hwf : ∀ g ∈ src, g.wf) :
    transform_back_q8_0_loop src.length
      (List.flatten (src.map (fun group => group.qs.take QK8_0)))
      (src.map (fun group => group.d)) = src := by
  induction src with
  | nil => rfl
  | cons g rest ih =>
    have hg : g.qs.length = QK8_0 := hwf g (List.mem_cons_self g rest)
    have ht : g.qs.take QK8_0 = g.qs := by rw [← hg, List.take_length]
    rw [List.length_cons, List.map_cons, List.flatten_cons, List.map_cons, ht]
    unfold transform_back_q8_0_loop
    rw [List.take_left' hg, List.drop_left' hg]
    change { d := g.d, qs := g.qs } :: transform_back_q8_0_loop rest.length
      (List.flatten (rest.map (fun group => group.qs.take QK8_0)))
      (rest.map (fun group => group.d)) = g :: rest
    rw [ih (fun x hx => hwf x (List.mem_cons_of_mem g hx))]

/-- Q8_0 round trip while the loop counter stays in range. -/
theorem transform_q8_0_round_trip (n_elems : Nat) (src : List block_q8_0)
    (hg : n_elems / QK8_0 ≤ INT_MAX)
    (hlen : src.length = n_elems / QK8_0) (hwf : ∀ g ∈ src, g.wf) :
    ∃ dev, ggml_backend_cann_transform_q8_0 n_elems src = .ok dev ∧
      ggml_backend_cann_transform_back_q8_0 n_elems dev = .ok src := by
  have htake : src.take (n_elems / QK8_0) = src := by
    rw [← hlen, List.take_length]
  refine ⟨{ quant := List.flatten (src.map (fun group => group.qs.take QK8_0)),
            scale := src.map (fun group => group.d) }, ?_, ?_⟩
  · unfold ggml_backend_cann_transform_q8_0
    simp only [htake]
    exact if_neg (Nat.not_lt.mpr hg)
  · unfold ggml_backend_cann_transform_back_q8_0
    simp only
    rw [if_neg (Nat.not_lt.mpr hg), ← hlen, transform_back_q8_0_loop_copy src hwf]

/-- The transforms on one Q4_0 block, byte by byte: the device buffer holds
the regrouped nibbles with `0x88` xored on, then the scale; the transform back
rebuilds the block and leaves the nibbles without the xor in its source. -/
theorem transform_q4_0_example :
    ggml_backend_cann_transform_q4_0 32
        [⟨7, [0x10, 0x32, 0x54, 0x76, 0x98, 0xba, 0xdc, 0xfe, 1, 2, 3, 4, 5, 6, 7, 8]⟩]
      = .ok ⟨[0xa8, 0xec, 0x20, 0x64, 0xa9, 0xcb, 0xed, 0x0f,
              0xb9, 0xfd, 0x31, 0x75, 0x88, 0x88, 0x88, 0x88], [7]⟩ ∧
    ggml_backend_cann_transform_back_q4_0 32
        ⟨[0xa8, 0xec, 0x20, 0x64, 0xa9, 0xcb, 0xed, 0x0f,
          0xb9, 0xfd, 0x31, 0x75, 0x88, 0x88, 0x88, 0x88], [7]⟩
      = .ok ([⟨7, [0x10, 0x32, 0x54, 0x76, 0x98, 0xba, 0xdc, 0xfe, 1, 2, 3, 4, 5, 6, 7, 8]⟩],
          ⟨[0x20, 0x64, 0xa8, 0xec, 0x21, 0x43, 0x65, 0x87,
            0x31, 0x75, 0xb9, 0xfd, 0, 0, 0, 0], [7]⟩) :=
  ⟨by rfl, by rfl⟩

/-- C19 (failing input): for a tensor of `2 ^ 36` elements, a multiple of the
block size, the block loops of `ggml_backend_cann_transform_q4_0` and
`ggml_backend_cann_transform_q8_0` have `2 ^ 31` iterations to make, one more
than the counter `int i` can count: whatever the source buffer, the counter is
incremented at `INT_MAX` and the transforms have no defined result to
transform back. -/
theorem transform_loop_counter_overflows (src4 : List block_q4_0)
    (src8 : List block_q8_0) :
    2 ^ 36 % QK4_0 = 0 ∧ 2 ^ 36 / QK4_0 = INT_MAX + 1 ∧
    ggml_backend_cann_transform_q4_0 (2 ^ 36) src4 = .error .int_overflow ∧
    ggml_backend_cann_transform_q8_0 (2 ^ 36) src8 = .error .int_overflow :=
  ⟨by rfl, by rfl, by rfl, by rfl⟩

/-! ## The Q4_0 device layout -/

theorem xor_0x88_low_nibble : ∀ b < 256, (b ^^^ 0x88) % 16 = (b % 16) ^^^ 8 := by decide

theorem xor_0x88_high_nibble : ∀ b < 256, (b ^^^ 0x88) / 16 = (b / 16) ^^^ 8 := by decide

theorem xor_8_nibble : ∀ v < 16, v ^^^ 8 = (v + 8) % 16 := by decide

theorem q4_0_pack_get_low (qs : List Nat) {k : Nat} (hk : k < 8) :
    (q4_0_pack qs)[k]? = some (q4_0_low (qs.getD (2 * k) 0) (qs.getD (2 * k + 1) 0)) := by
  unfold q4_0_pack
  have h8 : QK4_0 / 2 / 2 = 8 := by rfl
  rw [h8, List.getElem?_append_left (by simpa using hk)]
  simp [List.getElem?_map, List.getElem?_range hk]

theorem q4_0_pack_get_high (qs : List Nat) {k : Nat} (hk : k < 8) :
    (q4_0_pack qs)[8 + k]? = some (q4_0_high (qs.getD (2 * k) 0) (qs.getD (2 * k + 1) 0)) := by
  unfold q4_0_pack
  have h8 : QK4_0 / 2 / 2 = 8 := by rfl
  rw [h8, List.getElem?_append_right (by simp)]
  simp [List.getElem?_map, List.getElem?_range hk]

theorem getD_lt_256 {qs : List Nat} (hb : ∀ x ∈ qs, x < 256) (j : Nat) :
    qs.getD j 0 < 256 := by
  rw [List.getD_eq_getElem?_getD]
  cases h : qs[j]? with
  | none => simp
  | some x => exact hb x (List.getElem?_mem h)

/-- The 16 bytes written for one block hold, for every element `e` of the
block, its 4-bit value in byte `e / 2`, in the nibble chosen by the parity of
`e`; the xor with `0x88` then flips bit 3 of the value. -/
theorem q4_0_block_layout (g : block_q4_0) (hb : ∀ x ∈ g.qs, x < 256) (e : Nat)
    (he : e < 32) :
    ∃ byte, (q4_0_pack g.qs)[e / 2]? = some byte ∧ byte < 256 ∧
      cann_nibble (byte ^^^ 0x88) e = g.element e ^^^ 8 := by
  have hlt := getD_lt_256 hb
  unfold block_q4_0.element cann_nibble
  by_cases h16 : e < 16
  · have hk : e / 2 < 8 := by omega
    have hl := q4_0_low_eq (g.qs.getD (2 * (e / 2)) 0) (hlt (2 * (e / 2) + 1))
    refine ⟨_, q4_0_pack_get_low g.qs hk, by rw [hl]; omega, ?_⟩
    have hb256 : q4_0_low (g.qs.getD (2 * (e / 2)) 0) (g.qs.getD (2 * (e / 2) + 1) 0) < 256 := by
      rw [hl]; omega
    rw [if_pos h16]
    by_cases hpar : e % 2 = 0
    · rw [if_pos hpar, xor_0x88_low_nibble _ hb256, hl]
      have e1 : 2 * (e / 2) = e := by omega
      rw [e1]
      congr 1
      omega
    · rw [if_neg hpar, xor_0x88_high_nibble _ hb256, hl]
      have e1 : 2 * (e / 2) + 1 = e := by omega
      rw [e1]
      congr 1
      omega
  · have hk : e / 2 - 8 < 8 := by omega
    have hidx : e / 2 = 8 + (e / 2 - 8) := by omega
    have hh := q4_0_high_eq (hlt (2 * (e / 2 - 8))) (hlt (2 * (e / 2 - 8) + 1))
    have hget := q4_0_pack_get_high g.qs hk
    rw [← hidx] at hget
    refine ⟨_, hget, by rw [hh]; have := hlt (2 * (e / 2 - 8)); have := hlt (2 * (e / 2 - 8) + 1); omega, ?_⟩
    have hb256 : q4_0_high (g.qs.getD (2 * (e / 2 - 8)) 0)
        (g.qs.getD (2 * (e / 2 - 8) + 1) 0) < 256 := by
      rw [hh]
      have := hlt (2 * (e / 2 - 8))
      have := hlt (2 * (e / 2 - 8) + 1)
      omega
    rw [if_neg h16]
    by_cases hpar : e % 2 = 0
    · rw [if_pos hpar, xor_0x88_low_nibble _ hb256, hh]
      have e1 : 2 * (e / 2 - 8) = e - 16 := by omega
      rw [e1]
      congr 1
      have := hlt (e - 16)
      omega
    · rw [if_neg hpar, xor_0x88_high_nibble _ hb256, hh]
      have e1 : 2 * (e / 2 - 8) + 1 = e - 16 := by omega
      rw [e1]
      congr 1
      have := hlt (e - 16)
      have := hlt (2 * (e / 2 - 8))
      omega

theorem xor_0x88_of_le (n : Nat) (l : List Nat) (h : l.length ≤ n) :
    xor_0x88 n l = l.map (fun b => b ^^^ 0x88) := by
  unfold xor_0x88
  rw [List.take_of_length_le h, List.drop_of_length_le h, List.append_nil]

theorem q4_0_flatten_get :
    ∀ (src : List block_q4_0) (i : Nat) (g : block_q4_0) (k : Nat),
      src[i]? = some g → k < 16 →
      (List.flatten (src.map (fun group => q4_0_pack group.qs)))[16 * i + k]?
        = (q4_0_pack g.qs)[k]? := by
  intro src
  induction src with
  | nil => intro i g k h; simp at h
  | cons a rest ih =>
    intro i g k h hk
    have hlen : (q4_0_pack a.qs).length = 16 := q4_0_pack_length a.qs
    rw [List.map_cons, List.flatten_cons]
    cases i with
    | zero =>
      have ha : a = g := by simpa using h
      subst ha
      rw [List.getElem?_append_left (by rw [hlen]; omega), Nat.mul_zero, Nat.zero_add]
    | succ j =>
      have hj : rest[j]? = some g := by simpa using h
      rw [List.getElem?_append_right (by rw [hlen]; omega), hlen]
      have e : 16 * (j + 1) + k - 16 = 16 * j + k := by omega
      rw [e]
      exact ih j g k hj hk

/-- The device layout of Q4_0 while the loop counter stays in range: the
transform returns a buffer in which, for every block `i` and element `e` in
0..31, byte `16 * i + e / 2` of the quants holds, in the low nibble when `e` is
even and the high nibble when `e` is odd, the 4-bit value of element `e` with
bit 3 flipped, which is the 4-bit two's-complement encoding of the value
minus 8; and scale `i` (at byte offset `n_elems / 2 + 2 * i`) is the scale of
block `i`. -/
theorem transform_q4_0_layout (n_elems : Nat) (src : List block_q4_0)
    (hg : n_elems / QK4_0 ≤ INT_MAX) (hwf : ∀ g ∈ src, g.wf) :
    ∃ dev, ggml_backend_cann_transform_q4_0 n_elems src = .ok dev ∧
      ∀ (i : Nat) (g : block_q4_0), i < n_elems / QK4_0 → src[i]? = some g →
        dev.scale[i]? = some g.d ∧
        ∀ e < 32, ∃ byte, dev.quant[16 * i + e / 2]? = some byte ∧
          cann_nibble byte e = g.element e ^^^ 8 ∧
          cann_nibble byte e = (g.element e + 8) % 16 := by
  refine ⟨_, transform_q4_0_ok n_elems src hg, ?_⟩
  intro i g hi hsrc
  have htake : (src.take (n_elems / QK4_0))[i]? = some g := by
    rw [List.getElem?_take_of_lt hi]
    exact hsrc
  constructor
  · show ((src.take (n_elems / QK4_0)).map (fun group => group.d))[i]? = some g.d
    rw [List.getElem?_map, htake]
    rfl
  · intro e he
    obtain ⟨byte, hbyte, hlt, hnib⟩ :=
      q4_0_block_layout g (hwf g (List.getElem?_mem hsrc)).2 e he
    have hlen : (List.flatten ((src.take (n_elems / QK4_0)).map
        (fun group => q4_0_pack group.qs))).length ≤ n_elems * 1 / 2 := by
      rw [q4_0_flatten_length, List.length_take]
      unfold QK4_0
      omega
    refine ⟨byte ^^^ 0x88, ?_, hnib, ?_⟩
    · show (xor_0x88 (n_elems * 1 / 2) (List.flatten ((src.take (n_elems / QK4_0)).map
        (fun group => q4_0_pack group.qs))))[16 * i + e / 2]? = some (byte ^^^ 0x88)
      rw [xor_0x88_of_le _ _ hlen, List.getElem?_map,
        q4_0_flatten_get _ i g (e / 2) htake (by omega), hbyte]
      rfl
    · rw [hnib]
      apply xor_8_nibble
      unfold block_q4_0.element
      have := getD_lt_256 (hwf g (List.getElem?_mem hsrc)).2
      split
      · exact Nat.mod_lt _ (by norm_num)
      · have := this (e - 16)
        omega

/-- C28 (failing input): in a Q4_0 tensor of `2 ^ 36 + 32` elements the block
with index `2 ^ 31` exists, but the counter `int i` of
`ggml_backend_cann_transform_q4_0` cannot reach it: it is incremented at
`INT_MAX`, so whatever the source buffer the transform has no defined output
in which the elements of that block could be found; with `2 ^ 36 - 32`
elements (`INT_MAX` blocks) the transform is defined. -/
theorem transform_q4_0_block_beyond_int_counter (src : List block_q4_0) :
    (2 ^ 36 + 32) / QK4_0 = 2 ^ 31 + 1 ∧ INT_MAX < 2 ^ 31 ∧
    ggml_backend_cann_transform_q4_0 (2 ^ 36 + 32) src = .error .int_overflow ∧
    (2 ^ 36 - 32) / QK4_0 = INT_MAX ∧
    ∃ dev, ggml_backend_cann_transform_q4_0 (2 ^ 36 - 32) src = .ok dev :=
  ⟨by rfl, by decide, by rfl, by rfl, _, transform_q4_0_ok (2 ^ 36 - 32) src (by decide)⟩

/-! ## The debug check of the set-tensor paths -/

theorem memcmp_self : ∀ (a : List Nat) (size : Nat), memcmp a a size = 0 := by
  intro a
  induction a with
  | nil => intro size; unfold memcmp; rfl
  | cons x rest ih =>
    intro size
    cases size with
    | zero => unfold memcmp; rfl
    | succ n =>
      unfold memcmp
      rw [if_pos rfl]
      exact ih n

/-- For every quantized tensor within the range of the loop counter and every
well-formed host buffer, of any size, the debug check of
`ggml_backend_cann_buffer_set_tensor` holds and the call returns when the
native calls succeed, while the debug check of
`ggml_backend_cann_set_tensor_async` fails, whatever the native runtime
does. -/
theorem set_tensor_debug_checks (acl : AclSet) (size : Nat) :
    (∀ (n_elems : Nat) (data : List block_q4_0), n_elems % QK4_0 = 0 →
      n_elems / QK4_0 ≤ INT_MAX → data.length = n_elems / QK4_0 →
      (∀ g ∈ data, g.wf) →
      (∃ buf, ggml_backend_cann_buffer_set_tensor acl_set_ok (.q4_0 n_elems data) size
        = .ok (.quant buf)) ∧
      ggml_backend_cann_set_tensor_async acl (.q4_0 n_elems data) size
        = .error .check_assert) ∧
    (∀ (n_elems : Nat) (data : List block_q8_0),
      n_elems / QK8_0 ≤ INT_MAX → data.length = n_elems / QK8_0 →
      (∀ g ∈ data, g.wf) →
      (∃ buf, ggml_backend_cann_buffer_set_tensor acl_set_ok (.q8_0 n_elems data) size
        = .ok (.quant buf)) ∧
      ggml_backend_cann_set_tensor_async acl (.q8_0 n_elems data) size
        = .error .check_assert) := by
  constructor
  · intro n_elems data hn hg hlen hwf
    obtain ⟨dev, h1, h2⟩ := transform_q4_0_round_trip n_elems data hn hg hlen hwf
    constructor
    · refine ⟨{ dev with quant := xor_0x88 (n_elems * 1 / 2) dev.quant }, ?_⟩
      unfold ggml_backend_cann_buffer_set_tensor
      rw [if_neg (by decide)]
      simp only [h1, h2, memcmp_self, not_true_eq_false, if_false]
      rw [if_neg (by decide)]
    · unfold ggml_backend_cann_set_tensor_async
      simp only [h1, h2, memcmp_self, ne_eq, not_true_eq_false, not_false_eq_true, if_true]
  · intro n_elems data hg hlen hwf
    obtain ⟨dev, h1, h2⟩ := transform_q8_0_round_trip n_elems data hg hlen hwf
    constructor
    · refine ⟨dev, ?_⟩
      unfold ggml_backend_cann_buffer_set_tensor
      rw [if_neg (by decide)]
      simp only [h1, h2, memcmp_self, not_true_eq_false, if_false]
      rw [if_neg (by decide)]
    · unfold ggml_backend_cann_set_tensor_async
      simp only [h1, h2, memcmp_self, ne_eq, not_true_eq_false, not_false_eq_true, if_true]

/-- C26 (failing input): for a Q4_0 tensor of 32 elements with one well-formed
block of 18 bytes, and likewise for a Q8_0 tensor of 32 elements with one
block of 34 bytes, the transform back reproduces the host data, `memcmp`
returns 0 and the debug check of `ggml_backend_cann_set_tensor_async`,
written without `== 0`, fails, whereas `ggml_backend_cann_buffer_set_tensor`
passes its check on the same input and returns. -/
theorem set_tensor_async_debug_check_aborts :
    memcmp (block_q4_0.bytes
        ⟨7, [0x10, 0x32, 0x54, 0x76, 0x98, 0xba, 0xdc, 0xfe, 1, 2, 3, 4, 5, 6, 7, 8]⟩)
      (block_q4_0.bytes
        ⟨7, [0x10, 0x32, 0x54, 0x76, 0x98, 0xba, 0xdc, 0xfe, 1, 2, 3, 4, 5, 6, 7, 8]⟩) 18 = 0 ∧
    ggml_backend_cann_set_tensor_async acl_set_ok (.q4_0 32
        [⟨7, [0x10, 0x32, 0x54, 0x76, 0x98, 0xba, 0xdc, 0xfe, 1, 2, 3, 4, 5, 6, 7, 8]⟩]) 18
      = .error .check_assert ∧
    ggml_backend_cann_buffer_set_tensor acl_set_ok (.q4_0 32
        [⟨7, [0x10, 0x32, 0x54, 0x76, 0x98, 0xba, 0xdc, 0xfe, 1, 2, 3, 4, 5, 6, 7, 8]⟩]) 18
      = .ok (.quant ⟨[0x20, 0x64, 0xa8, 0xec, 0x21, 0x43, 0x65, 0x87,
          0x31, 0x75, 0xb9, 0xfd, 0, 0, 0, 0], [7]⟩) ∧
    ggml_backend_cann_set_tensor_async acl_set_ok (.q8_0 32
        [⟨9, List.range 32⟩]) 34 = .error .check_assert ∧
    ggml_backend_cann_buffer_set_tensor acl_set_ok (.q8_0 32
        [⟨9, List.range 32⟩]) 34 = .ok (.quant ⟨List.range 32, [9]⟩) :=
  ⟨by rfl, by rfl, by rfl, by rfl, by rfl⟩

/-! ## Buffer-type lookup -/

/-- What `ggml_backend_cann_buffer_type` returns: `nullptr` for an index at or
above the device count, the address of entry `device` of the table for every
index below it, negative ones included. -/
theorem buffer_type_lookup (device_count device : Int) :
    (device_count ≤ device → ggml_backend_cann_buffer_type device_count device = none) ∧
    (device < device_count →
      ggml_backend_cann_buffer_type device_count device = some device) := by
  unfold ggml_backend_cann_buffer_type
  constructor
  · intro h
    exact if_pos h
  · intro h
    exact if_neg (by omega)

/-- C20 (failing input): with one device, `ggml_backend_cann_buffer_type(-1)`
does not return `nullptr` but the address of the entry at index `-1`, before
the table, although the index is out of range; `ggml_backend_cann_init(-1)`
rejects the same index and returns `nullptr`.  The indices 0 (in range) and 1
(at the device count) are answered as documented. -/
theorem buffer_type_negative_index_not_null :
    ggml_backend_cann_buffer_type 1 (-1) = some (-1) ∧
    ggml_backend_cann_init 1 (-1) = none ∧
    ggml_backend_cann_buffer_type 1 0 = some 0 ∧
    ggml_backend_cann_buffer_type 1 1 = none := by
  decide

/-! ## Initialisation of the device information -/

theorem ggml_cann_init_loop_error (acl : AclInit) :
    ∀ (ids devices : List Nat), (∃ id ∈ ids, acl.getAllocationGranularity id = none) →
      ggml_cann_init_loop acl ids devices = .error .acl_check := by
  intro ids
  induction ids with
  | nil => rintro devices ⟨id, hid, -⟩; cases hid
  | cons a rest ih =>
    rintro devices ⟨id, hid, hnone⟩
    unfold ggml_cann_init_loop
    cases ha : acl.getAllocationGranularity a with
    | none => rfl
    | some g =>
      simp only
      apply ih
      rcases List.mem_cons.mp hid with rfl | hid
      · rw [ha] at hnone; cases hnone
      · exact ⟨id, hid, hnone⟩

theorem ggml_cann_init_loop_ok (acl : AclInit) :
    ∀ (ids devices : List Nat), (∀ id ∈ ids, acl.getAllocationGranularity id ≠ none) →
      ∃ devices', ggml_cann_init_loop acl ids devices = .ok devices' ∧
        devices'.length = devices.length ∧
        (∀ id : Nat, id ∉ ids → devices'[id]? = devices[id]?) ∧
        (ids.Nodup → ∀ id ∈ ids, id < devices.length →
          devices'[id]? = acl.getAllocationGranularity id) := by
  intro ids
  induction ids with
  | nil =>
    intro devices _
    exact ⟨devices, rfl, rfl, fun _ _ => rfl, fun _ id hid => by cases hid⟩
  | cons a rest ih =>
    intro devices hall
    unfold ggml_cann_init_loop
    cases ha : acl.getAllocationGranularity a with
    | none => exact absurd ha (hall a (List.mem_cons_self _ _))
    | some g =>
      simp only
      obtain ⟨devices', hok, hlen, hout, hin⟩ :=
        ih (devices.set a g) (fun id hid => hall id (List.mem_cons_of_mem _ hid))
      refine ⟨devices', hok, by rw [hlen, List.length_set], ?_, ?_⟩
      · intro id hid
        have h1 : id ∉ rest := fun h => hid (List.mem_cons_of_mem _ h)
        have h2 : a ≠ id := fun h => hid (h ▸ List.mem_cons_self _ _)
        rw [hout id h1, List.getElem?_set_ne h2]
      · intro hnd id hid hlt
        obtain ⟨hnot, hnd'⟩ := List.nodup_cons.mp hnd
        rcases List.mem_cons.mp hid with rfl | hid
        · rw [hout id hnot, ha]
          simp [List.getElem?_set, hlt]
        · exact hin hnd' id hid (by rw [List.length_set]; exact hlt)

/-- C21: if the native device-count query fails, `ggml_cann_init` returns the
all-zero table without aborting; if it succeeds with a count (the value then
found in `info.device_count`) above `GGML_CANN_MAX_DEVICES`, it aborts on its
assertion; otherwise it aborts only if a granularity query fails, and when it
returns, every entry with index below the count holds the granularity the
native platform reported for that device, the other entries 0. -/
theorem ggml_cann_init_cases (max_devices : Nat) (acl : AclInit) :
    (acl.getDeviceCount = none →
      ggml_cann_init max_devices acl = .ok ⟨0, List.replicate max_devices 0⟩) ∧
    (∀ c, acl.getDeviceCount = some c → (max_devices : Int) < int32_of_uint32 c →
      ggml_cann_init max_devices acl = .error .device_count_assert) ∧
    (∀ c, acl.getDeviceCount = some c → c < 2 ^ 31 → max_devices < c →
      ggml_cann_init max_devices acl = .error .device_count_assert) ∧
    (∀ c, acl.getDeviceCount = some c → int32_of_uint32 c ≤ (max_devices : Int) →
      ((∃ id : Nat, (id : Int) < int32_of_uint32 c ∧
          acl.getAllocationGranularity id = none) →
        ggml_cann_init max_devices acl = .error .acl_check) ∧
      ((∀ id : Nat, (id : Int) < int32_of_uint32 c →
          acl.getAllocationGranularity id ≠ none) →
        ∃ info, ggml_cann_init max_devices acl = .ok info ∧
          info.device_count = int32_of_uint32 c ∧
          info.devices.length = max_devices ∧
          (∀ id : Nat, (id : Int) < int32_of_uint32 c →
            info.devices[id]? = acl.getAllocationGranularity id) ∧
          (∀ id : Nat, ¬ ((id : Int) < int32_of_uint32 c) → id < max_devices →
            info.devices[id]? = some 0))) := by
  have habort : ∀ c, acl.getDeviceCount = some c →
      (max_devices : Int) < int32_of_uint32 c →
      ggml_cann_init max_devices acl = .error .device_count_assert := by
    intro c hc hgt
    unfold ggml_cann_init
    rw [hc]
    simp only
    rw [if_pos (by omega)]
  refine ⟨?_, habort, ?_, ?_⟩
  · intro h
    unfold ggml_cann_init
    rw [h]
  · intro c hc h31 hgt
    apply habort c hc
    unfold int32_of_uint32
    rw [if_pos (by omega)]
    omega
  · intro c hc hle
    have hmem : ∀ id : Nat, id ∈ List.range (int32_of_uint32 c).toNat ↔
        (id : Int) < int32_of_uint32 c := by
      intro id
      rw [List.mem_range]
      omega
    constructor
    · rintro ⟨id, hid, hnone⟩
      unfold ggml_cann_init
      rw [hc]
      simp only
      rw [if_neg (by omega),
        ggml_cann_init_loop_error acl _ _ ⟨id, (hmem id).mpr hid, hnone⟩]
    · intro hall
      obtain ⟨devices', hok, hlen, hout, hin⟩ :=
        ggml_cann_init_loop_ok acl (List.range (int32_of_uint32 c).toNat)
          (List.replicate max_devices 0) (fun id hid => hall id ((hmem id).mp hid))
      refine ⟨⟨int32_of_uint32 c, devices'⟩, ?_, rfl, ?_, ?_, ?_⟩
      · unfold ggml_cann_init
        rw [hc]
        simp only
        rw [if_neg (by omega), hok]
      · rw [hlen, List.length_replicate]
      · intro id hid
        apply hin (List.nodup_range _) id ((hmem id).mpr hid)
        rw [List.length_replicate]
        omega
      · intro id hid hlt
        show devices'[id]? = some 0
        rw [hout id (fun h => hid ((hmem id).mp h))]
        simp [hlt]

/-- C21 on concrete native answers: a failed count query gives the all-zero
table of 4 entries; a count of 5 with `GGML_CANN_MAX_DEVICES = 4` aborts; a
count of 2 with granularities 2 MiB and 4 MiB gives the table
`[2 MiB, 4 MiB, 0, 0]`; a failing granularity query aborts. -/
theorem ggml_cann_init_example :
    ggml_cann_init 4 ⟨none, fun _ => none⟩ = .ok ⟨0, [0, 0, 0, 0]⟩ ∧
    ggml_cann_init 4 ⟨some 5, fun _ => some (2 ^ 21)⟩ = .error .device_count_assert ∧
    ggml_cann_init 4 ⟨some 2, fun id => some ((id + 1) * 2 ^ 21)⟩
      = .ok ⟨2, [2 ^ 21, 2 ^ 22, 0, 0]⟩ ∧
    ggml_cann_init 4 ⟨some 2, fun id => if id = 1 then none else some (2 ^ 21)⟩
      = .error .acl_check :=
  ⟨by rfl, by rfl, by rfl, by rfl⟩

/-! ## Supported operations and the dispatch -/

/-- Every operation that `ggml_backend_cann_supports_op` accepts has a case in
`ggml_cann_compute_forward` that returns true. -/
theorem supports_op_compute_forward (t : ggml_tensor)
    (h : ggml_backend_cann_supports_op t = true) : ggml_cann_compute_forward t = true := by
  unfold ggml_backend_cann_supports_op at h
  unfold ggml_cann_compute_forward
  cases hop : t.op <;> rw [hop] at h <;> first | rfl | exact h | skip
  cases hu : t.unary_op <;> (rw [hu] at h; try exact h)

/-- The node loop does not abort on a graph of supported nodes. -/
theorem graph_compute_loop_supported :
    ∀ nodes : List ggml_tensor, (∀ n ∈ nodes, ggml_backend_cann_supports_op n = true) →
      graph_compute_loop nodes = .ok .GGML_STATUS_SUCCESS := by
  intro nodes
  induction nodes with
  | nil => intro _; rfl
  | cons node rest ih =>
    intro h
    have hn := supports_op_compute_forward node (h node (List.mem_cons_self _ _))
    have hr := ih (fun n hm => h n (List.mem_cons_of_mem _ hm))
    unfold graph_compute_loop
    split
    · exact hr
    · rw [if_neg (by rw [hn]; exact Bool.noConfusion), hr]

/-- C27: for every tensor operation (op kind, unary sub-op, operand types) for
which `ggml_backend_cann_supports_op` returns true,
`ggml_cann_compute_forward` has a dispatch case and returns true; so
`ggml_backend_cann_graph_compute` on a graph of supported nodes passes every
`GGML_ASSERT(ok)` and returns `GGML_STATUS_SUCCESS`. -/
theorem supported_ops_are_dispatchable :
    (∀ t : ggml_tensor, ggml_backend_cann_supports_op t = true →
      ggml_cann_compute_forward t = true) ∧
    (∀ nodes : List ggml_tensor, (∀ n ∈ nodes, ggml_backend_cann_supports_op n = true) →
      ggml_backend_cann_graph_compute true nodes = .ok .GGML_STATUS_SUCCESS) ∧
    (∀ nodes : List ggml_tensor, ∀ e,
      ggml_backend_cann_graph_compute true nodes = .error e →
        e = .ok_assert ∧ ∃ n ∈ nodes, ggml_backend_cann_supports_op n = false) := by
  refine ⟨supports_op_compute_forward, ?_, ?_⟩
  · intro nodes h
    unfold ggml_backend_cann_graph_compute
    rw [if_neg (by decide)]
    exact graph_compute_loop_supported nodes h
  · intro nodes e he
    unfold ggml_backend_cann_graph_compute at he
    rw [if_neg (by decide)] at he
    constructor
    · clear * - he
      induction nodes with
      | nil => cases he
      | cons node rest ih =>
        unfold graph_compute_loop at he
        split at he
        · exact ih he
        · split at he
          · injection he with he
            exact he.symm
          · exact ih he
    · by_contra hno
      have hall : ∀ n ∈ nodes, ggml_backend_cann_supports_op n = true := by
        intro n hn
        by_contra hf
        exact hno ⟨n, hn, by simpa using hf⟩
      rw [graph_compute_loop_supported nodes hall] at he
      cases he

/-- C27 on a concrete graph: an `ADD` node, a `GELU` node, a `MUL_MAT` node
with a Q4_0 operand and an empty node of an unsupported kind are computed
without abort; a non-empty `MUL_MAT_ID` node is not supported and stops the
graph on `GGML_ASSERT(ok)`. -/
theorem supported_ops_example :
    ggml_backend_cann_graph_compute true
      [⟨.GGML_TYPE_F32, .GGML_OP_ADD, .other 0, .GGML_TYPE_F32, 8, false⟩,
       ⟨.GGML_TYPE_F32, .GGML_OP_UNARY, .GGML_UNARY_OP_GELU, .GGML_TYPE_F32, 8, false⟩,
       ⟨.GGML_TYPE_F32, .GGML_OP_MUL_MAT, .other 0, .GGML_TYPE_Q4_0, 8, false⟩,
       ⟨.GGML_TYPE_F32, .GGML_OP_MUL_MAT_ID, .other 0, .GGML_TYPE_F32, 0, true⟩]
      = .ok .GGML_STATUS_SUCCESS ∧
    ggml_backend_cann_supports_op
      ⟨.GGML_TYPE_F32, .GGML_OP_MUL_MAT_ID, .other 0, .GGML_TYPE_F32, 8, false⟩ = false ∧
    ggml_backend_cann_graph_compute true
      [⟨.GGML_TYPE_F32, .GGML_OP_MUL_MAT_ID, .other 0, .GGML_TYPE_F32, 8, false⟩]
      = .error .ok_assert :=
  ⟨by rfl, by rfl, by rfl⟩

end GgmlCann
